import Mathlib

/-!
# boardgameatlas: a shallow embedding of the search client and its driver

The Go program has two source files, `api/search.go` (the search client) and
`main.go` (the command-line driver).  Go strings are byte sequences, so a
string is a list of bytes here.  The unsigned machine integer `uint` is taken
at 64 bits: a `Nat` below `2 ^ 64`.  The standard-library functions the two
files call (`strconv`, `net/url`, `net/http`, `context`, `strings`, `unicode`,
`unicode/utf8`, `encoding/json`) are embedded next to them, as far as the
program reaches them.

A loop of the Go code that is not a recursion on the structure of its input
takes a number of turns as first argument.  Every such loop consumes at least
one byte of its input per turn, and it is started with more turns than the
input has bytes.
-/

set_option maxRecDepth 100000

/-- One byte of a Go string. -/
abbrev Byte := Fin 256

/-- A Go `string`: an immutable sequence of bytes. -/
abbrev GoString := List Byte

/-- The bytes of an ASCII string literal. -/
def ascii (s : String) : GoString := s.toList.map (fun c => Fin.ofNat c.toNat)

/-- Width in bits of Go's `uint` and `int` on the 64-bit platform. -/
def uintSize : Nat := 64

/-- The conversion `int(u)` of a `uint`: the same 64 bits read in two's complement. -/
def toInt (u : Nat) : Int :=
  if u % 2 ^ uintSize < 2 ^ (uintSize - 1) then ((u % 2 ^ uintSize : Nat) : Int)
  else ((u % 2 ^ uintSize : Nat) : Int) - 2 ^ uintSize

namespace strconv

/-- Digit `d` of a decimal representation as its ASCII byte, `byte('0' + d)`. -/
def digitByte (d : Nat) : Byte := Fin.ofNat (48 + d % 10)

/-- The loop of `formatBits` for base 10: digits are produced from the least
significant one and written in front of those already there.  The fuel is the
number of digits that are left in the buffer. -/
def formatBits : Nat → Nat → GoString → GoString
  | 0, _, acc => acc
  | fuel + 1, u, acc =>
    if u ≥ 10 then formatBits fuel (u / 10) (digitByte (u % 10) :: acc)
    else digitByte u :: acc

/-- `strconv.FormatUint(u, 10)` for a 64-bit `u` (at most 20 digits); it is also
what `fmt.Sprintf("%d", u)` prints for an unsigned `u`. -/
def FormatUint (u : Nat) : GoString := formatBits 20 u []

/-- `strconv.FormatInt(i, 10)`: a minus sign and the magnitude when `i` is negative. -/
def FormatInt (i : Int) : GoString :=
  if i < 0 then 45 :: FormatUint i.natAbs else FormatUint i.natAbs

/-- `strconv.Itoa(i)` is `FormatInt(int64(i), 10)`. -/
def Itoa (i : Int) : GoString := FormatInt i

end strconv

namespace url

/-- `shouldEscape(c, encodeQueryComponent)`: only the unreserved characters of
RFC 3986 (letters, digits, `-`, `_`, `.`, `~`) are left alone in a query component. -/
def shouldEscape (c : Byte) : Bool :=
  if (97 ≤ c.val ∧ c.val ≤ 122) ∨ (65 ≤ c.val ∧ c.val ≤ 90) ∨ (48 ≤ c.val ∧ c.val ≤ 57) then false
  else if c = 45 ∨ c = 95 ∨ c = 46 ∨ c = 126 then false
  else true

/-- The table `upperhex = "0123456789ABCDEF"` indexed by a four-bit value. -/
def upperhex (n : Nat) : Byte :=
  if n % 16 < 10 then Fin.ofNat (48 + n % 16) else Fin.ofNat (55 + n % 16)

/-- `ishex(c)`. -/
def ishex (c : Byte) : Bool :=
  (48 ≤ c.val ∧ c.val ≤ 57) ∨ (97 ≤ c.val ∧ c.val ≤ 102) ∨ (65 ≤ c.val ∧ c.val ≤ 70)

/-- `unhex(c)`. -/
def unhex (c : Byte) : Nat :=
  if 48 ≤ c.val ∧ c.val ≤ 57 then c.val - 48
  else if 97 ≤ c.val ∧ c.val ≤ 102 then c.val - 97 + 10
  else if 65 ≤ c.val ∧ c.val ≤ 70 then c.val - 65 + 10
  else 0

/-- What `escape(s, encodeQueryComponent)` writes for one byte: `+` for a space,
`%XX` for a byte that must be escaped (`c>>4` and `c&15` index `upperhex`), the
byte itself otherwise. -/
def escapeByte (c : Byte) : GoString :=
  if c = 32 then [43]
  else if shouldEscape c then [37, upperhex (c.val / 16), upperhex (c.val % 16)]
  else [c]

/-- `url.QueryEscape(s)`. -/
def QueryEscape (s : GoString) : GoString := s.flatMap escapeByte

/-- First pass of `unescape`: every `%` must be followed by two hex digits.
Returns the offending segment (at most three bytes, the text of the
`EscapeError`) when one is not. -/
def unescapeCheck : GoString → Option GoString
  | [] => none
  | c :: rest =>
    if c = 37 then
      match rest with
      | h1 :: h2 :: rest2 =>
        if ishex h1 && ishex h2 then unescapeCheck rest2 else some [c, h1, h2]
      | _ => some (c :: rest)
    else unescapeCheck rest

/-- Second pass of `unescape` in query-component mode: `%XX` becomes the byte
`unhex(X)<<4 | unhex(X)`, `+` becomes a space. -/
def unescapeBytes : GoString → GoString
  | [] => []
  | c :: rest =>
    if c = 37 then
      match rest with
      | h1 :: h2 :: rest2 => Fin.ofNat (unhex h1 * 16 + unhex h2) :: unescapeBytes rest2
      | _ => []
    else if c = 43 then 32 :: unescapeBytes rest
    else c :: unescapeBytes rest

/-- `url.QueryUnescape(s)`: the decoded string, or the `EscapeError` segment. -/
def QueryUnescape (s : GoString) : Except GoString GoString :=
  match unescapeCheck s with
  | some seg => .error seg
  | none => .ok (unescapeBytes s)

/-- `strings.Cut(s, sep)` for a separator of one byte: the text before the first
`sep`, the text after it, and whether `sep` was found. -/
def cut (sep : Byte) : GoString → GoString × GoString × Bool
  | [] => ([], [], false)
  | c :: rest =>
    if c = sep then ([], rest, true)
    else ((c :: (cut sep rest).1), (cut sep rest).2.1, (cut sep rest).2.2)

/-- `url.Values`, a `map[string][]string`: an association list with one entry
per key. -/
abbrev Values := List (GoString × List GoString)

/-- The map lookup `v[key]`; a missing key gives the nil slice. -/
def Values.lookup (v : Values) (key : GoString) : List GoString :=
  match v with
  | [] => []
  | (k, vs) :: rest => if k = key then vs else Values.lookup rest key

/-- `v.Add(key, value)`: `v[key] = append(v[key], value)`. -/
def Values.Add (v : Values) (key value : GoString) : Values :=
  match v with
  | [] => [(key, [value])]
  | (k, vs) :: rest =>
    if k = key then (k, vs ++ [value]) :: rest else (k, vs) :: Values.Add rest key value

/-- The errors `parseQuery` can report. -/
inductive ParseError where
  | semicolon
  | escape (segment : GoString)
  deriving DecidableEq, Repr

/-- The loop `for query != ""` of `parseQuery`: cut at `&`, skip a piece with a
`;` (recording the error) or without a key, cut the piece at `=`, unescape key
and value, append.  The first error is kept and parsing goes on. -/
def parseQueryLoop : Nat → Values → Option ParseError → GoString → Values × Option ParseError
  | 0, m, err, _ => (m, err)
  | fuel + 1, m, err, query =>
    if query = [] then (m, err)
    else
      let key := (cut 38 query).1
      let query2 := (cut 38 query).2.1
      if 59 ∈ key then parseQueryLoop fuel m (some .semicolon) query2
      else if key = [] then parseQueryLoop fuel m err query2
      else
        let value := (cut 61 key).2.1
        let key2 := (cut 61 key).1
        match QueryUnescape key2 with
        | .error seg => parseQueryLoop fuel m (if err = none then some (.escape seg) else err) query2
        | .ok key3 =>
          match QueryUnescape value with
          | .error seg => parseQueryLoop fuel m (if err = none then some (.escape seg) else err) query2
          | .ok value2 => parseQueryLoop fuel (Values.Add m key3 value2) err query2

/-- `url.ParseQuery(query)`: the values parsed and the first error met, if any.
Every turn of the loop consumes at least one byte, so the length of the query
is enough fuel. -/
def ParseQuery (query : GoString) : Values × Option ParseError :=
  parseQueryLoop (query.length + 1) [] none query

/-- Byte-wise lexicographic order of Go strings, `a < b`. -/
def stringLess : GoString → GoString → Bool
  | _, [] => false
  | [], _ :: _ => true
  | a :: as, b :: bs => if a.val < b.val then true else if b.val < a.val then false else stringLess as bs

/-- Insertion of a key into a sorted list of keys. -/
def insertKey (k : GoString) : List GoString → List GoString
  | [] => [k]
  | x :: xs => if stringLess x k then x :: insertKey k xs else k :: x :: xs

/-- `slices.Sort(keys)`: the keys in ascending order. -/
def sortKeys : List GoString → List GoString
  | [] => []
  | k :: ks => insertKey k (sortKeys ks)

/-- The inner loop of `Encode` over the values of one key. -/
def encodeKey (keyEscaped : GoString) : List GoString → GoString → GoString
  | [], buf => buf
  | v :: vs, buf =>
    encodeKey keyEscaped vs
      ((if buf.length > 0 then buf ++ [38] else buf) ++ keyEscaped ++ [61] ++ QueryEscape v)

/-- The outer loop of `Encode` over the sorted keys. -/
def encodeKeys (v : Values) : List GoString → GoString → GoString
  | [], buf => buf
  | k :: ks, buf => encodeKeys v ks (encodeKey (QueryEscape k) (Values.lookup v k) buf)

/-- `v.Encode()`: the "URL encoded" form `bar=baz&foo=quux`, sorted by key. -/
def Values.Encode (v : Values) : GoString :=
  encodeKeys v (sortKeys (v.map Prod.fst)) []

/-- The fields of `url.URL` the program uses. -/
structure URL where
  Scheme : GoString
  Host : GoString
  Path : GoString
  RawQuery : GoString
  deriving DecidableEq, Repr

/-- `u.String()` for a URL with a scheme, a host and an absolute path that need
no escaping: `scheme://host/path`, and `?query` when the query is not empty. -/
def URL.String (u : URL) : GoString :=
  u.Scheme ++ ascii "://" ++ u.Host ++ u.Path ++
    (if u.RawQuery ≠ [] then 63 :: u.RawQuery else [])

/-- `u.Query()`: `ParseQuery(u.RawQuery)` with the error dropped. -/
def URL.Query (u : URL) : Values := (ParseQuery u.RawQuery).1

/-- The text of a `*url.Error`, `fmt.Sprintf("%s %q: %s", e.Op, e.URL, e.Err)`,
for a URL that `%q` leaves as it is between the double quotes. -/
def errorText (op u err : GoString) : GoString :=
  op ++ [32, 34] ++ u ++ [34, 58, 32] ++ err

end url

namespace context

/-- A `context.Context` as the program builds and passes it: the background
context, a context derived with a timeout of `d` nanoseconds
(`context.WithTimeout`), or one derived with a cancel function that has or has
not been called (`context.WithCancel`). -/
inductive Context where
  | Background
  | WithTimeout (parent : Context) (d : Int)
  | WithCancel (parent : Context) (canceled : Bool)
  deriving DecidableEq, Repr

/-- `ctx.Err()` when the request is made: the parent's error if it has one;
`context deadline exceeded` for a timeout that is not positive (`WithDeadline`
cancels such a context at once); `context canceled` once cancel was called. -/
def Context.Err : Context → Option GoString
  | .Background => none
  | .WithTimeout parent d =>
    match parent.Err with
    | some e => some e
    | none => if d ≤ 0 then some (ascii "context deadline exceeded") else none
  | .WithCancel parent canceled =>
    match parent.Err with
    | some e => some e
    | none => if canceled then some (ascii "context canceled") else none

end context

namespace io

/-- An `io.ReadCloser` as the one that reads it to its end sees it: the bytes the
reads deliver, and the error of the read that ends the stream, `none` for
`io.EOF` (the stream is complete) and the message of the error when a read
fails (the connection breaks, the context of the request expires while the
body is on its way).  How the bytes are spread over the reads is left out: the
decoder scans all the bytes it was given before it looks at the error. -/
structure ReadCloser where
  data : GoString
  err : Option GoString
  deriving DecidableEq, Repr

end io

namespace http

/-- The fields of `http.Request` the program sets. -/
structure Request where
  Method : GoString
  URL : url.URL
  ctx : context.Context
  deriving DecidableEq, Repr

/-- The fields of `http.Response` the program reads. -/
structure Response where
  StatusCode : Int
  Status : GoString
  Body : io.ReadCloser
  deriving DecidableEq, Repr

/-- `http.NewRequestWithContext(ctx, method, url, nil)` for a valid method and a
URL that parses to `u`: it fails for a nil context only. -/
def NewRequestWithContext (ctx : Option context.Context) (method : GoString) (u : url.URL) :
    Except GoString Request :=
  match ctx with
  | none => .error (ascii "net/http: nil Context")
  | some c => .ok { Method := method, URL := u, ctx := c }

/-- `http.DefaultClient.Do(req)`.  `net` stands for the network: the response or
the error a round trip of this request ends in.  `Do` returns when the headers
of the response are in; the body is a stream that is read afterwards, and a
failure of the transport from then on is an error of that stream.  A request
whose context is already done is not sent: the client returns the context's
error in a `*url.Error`. -/
def Do (net : Request → Except GoString Response) (req : Request) : Except GoString Response :=
  match req.ctx.Err with
  | some e => .error (url.errorText (ascii "Get") req.URL.String e)
  | none => net req

end http

namespace api

/-- `const SEARCH_URL`. -/
def SEARCH_URL : GoString := ascii "https://api.boardgameatlas.com/api/search"

/-- What `url.Parse(SEARCH_URL)` returns inside `http.NewRequestWithContext`. -/
def SEARCH_URL_parsed : url.URL :=
  { Scheme := ascii "https", Host := ascii "api.boardgameatlas.com",
    Path := ascii "/api/search", RawQuery := [] }

/-- The struct `BoardgameAtlas`. -/
structure BoardgameAtlas where
  clientId : GoString
  deriving DecidableEq, Repr

/-- `func New(clientId string) BoardgameAtlas`. -/
def New (clientId : GoString) : BoardgameAtlas := { clientId := clientId }

/-- The query parameters `Search` adds to the request, in the order of the four
`qs.Add` calls: `limit` goes through `fmt.Sprintf("%d", limit)` and `skip`
through `strconv.Itoa(int(skip))`. -/
def searchValues (b : BoardgameAtlas) (u : url.URL) (query : GoString) (limit skip : Nat) :
    url.Values :=
  let qs := u.Query
  let qs := qs.Add (ascii "name") query
  let qs := qs.Add (ascii "limit") (strconv.FormatUint limit)
  let qs := qs.Add (ascii "skip") (strconv.Itoa (toInt skip))
  let qs := qs.Add (ascii "client_id") b.clientId
  qs

/-- Lines 40-55 of `Search`: the request is created and its query string set.
The error is the one `Search` returns when the request cannot be created. -/
def searchRequest (b : BoardgameAtlas) (ctx : Option context.Context) (query : GoString)
    (limit skip : Nat) : Except GoString http.Request :=
  match http.NewRequestWithContext ctx (ascii "GET") SEARCH_URL_parsed with
  | .error err => .error (ascii "cannot create HTTP client: " ++ err)
  | .ok req =>
    .ok { req with URL := { req.URL with
            RawQuery := (searchValues b req.URL query limit skip).Encode } }

end api

namespace utf8

/-- `utf8.RuneError`, U+FFFD. -/
def RuneError : Nat := 0xFFFD

/-- `utf8.RuneSelf`: bytes below it are single-byte runes. -/
def RuneSelf : Nat := 0x80

/-- `utf8.MaxRune`. -/
def MaxRune : Nat := 0x10FFFF

/-- The table `first` joined with `acceptRanges`, for a leading byte that is not
ASCII: the size of the sequence and the range the second byte must lie in;
`none` for the entries marked `xx` (invalid leading byte). -/
def first (p0 : Byte) : Option (Nat × Nat × Nat) :=
  if p0.val < 0xC2 then none
  else if p0.val ≤ 0xDF then some (2, 0x80, 0xBF)
  else if p0.val = 0xE0 then some (3, 0xA0, 0xBF)
  else if p0.val ≤ 0xEC then some (3, 0x80, 0xBF)
  else if p0.val = 0xED then some (3, 0x80, 0x9F)
  else if p0.val ≤ 0xEF then some (3, 0x80, 0xBF)
  else if p0.val = 0xF0 then some (4, 0x90, 0xBF)
  else if p0.val ≤ 0xF3 then some (4, 0x80, 0xBF)
  else if p0.val = 0xF4 then some (4, 0x80, 0x8F)
  else none

/-- A continuation byte, `locb <= b && b <= hicb`. -/
def isCont (b : Byte) : Bool := 0x80 ≤ b.val ∧ b.val ≤ 0xBF

/-- `utf8.DecodeRune(p)` (and `DecodeRuneInString`): the first rune of `p` and its
width in bytes; `(RuneError, 0)` for empty input, `(RuneError, 1)` for an
invalid encoding.  The masks `p0&mask2`, `b&maskx` and the shifts are written
with `%` and `*`. -/
def DecodeRune : GoString → Nat × Nat
  | [] => (RuneError, 0)
  | p0 :: rest =>
    if p0.val < RuneSelf then (p0.val, 1)
    else
      match first p0 with
      | none => (RuneError, 1)
      | some (sz, lo, hi) =>
        if rest.length + 1 < sz then (RuneError, 1)
        else
          match rest with
          | [] => (RuneError, 1)
          | b1 :: rest1 =>
            if b1.val < lo ∨ hi < b1.val then (RuneError, 1)
            else if sz ≤ 2 then (p0.val % 32 * 64 + b1.val % 64, 2)
            else
              match rest1 with
              | [] => (RuneError, 1)
              | b2 :: rest2 =>
                if !isCont b2 then (RuneError, 1)
                else if sz ≤ 3 then (p0.val % 16 * 4096 + b1.val % 64 * 64 + b2.val % 64, 3)
                else
                  match rest2 with
                  | [] => (RuneError, 1)
                  | b3 :: _ =>
                    if !isCont b3 then (RuneError, 1)
                    else (p0.val % 8 * 262144 + b1.val % 64 * 4096 + b2.val % 64 * 64
                            + b3.val % 64, 4)

/-- `utf8.RuneStart(b)`: `b` is not a continuation byte. -/
def RuneStart (b : Byte) : Bool := b.val / 64 ≠ 2

/-- The loop `for start--; start >= lim; start--` of `DecodeLastRune`: walk back
to a byte that can start a rune, not below `lim`.  It runs at most three times. -/
def lastRuneLoop (p : GoString) (lim : Int) : Nat → Int → Int
  | 0, start => start
  | fuel + 1, start =>
    if start ≥ lim then
      if RuneStart (p.getD start.toNat 0) then start else lastRuneLoop p lim fuel (start - 1)
    else start

/-- `utf8.DecodeLastRune(p)` (and `DecodeLastRuneInString`): the last rune of `p`
and its width. -/
def DecodeLastRune (p : GoString) : Nat × Nat :=
  let endp := p.length
  if endp = 0 then (RuneError, 0)
  else if (p.getD (endp - 1) 0).val < RuneSelf then ((p.getD (endp - 1) 0).val, 1)
  else
    let lim : Int := if (endp : Int) - 4 < 0 then 0 else (endp : Int) - 4
    let start := lastRuneLoop p lim 4 ((endp : Int) - 1 - 1)
    let start := if start < 0 then 0 else start.toNat
    if start + (DecodeRune (p.drop start)).2 ≠ endp then (RuneError, 1)
    else DecodeRune (p.drop start)

/-- `utf8.AppendRune(nil, r)` for a rune that is not negative: the UTF-8 encoding
of `r`, and that of `RuneError` for a surrogate or a value above `MaxRune`. -/
def AppendRune (r : Nat) : GoString :=
  if r ≤ 0x7F then [Fin.ofNat r]
  else if r ≤ 0x7FF then [Fin.ofNat (0xC0 + r / 64), Fin.ofNat (0x80 + r % 64)]
  else if r > MaxRune ∨ (0xD800 ≤ r ∧ r ≤ 0xDFFF) then [0xEF, 0xBF, 0xBD]
  else if r ≤ 0xFFFF then
    [Fin.ofNat (0xE0 + r / 4096), Fin.ofNat (0x80 + r / 64 % 64), Fin.ofNat (0x80 + r % 64)]
  else
    [Fin.ofNat (0xF0 + r / 262144), Fin.ofNat (0x80 + r / 4096 % 64),
     Fin.ofNat (0x80 + r / 64 % 64), Fin.ofNat (0x80 + r % 64)]

/-- The loop behind `utf8.ValidString`: no rune of the string decodes to
`(RuneError, 1)`, the mark of an invalid encoding.  A turn consumes one rune. -/
def validLoop : Nat → GoString → Bool
  | 0, _ => true
  | fuel + 1, s =>
    if s = [] then true
    else if DecodeRune s = (RuneError, 1) then false
    else validLoop fuel (s.drop (DecodeRune s).2)

/-- `utf8.ValidString(s)`: the string consists of valid UTF-8 encoded runes only. -/
def ValidString (s : GoString) : Bool := validLoop (s.length + 1) s

/-- The runes of a string as `for _, r := range s` yields them, one per turn. -/
def runes : Nat → GoString → List Nat
  | 0, _ => []
  | fuel + 1, s =>
    if s = [] then [] else (DecodeRune s).1 :: runes fuel (s.drop (DecodeRune s).2)

end utf8

namespace unicode

/-- `unicode.IsSpace(r)`: the Latin-1 spaces `\t \n \v \f \r`, space, U+0085 and
U+00A0, and above Latin-1 the ranges of the table `White_Space`. -/
def IsSpace (r : Nat) : Bool :=
  if r ≤ 0xFF then
    r = 9 ∨ r = 10 ∨ r = 11 ∨ r = 12 ∨ r = 13 ∨ r = 32 ∨ r = 0x85 ∨ r = 0xA0
  else
    r = 0x1680 ∨ (0x2000 ≤ r ∧ r ≤ 0x200A) ∨ (0x2028 ≤ r ∧ r ≤ 0x2029) ∨ r = 0x202F
      ∨ r = 0x205F ∨ r = 0x3000

end unicode

namespace strings

/-- The table `asciiSpace`: `\t \n \v \f \r` and space. -/
def asciiSpace (c : Byte) : Bool :=
  c.val = 9 ∨ c.val = 10 ∨ c.val = 11 ∨ c.val = 12 ∨ c.val = 13 ∨ c.val = 32

/-- `indexFunc(s, f, truth)`: the byte index of the first rune `r` of `s` with
`f(r) == truth`, `none` for -1.  The argument `i` is the index `s` starts at. -/
def indexFunc (f : Nat → Bool) (truth : Bool) : Nat → GoString → Nat → Option Nat
  | 0, _, _ => none
  | fuel + 1, s, i =>
    if s = [] then none
    else if f (utf8.DecodeRune s).1 = truth then some i
    else indexFunc f truth fuel (s.drop (utf8.DecodeRune s).2) (i + (utf8.DecodeRune s).2)

/-- `lastIndexFunc(s, f, truth)`: the loop `for i := len(s); i > 0;` that decodes
the last rune of `s[0:i]`, steps back over it and returns `i` when `f(r) == truth`;
`none` for -1. -/
def lastIndexFunc (f : Nat → Bool) (truth : Bool) (s : GoString) : Nat → Nat → Option Nat
  | 0, _ => none
  | fuel + 1, i =>
    if i > 0 then
      let rs := utf8.DecodeLastRune (s.take i)
      if f rs.1 = truth then some (i - rs.2) else lastIndexFunc f truth s fuel (i - rs.2)
    else none

/-- `strings.TrimLeftFunc(s, f)`. -/
def TrimLeftFunc (s : GoString) (f : Nat → Bool) : GoString :=
  match indexFunc f false (s.length + 1) s 0 with
  | none => []
  | some i => s.drop i

/-- `strings.TrimRightFunc(s, f)`. -/
def TrimRightFunc (s : GoString) (f : Nat → Bool) : GoString :=
  match lastIndexFunc f false s (s.length + 1) s.length with
  | some i =>
    if (s.getD i 0).val ≥ utf8.RuneSelf then s.take (i + (utf8.DecodeRune (s.drop i)).2)
    else s.take (i + 1)
  | none => s.take 0

/-- `strings.TrimFunc(s, f)`. -/
def TrimFunc (s : GoString) (f : Nat → Bool) : GoString :=
  TrimRightFunc (TrimLeftFunc s f) f

/-- The second loop of `TrimSpace`: walk back from the end over ASCII spaces;
`rev` is `s[start:stop]` reversed.  A byte that is not ASCII sends the rest to
`TrimRightFunc`. -/
def trimSpaceEnd : List Byte → GoString
  | [] => []
  | c :: rev =>
    if c.val ≥ utf8.RuneSelf then TrimRightFunc (c :: rev).reverse unicode.IsSpace
    else if !asciiSpace c then (c :: rev).reverse
    else trimSpaceEnd rev

/-- `strings.TrimSpace(s)`: the first loop walks over leading ASCII spaces and
hands over to `TrimFunc` at a byte that is not ASCII; then the second loop trims
the end. -/
def TrimSpace : GoString → GoString
  | [] => []
  | c :: rest =>
    if c.val ≥ utf8.RuneSelf then TrimFunc (c :: rest) unicode.IsSpace
    else if !asciiSpace c then trimSpaceEnd (c :: rest).reverse
    else TrimSpace rest

end strings

namespace utf16

/-- `utf16.IsSurrogate(r)`. -/
def IsSurrogate (r : Nat) : Bool := 0xD800 ≤ r ∧ r < 0xE000

/-- `utf16.DecodeRune(r1, r2)`: the code point of a surrogate pair, U+FFFD when
the pair is not valid.  `none` stands for the -1 of a failed `getu4`. -/
def DecodeRune (r1 : Nat) (r2 : Option Nat) : Nat :=
  match r2 with
  | none => 0xFFFD
  | some r2 =>
    if 0xD800 ≤ r1 ∧ r1 < 0xDC00 ∧ 0xDC00 ≤ r2 ∧ r2 < 0xE000 then
      (r1 - 0xD800) * 1024 + (r2 - 0xDC00) + 0x10000
    else 0xFFFD

end utf16

namespace json

/-- A JSON value as the decoder sees it after scanning: a number keeps the text
of its literal, a string and an object key are already unquoted. -/
inductive Value where
  | null
  | bool (b : Bool)
  | number (lit : GoString)
  | string (s : GoString)
  | array (elems : List Value)
  | object (members : List (GoString × Value))

/-- How scanning one value can fail: the scanner rejects byte `c`
(`s.error(c, context)`), or the input ends inside the value. -/
inductive ScanError where
  | invalidChar (c : Byte) (context : GoString)
  | eof
  deriving DecidableEq, Repr

/-- The scanner's `isSpace(c)`. -/
def isSpace (c : Byte) : Bool := c.val ≤ 32 ∧ (c.val = 32 ∨ c.val = 9 ∨ c.val = 13 ∨ c.val = 10)

/-- Skip the bytes for which the scanner answers `scanSkipSpace`. -/
def skipSpace : GoString → GoString
  | [] => []
  | c :: rest => if isSpace c then skipSpace rest else c :: rest

/-- A decimal digit. -/
def isDigit (c : Byte) : Bool := 48 ≤ c.val ∧ c.val ≤ 57

/-- A hexadecimal digit, as `stateInStringEscU` accepts it. -/
def isHex (c : Byte) : Bool :=
  (48 ≤ c.val ∧ c.val ≤ 57) ∨ (97 ≤ c.val ∧ c.val ≤ 102) ∨ (65 ≤ c.val ∧ c.val ≤ 70)

/-- Put a byte in front of the text a scan returns. -/
def consResult (c : Byte) (r : Except ScanError (GoString × GoString)) :
    Except ScanError (GoString × GoString) :=
  match r with
  | .ok (raw, rest) => .ok (c :: raw, rest)
  | .error e => .error e

/-- The scanner states `stateInString`, `stateInStringEsc` and
`stateInStringEscU...`, entered after the opening quote: the text up to the
closing quote (escapes left as they are) and the input after it. -/
def scanString : GoString → Except ScanError (GoString × GoString)
  | [] => .error .eof
  | c :: rest =>
    if c = 34 then .ok ([], rest)
    else if c = 92 then
      match rest with
      | [] => .error .eof
      | e :: rest2 =>
        if e = 98 ∨ e = 102 ∨ e = 110 ∨ e = 114 ∨ e = 116 ∨ e = 92 ∨ e = 47 ∨ e = 34 then
          consResult c (consResult e (scanString rest2))
        else if e = 117 then
          match rest2 with
          | [] => .error .eof
          | h1 :: rest3 =>
            if !isHex h1 then
              .error (.invalidChar h1 (ascii "in \\u hexadecimal character escape"))
            else
              match rest3 with
              | [] => .error .eof
              | h2 :: rest4 =>
                if !isHex h2 then
                  .error (.invalidChar h2 (ascii "in \\u hexadecimal character escape"))
                else
                  match rest4 with
                  | [] => .error .eof
                  | h3 :: rest5 =>
                    if !isHex h3 then
                      .error (.invalidChar h3 (ascii "in \\u hexadecimal character escape"))
                    else
                      match rest5 with
                      | [] => .error .eof
                      | h4 :: rest6 =>
                        if !isHex h4 then
                          .error (.invalidChar h4 (ascii "in \\u hexadecimal character escape"))
                        else
                          consResult c (consResult e (consResult h1 (consResult h2
                            (consResult h3 (consResult h4 (scanString rest6))))))
        else .error (.invalidChar e (ascii "in string escape code"))
    else if c.val < 32 then .error (.invalidChar c (ascii "in string literal"))
    else consResult c (scanString rest)

/-- The digits at the front of the input and what follows them
(`state1`, `stateDot0`, `stateE0` looping on a digit). -/
def scanDigits : GoString → GoString × GoString
  | [] => ([], [])
  | c :: rest => if isDigit c then (c :: (scanDigits rest).1, (scanDigits rest).2) else ([], c :: rest)

/-- The scanner states `stateE` and `stateESign`, entered after `e` or `E`: an
optional sign, then at least one digit. -/
def scanExponent (s : GoString) : Except ScanError (GoString × GoString) :=
  match s with
  | [] => .error .eof
  | c :: rest =>
    if c = 43 ∨ c = 45 then
      match rest with
      | [] => .error .eof
      | d :: rest2 =>
        if isDigit d then .ok (c :: d :: (scanDigits rest2).1, (scanDigits rest2).2)
        else .error (.invalidChar d (ascii "in exponent of numeric literal"))
    else if isDigit c then .ok (c :: (scanDigits rest).1, (scanDigits rest).2)
    else .error (.invalidChar c (ascii "in exponent of numeric literal"))

/-- The scanner state `state0`, entered after the integer part of a number: an
optional fraction (`stateDot`, `stateDot0`) and an optional exponent. -/
def scanFraction (s : GoString) : Except ScanError (GoString × GoString) :=
  match s with
  | [] => .ok ([], [])
  | c :: rest =>
    if c = 46 then
      match rest with
      | [] => .error .eof
      | d :: rest2 =>
        if isDigit d then
          match (scanDigits rest2).2 with
          | [] => .ok (c :: d :: (scanDigits rest2).1, [])
          | x :: rest3 =>
            if x = 101 ∨ x = 69 then
              match scanExponent rest3 with
              | .ok (ex, rest4) => .ok (c :: d :: (scanDigits rest2).1 ++ x :: ex, rest4)
              | .error err => .error err
            else .ok (c :: d :: (scanDigits rest2).1, x :: rest3)
        else .error (.invalidChar d (ascii "after decimal point in numeric literal"))
    else if c = 101 ∨ c = 69 then
      match scanExponent rest with
      | .ok (ex, rest2) => .ok (c :: ex, rest2)
      | .error err => .error err
    else .ok ([], c :: rest)

/-- The number states entered at a digit (`state0` for `0`, `state1` otherwise):
the text of the literal and the input after it. -/
def scanUnsigned (c : Byte) (rest : GoString) : Except ScanError (GoString × GoString) :=
  if c = 48 then consResult c (scanFraction rest)
  else
    match scanFraction (scanDigits rest).2 with
    | .ok (fr, rest2) => .ok (c :: (scanDigits rest).1 ++ fr, rest2)
    | .error err => .error err

/-- The scanner state `stateNeg`, entered after a minus sign. -/
def scanNegative (rest : GoString) : Except ScanError (GoString × GoString) :=
  match rest with
  | [] => .error .eof
  | d :: rest2 =>
    if isDigit d then consResult 45 (scanUnsigned d rest2)
    else .error (.invalidChar d (ascii "in numeric literal"))

/-- The states `stateT...`, `stateF...`, `stateN...`: the bytes in `expect` must
follow; `name` is the literal, for the text of the error. -/
def scanLiteral (name : GoString) : GoString → GoString → Except ScanError GoString
  | [], s => .ok s
  | _ :: _, [] => .error .eof
  | e :: expect, c :: rest =>
    if c = e then scanLiteral name expect rest
    else .error (.invalidChar c (ascii "in literal " ++ name ++ ascii " (expecting \x27" ++ [e]
                  ++ ascii "\x27)"))

/-- `getu4(s)`: the value of the four hex digits of an escape ` \uXXXX ` at the
front of `s`; `none` for -1. -/
def getu4 (s : GoString) : Option Nat :=
  match s with
  | b0 :: b1 :: h1 :: h2 :: h3 :: h4 :: _ =>
    if b0 = 92 ∧ b1 = 117 ∧ isHex h1 ∧ isHex h2 ∧ isHex h3 ∧ isHex h4 then
      some (((url.unhex h1 * 16 + url.unhex h2) * 16 + url.unhex h3) * 16 + url.unhex h4)
    else none
  | _ => none

/-- The first loop of `unquoteBytes`: the index of the first byte that needs
work (a backslash, a quote, a control character, invalid UTF-8), or the length
when there is none. -/
def unquoteScan : Nat → GoString → Nat → Nat
  | 0, _, r => r
  | fuel + 1, s, r =>
    match s with
    | [] => r
    | c :: rest =>
      if c = 92 ∨ c = 34 ∨ c.val < 32 then r
      else if c.val < utf8.RuneSelf then unquoteScan fuel rest (r + 1)
      else if utf8.DecodeRune (c :: rest) = (utf8.RuneError, 1) then r
      else unquoteScan fuel ((c :: rest).drop (utf8.DecodeRune (c :: rest)).2)
             (r + (utf8.DecodeRune (c :: rest)).2)

/-- The second loop of `unquoteBytes`: escapes are replaced, a surrogate pair of
escapes becomes one rune, other bytes are coerced to well-formed UTF-8.  `none`
when the text is not a valid string body. -/
def unquoteLoop : Nat → GoString → Option GoString
  | 0, _ => none
  | fuel + 1, s =>
    match s with
    | [] => some []
    | c :: rest =>
      if c = 92 then
        match rest with
        | [] => none
        | e :: rest2 =>
          if e = 34 ∨ e = 92 ∨ e = 47 ∨ e = 39 then (unquoteLoop fuel rest2).map (e :: ·)
          else if e = 98 then (unquoteLoop fuel rest2).map (8 :: ·)
          else if e = 102 then (unquoteLoop fuel rest2).map (12 :: ·)
          else if e = 110 then (unquoteLoop fuel rest2).map (10 :: ·)
          else if e = 114 then (unquoteLoop fuel rest2).map (13 :: ·)
          else if e = 116 then (unquoteLoop fuel rest2).map (9 :: ·)
          else if e = 117 then
            match getu4 (c :: rest) with
            | none => none
            | some rr =>
              if utf16.IsSurrogate rr then
                if utf16.DecodeRune rr (getu4 ((c :: rest).drop 6)) ≠ 0xFFFD then
                  (unquoteLoop fuel ((c :: rest).drop 12)).map
                    (utf8.AppendRune (utf16.DecodeRune rr (getu4 ((c :: rest).drop 6))) ++ ·)
                else (unquoteLoop fuel ((c :: rest).drop 6)).map (utf8.AppendRune 0xFFFD ++ ·)
              else (unquoteLoop fuel ((c :: rest).drop 6)).map (utf8.AppendRune rr ++ ·)
          else none
      else if c = 34 ∨ c.val < 32 then none
      else if c.val < utf8.RuneSelf then (unquoteLoop fuel rest).map (c :: ·)
      else
        (unquoteLoop fuel ((c :: rest).drop (utf8.DecodeRune (c :: rest)).2)).map
          (utf8.AppendRune (utf8.DecodeRune (c :: rest)).1 ++ ·)

/-- `unquoteBytes` on the text between the quotes of a string literal. -/
def unquoteBytes (s : GoString) : Option GoString :=
  let r := unquoteScan (s.length + 1) s 0
  if r = s.length then some s
  else (unquoteLoop (s.length + 1) (s.drop r)).map (s.take r ++ ·)

/-- A scanned string literal as a value; a literal the scanner accepted always
unquotes (otherwise the decoder would stop with its phase error, reported here
as running out of input). -/
def stringValue (r : Except ScanError (GoString × GoString)) :
    Except ScanError (Value × GoString) :=
  match r with
  | .error e => .error e
  | .ok (raw, rest) =>
    match unquoteBytes raw with
    | some s => .ok (.string s, rest)
    | none => .error .eof

/-- A scanned number literal as a value. -/
def numberValue (r : Except ScanError (GoString × GoString)) :
    Except ScanError (Value × GoString) :=
  match r with
  | .error e => .error e
  | .ok (lit, rest) => .ok (.number lit, rest)

/-- A scanned literal `true`, `false` or `null` as a value. -/
def literalValue (v : Value) (r : Except ScanError GoString) : Except ScanError (Value × GoString) :=
  match r with
  | .error e => .error e
  | .ok rest => .ok (v, rest)

/-- The scanner state `stateBeginValue`: skip space and branch on the first byte.
`arr` and `obj` scan the rest of an array and of an object after the opening
bracket. -/
def beginValue (arr obj : Byte → GoString → Except ScanError (Value × GoString))
    (s : GoString) : Except ScanError (Value × GoString) :=
  match skipSpace s with
  | [] => .error .eof
  | c :: rest =>
    if c = 123 then obj c rest
    else if c = 91 then arr c rest
    else if c = 34 then stringValue (scanString rest)
    else if c = 45 then numberValue (scanNegative rest)
    else if c = 48 then numberValue (scanUnsigned c rest)
    else if c = 116 then literalValue (.bool true) (scanLiteral (ascii "true") (ascii "rue") rest)
    else if c = 102 then
      literalValue (.bool false) (scanLiteral (ascii "false") (ascii "alse") rest)
    else if c = 110 then literalValue .null (scanLiteral (ascii "null") (ascii "ull") rest)
    else if 49 ≤ c.val ∧ c.val ≤ 57 then numberValue (scanUnsigned c rest)
    else .error (.invalidChar c (ascii "looking for beginning of value"))

/-- The elements of an array after the first one has been found to exist: a
value, then `,` and the next element, or `]`.  A turn consumes one element;
`pv` scans a value. -/
def scanElems (pv : GoString → Except ScanError (Value × GoString)) :
    Nat → GoString → List Value → Except ScanError (Value × GoString)
  | 0, _, _ => .error .eof
  | fuel + 1, s, acc =>
    match pv s with
    | .error e => .error e
    | .ok (v, rest) =>
      match skipSpace rest with
      | [] => .error .eof
      | c :: rest2 =>
        if c = 44 then scanElems pv fuel rest2 (acc ++ [v])
        else if c = 93 then .ok (.array (acc ++ [v]), rest2)
        else .error (.invalidChar c (ascii "after array element"))

/-- The scanner state `stateBeginValueOrEmpty`, entered after `[`. -/
def scanArray (pv : GoString → Except ScanError (Value × GoString)) (s : GoString) :
    Except ScanError (Value × GoString) :=
  match skipSpace s with
  | [] => .error .eof
  | c :: rest =>
    if c = 93 then .ok (.array [], rest)
    else scanElems pv (s.length + 1) (c :: rest) []

/-- The members of an object from `stateBeginString` on: a key in quotes, `:`,
a value, then `,` and the next member, or `}`.  A turn consumes one member;
`pv` scans a value. -/
def scanMembers (pv : GoString → Except ScanError (Value × GoString)) :
    Nat → GoString → List (GoString × Value) → Except ScanError (Value × GoString)
  | 0, _, _ => .error .eof
  | fuel + 1, s, acc =>
    match skipSpace s with
    | [] => .error .eof
    | q :: rest =>
      if q = 34 then
        match scanString rest with
        | .error e => .error e
        | .ok (raw, rest2) =>
          match unquoteBytes raw with
          | none => .error .eof
          | some key =>
            match skipSpace rest2 with
            | [] => .error .eof
            | colon :: rest3 =>
              if colon = 58 then
                match pv rest3 with
                | .error e => .error e
                | .ok (v, rest4) =>
                  match skipSpace rest4 with
                  | [] => .error .eof
                  | c :: rest5 =>
                    if c = 44 then scanMembers pv fuel rest5 (acc ++ [(key, v)])
                    else if c = 125 then .ok (.object (acc ++ [(key, v)]), rest5)
                    else .error (.invalidChar c (ascii "after object key:value pair"))
              else .error (.invalidChar colon (ascii "after object key"))
      else .error (.invalidChar q (ascii "looking for beginning of object key string"))

/-- The scanner state `stateBeginStringOrEmpty`, entered after `{`. -/
def scanObject (pv : GoString → Except ScanError (Value × GoString)) (s : GoString) :
    Except ScanError (Value × GoString) :=
  match skipSpace s with
  | [] => .error .eof
  | c :: rest =>
    if c = 125 then .ok (.object [], rest)
    else scanMembers pv (s.length + 1) (c :: rest) []

/-- `maxNestingDepth`: the scanner refuses to open more nested arrays and objects. -/
def maxNestingDepth : Nat := 10000

/-- Scan one value.  The first argument is the number of arrays and objects that
may still be opened inside one another (`pushParseState` fails beyond
`maxNestingDepth`). -/
def scanValue : Nat → GoString → Except ScanError (Value × GoString)
  | 0, s =>
    beginValue (fun c _ => .error (.invalidChar c (ascii "exceeded max depth")))
      (fun c _ => .error (.invalidChar c (ascii "exceeded max depth"))) s
  | depth + 1, s =>
    beginValue (fun _ rest => scanArray (scanValue depth) rest)
      (fun _ rest => scanObject (scanValue depth) rest) s

end json

namespace strconv

/-- The loop of `ParseUint(s, 10, 64)` over the bytes of a non-empty `s`: a byte
that is not a decimal digit is a syntax error, a value that leaves 64 bits a
range error (`n >= cutoff`, or `n*10 + d` wrapping around); `none` for both. -/
def parseUintLoop : GoString → Nat → Option Nat
  | [], n => some n
  | c :: rest, n =>
    if 48 ≤ c.val ∧ c.val ≤ 57 then
      if n ≥ (2 ^ 64 - 1) / 10 + 1 then none
      else if n * 10 + (c.val - 48) > 2 ^ 64 - 1 then none
      else parseUintLoop rest (n * 10 + (c.val - 48))
    else none

/-- `strconv.ParseUint(s, 10, 64)`; `none` when it returns an error. -/
def ParseUint (s : GoString) : Option Nat :=
  if s = [] then none else parseUintLoop s 0

end strconv

namespace api

/-- The struct `Game`; `YearPublished` is a `uint`. -/
structure Game where
  Id : GoString
  Name : GoString
  Price : GoString
  YearPublished : Nat
  Description : GoString
  Url : GoString
  ImageUrl : GoString
  RulesUrl : GoString
  deriving DecidableEq, Repr

/-- The zero value of `Game`. -/
def Game.zero : Game :=
  { Id := [], Name := [], Price := [], YearPublished := 0, Description := [], Url := [],
    ImageUrl := [], RulesUrl := [] }

/-- A Go slice `[]Game`: nil, or a length over a backing array.  The backing
array is kept as far as it has been allocated; its elements from `len` on are
not part of the slice but stay in memory. -/
inductive GameSlice where
  | nil
  | slice (backing : List Game) (len : Nat)
  deriving DecidableEq, Repr

/-- The elements of a slice, `s[0], ..., s[len(s)-1]`. -/
def GameSlice.toList : GameSlice → List Game
  | .nil => []
  | .slice backing len => backing.take len

/-- The struct `SearchResult`; `Count` is a `uint`. -/
structure SearchResult where
  Games : GameSlice
  Count : Nat
  deriving DecidableEq, Repr

/-- All strings of a `Game` are valid UTF-8. -/
def Game.isUTF8 (g : Game) : Bool :=
  utf8.ValidString g.Id && utf8.ValidString g.Name && utf8.ValidString g.Price
    && utf8.ValidString g.Description && utf8.ValidString g.Url
    && utf8.ValidString g.ImageUrl && utf8.ValidString g.RulesUrl

/-- All strings of the games of a `SearchResult` are valid UTF-8. -/
def SearchResult.isUTF8 (r : SearchResult) : Bool := r.Games.toList.all Game.isUTF8

/-- The `uint` fields of a `SearchResult` and of its games hold 64-bit values. -/
def SearchResult.inRange (r : SearchResult) : Bool :=
  decide (r.Count < 2 ^ 64) && r.Games.toList.all (fun g => decide (g.YearPublished < 2 ^ 64))

/-- The zero value of `SearchResult`, what `var result SearchResult` declares. -/
def SearchResult.zero : SearchResult := { Games := .nil, Count := 0 }

end api

namespace json

/-- The fields of `UnmarshalTypeError` that its message shows. -/
structure UnmarshalTypeError where
  Value : GoString
  GoType : GoString
  Struct : GoString
  Field : GoString
  deriving DecidableEq, Repr

/-- The errors `Decode` returns: `io.EOF`, `io.ErrUnexpectedEOF`, a
`*SyntaxError`, an `*UnmarshalTypeError`, and the error of a read of the body
that failed, which the decoder hands on as it is. -/
inductive DecodeError where
  | EOF
  | UnexpectedEOF
  | Syntax (msg : GoString)
  | UnmarshalType (e : UnmarshalTypeError)
  | Read (err : GoString)
  deriving DecidableEq, Repr

/-- Lower-case hexadecimal digit, the table `hex` of the encoder and of `strconv.Quote`. -/
def lowerhex (n : Nat) : Byte :=
  if n % 16 < 10 then Fin.ofNat (48 + n % 16) else Fin.ofNat (87 + n % 16)

/-- `quoteChar(c)`: the byte as the messages of syntax errors show it.  The two
quotes are special; otherwise it is `strconv.Quote(string(c))` between single
quotes: a printable character stands for itself (as UTF-8, `string(c)` being
the rune `c`), a backslash is doubled, the rest is escaped. -/
def quoteChar (c : Byte) : GoString :=
  if c = 39 then ascii "\x27\\\x27\x27"
  else if c = 34 then ascii "\x27\"\x27"
  else if c = 92 then ascii "\x27\\\\\x27"
  else if (32 ≤ c.val ∧ c.val < 127) ∨ (161 ≤ c.val ∧ c.val ≠ 173) then
    [39] ++ utf8.AppendRune c.val ++ [39]
  else if c = 7 then ascii "\x27\\a\x27"
  else if c = 8 then ascii "\x27\\b\x27"
  else if c = 12 then ascii "\x27\\f\x27"
  else if c = 10 then ascii "\x27\\n\x27"
  else if c = 13 then ascii "\x27\\r\x27"
  else if c = 9 then ascii "\x27\\t\x27"
  else if c = 11 then ascii "\x27\\v\x27"
  else if c.val < 32 ∨ c = 127 then
    [39, 92, 120, lowerhex (c.val / 16), lowerhex (c.val % 16), 39]
  else [39, 92, 117, 48, 48, lowerhex (c.val / 16), lowerhex (c.val % 16), 39]

/-- The text `err.Error()` of a decoding error. -/
def DecodeError.Error : DecodeError → GoString
  | .EOF => ascii "EOF"
  | .UnexpectedEOF => ascii "unexpected EOF"
  | .Syntax msg => msg
  | .UnmarshalType e =>
    if e.Struct ≠ [] ∨ e.Field ≠ [] then
      ascii "json: cannot unmarshal " ++ e.Value ++ ascii " into Go struct field " ++ e.Struct
        ++ ascii "." ++ e.Field ++ ascii " of type " ++ e.GoType
    else ascii "json: cannot unmarshal " ++ e.Value ++ ascii " into Go value of type " ++ e.GoType
  | .Read err => err

/-- `dec.readValue()`: the first value of the stream.  The bytes that were read
are scanned before the error of the last read is looked at, so a value that is
complete, or a byte the scanner rejects, is found also when a failed read comes
after it.  An array or an object is complete at its closing bracket; any other
value is complete at the byte that follows it, and at `io.EOF`, for which the
decoder feeds the scanner a space.  What follows the value is left in the
buffer and not looked at.  When the bytes end before the value does, the error
is that of the read: for `io.EOF` it is `io.EOF` itself after spaces only and
`io.ErrUnexpectedEOF` otherwise. -/
def readValue (body : io.ReadCloser) : Except DecodeError Value :=
  match scanValue maxNestingDepth body.data with
  | .ok (v, rest) =>
    match body.err, v, rest with
    | none, _, _ => .ok v
    | some _, .array _, _ => .ok v
    | some _, .object _, _ => .ok v
    | some _, _, _ :: _ => .ok v
    | some e, _, [] => .error (.Read e)
  | .error (.invalidChar c context) =>
    .error (.Syntax (ascii "invalid character " ++ quoteChar c ++ ascii " " ++ context))
  | .error .eof =>
    match body.err with
    | some e => .error (.Read e)
    | none => if body.data.all isSpace then .error .EOF else .error .UnexpectedEOF

/-- `d.saveError(err)`: only the first error is kept. -/
def saveError (saved : Option UnmarshalTypeError) (e : UnmarshalTypeError) :
    Option UnmarshalTypeError :=
  match saved with
  | none => some e
  | some first => some first

/-- `foldRune(r)` for a rune that is not ASCII: the smallest rune of the orbit of
`unicode.SimpleFold`.  Only U+017F (long s) and U+212A (Kelvin sign) have an
ASCII letter in their orbit; for every other rune the result is above U+007F,
and the rune itself stands for it here, since only the comparison with the
ASCII names of the struct tags is made. -/
def foldRune (r : Nat) : Nat :=
  if r = 0x17F then 0x53 else if r = 0x212A then 0x4B else r

/-- `foldName(in)` (`appendFoldedName`): ASCII letters in upper case, other runes folded. -/
def foldName : Nat → GoString → GoString
  | 0, _ => []
  | fuel + 1, s =>
    match s with
    | [] => []
    | c :: rest =>
      if c.val < utf8.RuneSelf then
        (if 97 ≤ c.val ∧ c.val ≤ 122 then Fin.ofNat (c.val - 32) else c) :: foldName fuel rest
      else
        utf8.AppendRune (foldRune (utf8.DecodeRune (c :: rest)).1)
          ++ foldName fuel ((c :: rest).drop (utf8.DecodeRune (c :: rest)).2)

/-- The lookup of a key among the fields of a struct: `fields.byExactName[key]`,
and `fields.byFoldedName[foldName(key)]` when there is no exact match.  The
result is the index of the field in `names`. -/
def findField (names : List GoString) (key : GoString) : Option Nat :=
  match names.indexOf? key with
  | some i => some i
  | none =>
    (names.map (fun n => foldName (n.length + 1) n)).indexOf? (foldName (key.length + 1) key)

/-- The kind of a value, as `UnmarshalTypeError.Value` names it. -/
def Value.kindName : Value → GoString
  | .null => ascii "null"
  | .bool _ => ascii "bool"
  | .number _ => ascii "number"
  | .string _ => ascii "string"
  | .array _ => ascii "array"
  | .object _ => ascii "object"

/-- `d.value(v)` for `v` of kind string: a string literal is stored, `null` is
ignored, every other value leaves `v` alone and saves a type error. -/
def storeString (strct field : GoString) (cur : GoString) (v : Value)
    (saved : Option UnmarshalTypeError) : GoString × Option UnmarshalTypeError :=
  match v with
  | .null => (cur, saved)
  | .string s => (s, saved)
  | other =>
    (cur, saveError saved
      { Value := other.kindName, GoType := ascii "string", Struct := strct, Field := field })

/-- `d.value(v)` for `v` of kind uint: a number literal goes through
`strconv.ParseUint(s, 10, 64)` and is stored when that succeeds, `null` is
ignored, every other value saves a type error. -/
def storeUint (strct field : GoString) (cur : Nat) (v : Value)
    (saved : Option UnmarshalTypeError) : Nat × Option UnmarshalTypeError :=
  match v with
  | .null => (cur, saved)
  | .number lit =>
    match strconv.ParseUint lit with
    | some n => (n, saved)
    | none =>
      (cur, saveError saved
        { Value := ascii "number " ++ lit, GoType := ascii "uint", Struct := strct, Field := field })
  | other =>
    (cur, saveError saved
      { Value := other.kindName, GoType := ascii "uint", Struct := strct, Field := field })

/-- The JSON names of the fields of `Game`, from the struct tags, in the order of
the fields. -/
def gameFields : List GoString :=
  [ascii "id", ascii "name", ascii "price", ascii "year_published", ascii "description",
   ascii "official_url", ascii "image_url", ascii "rules_url"]

/-- The JSON names of the fields of `SearchResult`. -/
def resultFields : List GoString := [ascii "games", ascii "count"]

/-- One turn of the loop of `d.object` for a `Game`: the key selects a field and
the value is decoded into it; a key that selects no field is skipped.  The
error context is the struct `Game` and the field path `games.<name>`. -/
def decodeGameMember (g : api.Game) (saved : Option UnmarshalTypeError)
    (member : GoString × Value) : api.Game × Option UnmarshalTypeError :=
  let strct := ascii "Game"
  let path := fun (n : GoString) => ascii "games." ++ n
  match findField gameFields member.1 with
  | some 0 =>
    ({ g with Id := (storeString strct (path (ascii "id")) g.Id member.2 saved).1 },
      (storeString strct (path (ascii "id")) g.Id member.2 saved).2)
  | some 1 =>
    ({ g with Name := (storeString strct (path (ascii "name")) g.Name member.2 saved).1 },
      (storeString strct (path (ascii "name")) g.Name member.2 saved).2)
  | some 2 =>
    ({ g with Price := (storeString strct (path (ascii "price")) g.Price member.2 saved).1 },
      (storeString strct (path (ascii "price")) g.Price member.2 saved).2)
  | some 3 =>
    ({ g with YearPublished :=
          (storeUint strct (path (ascii "year_published")) g.YearPublished member.2 saved).1 },
      (storeUint strct (path (ascii "year_published")) g.YearPublished member.2 saved).2)
  | some 4 =>
    ({ g with Description :=
          (storeString strct (path (ascii "description")) g.Description member.2 saved).1 },
      (storeString strct (path (ascii "description")) g.Description member.2 saved).2)
  | some 5 =>
    ({ g with Url := (storeString strct (path (ascii "official_url")) g.Url member.2 saved).1 },
      (storeString strct (path (ascii "official_url")) g.Url member.2 saved).2)
  | some 6 =>
    ({ g with ImageUrl :=
          (storeString strct (path (ascii "image_url")) g.ImageUrl member.2 saved).1 },
      (storeString strct (path (ascii "image_url")) g.ImageUrl member.2 saved).2)
  | some 7 =>
    ({ g with RulesUrl :=
          (storeString strct (path (ascii "rules_url")) g.RulesUrl member.2 saved).1 },
      (storeString strct (path (ascii "rules_url")) g.RulesUrl member.2 saved).2)
  | _ => (g, saved)

/-- The loop of `d.object` over the members of an object decoded into a `Game`. -/
def decodeGameMembers : List (GoString × Value) → api.Game → Option UnmarshalTypeError →
    api.Game × Option UnmarshalTypeError
  | [], g, saved => (g, saved)
  | m :: ms, g, saved =>
    decodeGameMembers ms (decodeGameMember g saved m).1 (decodeGameMember g saved m).2

/-- `d.value(v)` for `v` of type `Game`, an element of the slice: an object is
decoded field by field into the element as it is, `null` is ignored, every
other value saves a type error (in the context of the field `games`). -/
def decodeGame (g : api.Game) (v : Value) (saved : Option UnmarshalTypeError) :
    api.Game × Option UnmarshalTypeError :=
  match v with
  | .object members => decodeGameMembers members g saved
  | .null => (g, saved)
  | other =>
    (g, saveError saved
      { Value := other.kindName, GoType := ascii "api.Game", Struct := ascii "SearchResult",
        Field := ascii "games" })

/-- The loop of `d.array` over the elements of an array decoded into a
`[]Game`: element `i` is decoded into `v.Index(i)`.  The slice is grown by a
zero element when `i` reaches its capacity and its length is raised to `i + 1`
when `i` reaches its length, so an element that is already in the backing array
is decoded into as it is. -/
def decodeGameElems : List Value → Nat → List api.Game → Nat → Option UnmarshalTypeError →
    List api.Game × Nat × Option UnmarshalTypeError
  | [], _, backing, len, saved => (backing, len, saved)
  | e :: es, i, backing, len, saved =>
    let backing := if i ≥ backing.length then backing ++ [api.Game.zero] else backing
    let len := if i ≥ len then i + 1 else len
    let r := decodeGame (backing.getD i api.Game.zero) e saved
    decodeGameElems es (i + 1) (backing.set i r.1) len r.2

/-- `d.value(v)` for `v` of type `[]Game`: an array is decoded element by
element, the slice is cut to the number of elements, and an empty array gives a
new empty slice; `null` gives the nil slice; every other value saves a type
error. -/
def decodeGames (cur : api.GameSlice) (v : Value) (saved : Option UnmarshalTypeError) :
    api.GameSlice × Option UnmarshalTypeError :=
  match v with
  | .array elems =>
    let backing := match cur with | .nil => [] | .slice b _ => b
    let len := match cur with | .nil => 0 | .slice _ l => l
    let r := decodeGameElems elems 0 backing len saved
    if elems.length = 0 then (.slice [] 0, r.2.2)
    else (.slice r.1 (if elems.length < r.2.1 then elems.length else r.2.1), r.2.2)
  | .null => (.nil, saved)
  | other =>
    (cur, saveError saved
      { Value := other.kindName, GoType := ascii "[]api.Game", Struct := ascii "SearchResult",
        Field := ascii "games" })

/-- One turn of the loop of `d.object` for a `SearchResult`. -/
def decodeResultMember (r : api.SearchResult) (saved : Option UnmarshalTypeError)
    (member : GoString × Value) : api.SearchResult × Option UnmarshalTypeError :=
  match findField resultFields member.1 with
  | some 0 =>
    ({ r with Games := (decodeGames r.Games member.2 saved).1 },
      (decodeGames r.Games member.2 saved).2)
  | some 1 =>
    ({ r with Count :=
          (storeUint (ascii "SearchResult") (ascii "count") r.Count member.2 saved).1 },
      (storeUint (ascii "SearchResult") (ascii "count") r.Count member.2 saved).2)
  | _ => (r, saved)

/-- The loop of `d.object` over the members of an object decoded into a
`SearchResult`. -/
def decodeResultMembers : List (GoString × Value) → api.SearchResult →
    Option UnmarshalTypeError → api.SearchResult × Option UnmarshalTypeError
  | [], r, saved => (r, saved)
  | m :: ms, r, saved =>
    decodeResultMembers ms (decodeResultMember r saved m).1 (decodeResultMember r saved m).2

/-- `d.unmarshal(&result)`: `d.value` at the top, for a `SearchResult`.  An object
is decoded field by field, `null` is ignored, every other value saves a type
error (outside of any struct field).  The result is what is in `result`
afterwards and `d.savedError`. -/
def unmarshal (r : api.SearchResult) (v : Value) : api.SearchResult × Option UnmarshalTypeError :=
  match v with
  | .object members => decodeResultMembers members r none
  | .null => (r, none)
  | other =>
    (r, some { Value := other.kindName, GoType := ascii "api.SearchResult", Struct := [],
               Field := [] })

/-- `json.NewDecoder(body).Decode(&result)`: read one value from the body, then
unmarshal it into `result`.  A type error met while unmarshalling is returned
after the whole value has been gone through. -/
def Decode (body : io.ReadCloser) (r : api.SearchResult) :
    api.SearchResult × Option DecodeError :=
  match readValue body with
  | .error e => (r, some e)
  | .ok v =>
    match (unmarshal r v).2 with
    | some e => ((unmarshal r v).1, some (.UnmarshalType e))
    | none => ((unmarshal r v).1, none)

end json

namespace json

/-- The value of the member of an object with the given key (the first one, if
the key occurs more than once). -/
def member (members : List (GoString × Value)) (key : GoString) : Option Value :=
  match members with
  | [] => none
  | (k, v) :: rest => if k = key then some v else member rest key

/-- From the words of the specification: the string a field is read from, the
zero value `d` when the key is absent. -/
def stringOr (d : GoString) : Option Value → GoString
  | some (.string s) => s
  | _ => d

/-- From the words of the specification: the integer a field is read from, the
zero value `d` when the key is absent. -/
def uintOr (d : Nat) : Option Value → Nat
  | some (.number lit) => (strconv.ParseUint lit).getD d
  | _ => d

/-- From the words of the specification: the `Game` a game object stands for,
each field read from its key. -/
def gameOf (members : List (GoString × Value)) : api.Game :=
  { Id := stringOr [] (member members (ascii "id")),
    Name := stringOr [] (member members (ascii "name")),
    Price := stringOr [] (member members (ascii "price")),
    YearPublished := uintOr 0 (member members (ascii "year_published")),
    Description := stringOr [] (member members (ascii "description")),
    Url := stringOr [] (member members (ascii "official_url")),
    ImageUrl := stringOr [] (member members (ascii "image_url")),
    RulesUrl := stringOr [] (member members (ascii "rules_url")) }

/-- The `Game` an element of the array `games` stands for. -/
def gameOfValue : Value → api.Game
  | .object members => gameOf members
  | _ => api.Game.zero

/-- From the words of the specification: the games of a response object, the
elements of its array `games` in their order. -/
def gamesOf (members : List (GoString × Value)) : List api.Game :=
  match member members (ascii "games") with
  | some (.array elems) => elems.map gameOfValue
  | _ => []

/-- From the words of the specification: the count of a response object, the
value of `count`. -/
def countOf (members : List (GoString × Value)) : Nat :=
  uintOr 0 (member members (ascii "count"))

/-- A JSON string. -/
def Value.isString : Value → Bool
  | .string _ => true
  | _ => false

/-- A JSON number that is a non-negative integer of at most 64 bits, written in
decimal digits. -/
def Value.isUint : Value → Bool
  | .number lit => (strconv.ParseUint lit).isSome
  | _ => false

/-- The documented shape of a game object: under `year_published` an integer,
under the other keys of the schema a string, every key of the schema at most
once; and any other key, as long as it is not a key of the schema in another
letter case (`findField` finds no field for it). -/
def gameShape : List (GoString × Value) → Bool
  | [] => true
  | (k, v) :: rest =>
    (if k = ascii "year_published" then v.isUint
      else if gameFields.contains k then v.isString
      else (findField gameFields k).isNone)
    && (!(gameFields.contains k) || (member rest k).isNone)
    && gameShape rest

/-- An element of the array `games` of the documented shape. -/
def Value.isGame : Value → Bool
  | .object members => gameShape members
  | _ => false

/-- The documented shape of a response object: under `games` an array of game
objects, under `count` an integer, each of the two at most once; and any other
key, as long as it is not one of the two in another letter case. -/
def resultShape : List (GoString × Value) → Bool
  | [] => true
  | (k, v) :: rest =>
    (if k = ascii "games" then
        (match v with
          | .array elems => elems.all Value.isGame
          | _ => false)
      else if k = ascii "count" then v.isUint
      else (findField resultFields k).isNone)
    && (!(resultFields.contains k) || (member rest k).isNone)
    && resultShape rest

/-- The table `htmlSafeSet` of the encoder: the ASCII bytes that go into a string
literal as they are, which is all from space on but for the double quote, the
backslash and `<`, `>`, `&`. -/
def htmlSafeSet (b : Byte) : Bool :=
  32 ≤ b.val ∧ b.val < 128 ∧ b ≠ 34 ∧ b ≠ 92 ∧ b ≠ 60 ∧ b ≠ 62 ∧ b ≠ 38

/-- What the loop of `appendString` (with `escapeHTML`) writes for the bytes of
`src`: an ASCII byte outside `htmlSafeSet` as an escape, invalid UTF-8 as the
escape of U+FFFD, U+2028 and U+2029 as escapes, everything else as it is. -/
def appendStringLoop : Nat → GoString → GoString
  | 0, _ => []
  | fuel + 1, src =>
    match src with
    | [] => []
    | b :: rest =>
      if b.val < utf8.RuneSelf then
        if htmlSafeSet b then b :: appendStringLoop fuel rest
        else if b = 92 ∨ b = 34 then [92, b] ++ appendStringLoop fuel rest
        else if b = 8 then [92, 98] ++ appendStringLoop fuel rest
        else if b = 12 then [92, 102] ++ appendStringLoop fuel rest
        else if b = 10 then [92, 110] ++ appendStringLoop fuel rest
        else if b = 13 then [92, 114] ++ appendStringLoop fuel rest
        else if b = 9 then [92, 116] ++ appendStringLoop fuel rest
        else [92, 117, 48, 48, lowerhex (b.val / 16), lowerhex (b.val % 16)]
               ++ appendStringLoop fuel rest
      else if utf8.DecodeRune (b :: rest) = (utf8.RuneError, 1) then
        ascii "\\ufffd" ++ appendStringLoop fuel rest
      else if (utf8.DecodeRune (b :: rest)).1 = 0x2028 ∨ (utf8.DecodeRune (b :: rest)).1 = 0x2029 then
        [92, 117, 50, 48, 50, lowerhex ((utf8.DecodeRune (b :: rest)).1 % 16)]
          ++ appendStringLoop fuel ((b :: rest).drop (utf8.DecodeRune (b :: rest)).2)
      else
        (b :: rest).take (utf8.DecodeRune (b :: rest)).2
          ++ appendStringLoop fuel ((b :: rest).drop (utf8.DecodeRune (b :: rest)).2)

/-- `appendString(dst, src, true)`: the string literal of `src`, between quotes. -/
def appendString (src : GoString) : GoString :=
  [34] ++ appendStringLoop (src.length + 1) src ++ [34]

/-- The encoding of a `Game`: the fields in their order under their JSON names. -/
def marshalGame (g : api.Game) : GoString :=
  ascii "\x7b\"id\":" ++ appendString g.Id
    ++ ascii ",\"name\":" ++ appendString g.Name
    ++ ascii ",\"price\":" ++ appendString g.Price
    ++ ascii ",\"year_published\":" ++ strconv.FormatUint g.YearPublished
    ++ ascii ",\"description\":" ++ appendString g.Description
    ++ ascii ",\"official_url\":" ++ appendString g.Url
    ++ ascii ",\"image_url\":" ++ appendString g.ImageUrl
    ++ ascii ",\"rules_url\":" ++ appendString g.RulesUrl
    ++ ascii "\x7d"

/-- The elements of a slice, with a comma between two of them. -/
def marshalGameList : List api.Game → GoString
  | [] => []
  | [g] => marshalGame g
  | g :: h :: rest => marshalGame g ++ [44] ++ marshalGameList (h :: rest)

/-- The encoding of a `[]Game`: `null` for the nil slice, an array otherwise. -/
def marshalGames (s : api.GameSlice) : GoString :=
  match s with
  | .nil => ascii "null"
  | .slice backing len => [91] ++ marshalGameList (backing.take len) ++ [93]

/-- `json.Marshal(r)` for a `SearchResult`. -/
def Marshal (r : api.SearchResult) : GoString :=
  ascii "\x7b\"games\":" ++ marshalGames r.Games
    ++ ascii ",\"count\":" ++ strconv.FormatUint r.Count
    ++ ascii "\x7d"

end json

namespace api

/-- What a call of `Search` leaves behind: the two values it returns (a nil
pointer and a nil error are `none`; an error is given by its message), and the
requests that were handed to the network. -/
structure SearchReturn where
  result : Option SearchResult
  err : Option GoString
  sent : List http.Request
  deriving DecidableEq, Repr

/-- `func (b BoardgameAtlas) Search(ctx, query, limit, skip) (*SearchResult, error)`.
`net` is the network behind `http.DefaultClient`. -/
def BoardgameAtlas.Search (b : BoardgameAtlas)
    (net : http.Request → Except GoString http.Response)
    (ctx : Option context.Context) (query : GoString) (limit skip : Nat) : SearchReturn :=
  match searchRequest b ctx query limit skip with
  | .error msg => { result := none, err := some msg, sent := [] }
  | .ok req =>
    let sent := match req.ctx.Err with | some _ => [] | none => [req]
    match http.Do net req with
    | .error err =>
      { result := none,
        err := some (ascii "cannot create HTTP client for invocation: " ++ err),
        sent := sent }
    | .ok resp =>
      if resp.StatusCode ≥ 400 then
        { result := none, err := some (ascii "error HTTP status: " ++ resp.Status), sent := sent }
      else
        match json.Decode resp.Body SearchResult.zero with
        | (_, some err) =>
          { result := none,
            err := some (ascii "cannot deserialize JSON payload: " ++ err.Error),
            sent := sent }
        | (result, none) => { result := some result, err := none, sent := sent }

end api

namespace cmd

/-- The values of the command-line flags after `flag.Parse()`; `limit`, `skip` and
`timeout` are `uint` flags. -/
structure Flags where
  query : GoString
  clientId : GoString
  limit : Nat
  skip : Nat
  timeout : Nat
  deriving DecidableEq, Repr

/-- The flags as they are when none is given on the command line. -/
def Flags.default : Flags := { query := [], clientId := [], limit := 10, skip := 0, timeout := 10 }

/-- What a run of the driver leaves behind: the text on standard output, the
message of `log.Fatal...` if it was called (without the time stamp of the
logger), the exit status, and the requests handed to the network. -/
structure Outcome where
  stdout : GoString
  fatal : Option GoString
  status : Nat
  sent : List http.Request
  deriving DecidableEq, Repr

/-- `func isNull(s string) bool`. -/
def isNull (s : GoString) : Bool := (strings.TrimSpace s).length ≤ 0

/-- From the words of the specification: a string is blank when it is empty or
all whitespace, that is when every rune of it (as `range` yields them) is a
white space for `unicode.IsSpace`. -/
def blank (s : GoString) : Bool := (utf8.runes (s.length + 1) s).all unicode.IsSpace

/-- `time.Second` in nanoseconds. -/
def Second : Nat := 1000000000

/-- `time.Duration(*timeout*uint(time.Second))`: the product is a `uint` and wraps
around at 64 bits, the conversion to the signed `Duration` reads the same bits. -/
def timeoutDuration (timeout : Nat) : Int := toInt (timeout * Second % 2 ^ uintSize)

/-- `color.New(color.Bold).Add(color.FgHiGreen).SprintFunc()`: with colour off
(`color.NoColor`) the text itself, otherwise the text between the escape
sequences, which `paint` stands for. -/
def boldGreen (noColor : Bool) (paint : GoString → GoString) (s : GoString) : GoString :=
  if noColor then s else paint s

/-- The three `fmt.Printf` calls of the loop body for one game. -/
def printGame (noColor : Bool) (paint : GoString → GoString) (g : api.Game) : GoString :=
  boldGreen noColor paint (ascii "Name") ++ ascii ": " ++ g.Name ++ ascii "\n"
    ++ (boldGreen noColor paint (ascii "Description") ++ ascii ": " ++ g.Description ++ ascii "\n")
    ++ (boldGreen noColor paint (ascii "Url") ++ ascii ": " ++ g.Url ++ ascii "\n\n")

/-- The loop `for _, g := range result.Games`. -/
def printGames (noColor : Bool) (paint : GoString → GoString) : List api.Game → GoString
  | [] => []
  | g :: gs => printGame noColor paint g ++ printGames noColor paint gs

/-- `func main()` after `flag.Parse()`. -/
def main (flags : Flags) (net : http.Request → Except GoString http.Response)
    (noColor : Bool) (paint : GoString → GoString) : Outcome :=
  if isNull flags.query then
    { stdout := [], status := 1, sent := [],
      fatal := some (ascii "Please use --query to set the boardgame name to search\n") }
  else if isNull flags.clientId then
    { stdout := [], status := 1, sent := [],
      fatal := some (ascii "Please use --clientId to set your Boardgame Atlas client_id\n") }
  else
    let bga := api.New flags.clientId
    let ctx := context.Context.WithTimeout .Background (timeoutDuration flags.timeout)
    let r := bga.Search net (some ctx) flags.query flags.limit flags.skip
    match r.err, r.result with
    | some err, _ =>
      { stdout := [], status := 1, sent := r.sent,
        fatal := some (ascii "Cannot search for boadgame: " ++ err ++ ascii "\n") }
    | none, some result =>
      { stdout := printGames noColor paint result.Games.toList, status := 0, sent := r.sent,
        fatal := none }
    | none, none =>
      -- a nil result with a nil error: `result.Games` panics (exit status 2)
      { stdout := [], status := 2, sent := r.sent, fatal := none }

end cmd

/-! ## The numeric parameters and the timeout -/

/-- C6: evaluation of the code at `skip = 2^63`, a value of the `uint` range.  The
`limit` parameter is the decimal text of the limit, but `strconv.Itoa(int(skip))`
turns the skip into a negative number: the `skip` parameter sent is
`-9223372036854775808`, which is not the decimal text `9223372036854775808`
(what the `limit` path writes for the same value). -/
theorem search_skip_sign_change :
    url.Values.lookup
        (api.searchValues (api.New (ascii "id")) api.SEARCH_URL_parsed (ascii "catan")
          (2 ^ 63) (2 ^ 63)) (ascii "skip")
      = [ascii "-9223372036854775808"]
    ∧ url.Values.lookup
        (api.searchValues (api.New (ascii "id")) api.SEARCH_URL_parsed (ascii "catan")
          (2 ^ 63) (2 ^ 63)) (ascii "limit")
      = [ascii "9223372036854775808"]
    ∧ strconv.Itoa (toInt (2 ^ 64 - 1)) = ascii "-1" := by
  decide

/-- C9: evaluation of the code at two values the `--timeout` flag accepts.  For
`9223372037` the product with `time.Second` leaves the range of the signed
duration and the timeout is negative; for `18446744074` the product wraps around
64 bits and the timeout is 290448384 nanoseconds, not 18446744074 seconds.  With
the flag omitted the timeout is 10 seconds. -/
theorem timeout_overflow :
    cmd.timeoutDuration 9223372037 = -9223372036709551616
    ∧ cmd.timeoutDuration 18446744074 = 290448384
    ∧ cmd.timeoutDuration cmd.Flags.default.timeout = 10 * 1000000000 := by
  decide

/-! ## The outcomes of `Search` -/

/-- The request `Search` builds is passed on unchanged whatever the context is:
with a context the request is created. -/
theorem searchRequest_some (b : api.BoardgameAtlas) (c : context.Context) (query : GoString)
    (limit skip : Nat) :
    api.searchRequest b (some c) query limit skip =
      .ok { Method := ascii "GET",
            URL := { api.SEARCH_URL_parsed with
                      RawQuery := (api.searchValues b api.SEARCH_URL_parsed query limit skip).Encode },
            ctx := c } := by
  rfl

/-- C3: when the response has a status code of 400 or more, `Search` returns a
nil result and the error `error HTTP status: ` followed by the status line; the
body does not occur in what is returned, so it is not decoded. -/
theorem search_status_error (b : api.BoardgameAtlas)
    (net : http.Request → Except GoString http.Response) (ctx : Option context.Context)
    (query : GoString) (limit skip : Nat) (req : http.Request) (resp : http.Response)
    (hreq : api.searchRequest b ctx query limit skip = .ok req)
    (hresp : http.Do net req = .ok resp)
    (hstatus : resp.StatusCode ≥ 400) :
    b.Search net ctx query limit skip =
      { result := none, err := some (ascii "error HTTP status: " ++ resp.Status), sent := [req] } := by
  have hctx : req.ctx.Err = none := by
    unfold http.Do at hresp
    cases h : req.ctx.Err with
    | none => rfl
    | some e => rw [h] at hresp; cases hresp
  simp only [api.BoardgameAtlas.Search, hreq, hresp, hctx, hstatus, if_true]

/-- C3 at a response `404 Not Found` whose body is a valid search result. -/
theorem search_status_error_witness :
    (api.New (ascii "id")).Search
        (fun _ => .ok { StatusCode := 404, Status := ascii "404 Not Found",
                        Body := { data := ascii "\x7b\"games\":[\x7b\"name\":\"Catan\"\x7d],\"count\":1\x7d",
                                  err := none } })
        (some .Background) (ascii "catan") 10 0
      = { result := none, err := some (ascii "error HTTP status: 404 Not Found"),
          sent := [{ Method := ascii "GET",
                     URL := { api.SEARCH_URL_parsed with
                                RawQuery := ascii "client_id=id&limit=10&name=catan&skip=0" },
                     ctx := .Background }] } :=
  search_status_error (api.New (ascii "id"))
    (fun _ => .ok { StatusCode := 404, Status := ascii "404 Not Found",
                    Body := { data := ascii "\x7b\"games\":[\x7b\"name\":\"Catan\"\x7d],\"count\":1\x7d",
                              err := none } })
    (some .Background) (ascii "catan") 10 0
    { Method := ascii "GET",
      URL := { api.SEARCH_URL_parsed with
                 RawQuery := ascii "client_id=id&limit=10&name=catan&skip=0" },
      ctx := .Background }
    { StatusCode := 404, Status := ascii "404 Not Found",
      Body := { data := ascii "\x7b\"games\":[\x7b\"name\":\"Catan\"\x7d],\"count\":1\x7d",
                err := none } }
    rfl rfl (by decide)

namespace json

/-- A read of the body that fails, as `Decode` sees it.  After a complete object
the failure is not looked at; inside a value it is the error returned; a byte
the scanner rejects before it is reported all the same; `null` is complete only
at a byte that follows it. -/
theorem Decode_failed_read :
    Decode { data := ascii "\x7b\"games\":[],\"count\":1\x7d",
             err := some (ascii "unexpected EOF") } api.SearchResult.zero
      = ({ Games := .slice [] 0, Count := 1 }, none)
    ∧ Decode { data := ascii "\x7b\"games\":[", err := some (ascii "unexpected EOF") }
        api.SearchResult.zero
      = (api.SearchResult.zero, some (.Read (ascii "unexpected EOF")))
    ∧ Decode { data := ascii " ", err := some (ascii "context deadline exceeded") }
        api.SearchResult.zero
      = (api.SearchResult.zero, some (.Read (ascii "context deadline exceeded")))
    ∧ Decode { data := ascii "\x7b\"games\":[,", err := some (ascii "unexpected EOF") }
        api.SearchResult.zero
      = (api.SearchResult.zero,
          some (.Syntax (ascii "invalid character \x27,\x27 looking for beginning of value")))
    ∧ Decode { data := ascii "null", err := some (ascii "unexpected EOF") }
        api.SearchResult.zero
      = (api.SearchResult.zero, some (.Read (ascii "unexpected EOF")))
    ∧ Decode { data := ascii "null ", err := some (ascii "unexpected EOF") }
        api.SearchResult.zero
      = (api.SearchResult.zero, none) := by
  decide

end json

/-- C5, the claim as stated fails: called with a nil context, `Search` ends in a
fifth outcome.  The network here would answer `200 OK` with a body that decodes,
so none of the three failures of the claim occurs, and yet no result is
returned: the error is that of the request that could not be created, and its
message starts with none of the three messages of the claim. -/
theorem search_nil_context_outcome :
    (api.New (ascii "id")).Search
        (fun _ => .ok { StatusCode := 200, Status := ascii "200 OK",
                        Body := { data := ascii "\x7b\"games\":[],\"count\":0\x7d", err := none } })
        none (ascii "catan") 10 0
      = { result := none,
          err := some (ascii "cannot create HTTP client: net/http: nil Context"),
          sent := [] }
    ∧ ¬ (ascii "cannot create HTTP client for invocation: "
          <+: ascii "cannot create HTTP client: net/http: nil Context")
    ∧ ¬ (ascii "error HTTP status: " <+: ascii "cannot create HTTP client: net/http: nil Context")
    ∧ ¬ (ascii "cannot deserialize JSON payload"
          <+: ascii "cannot create HTTP client: net/http: nil Context") := by
  decide

/-- C5 as amended: every call of `Search` ends in exactly one of five outcomes,
decided in this order.  A nil context: the error of the request that cannot be
created, and nothing is sent.  Otherwise the request is created; a context that
is already cancelled or expired gives the error of the invocation without the
request being sent, and so does every failure of the transport before the
headers of the response are in; otherwise a status of 400 or more gives the
status error, whatever the body; otherwise a body that does not decode gives the
deserialization error, and a failure of the transport while the body is read,
before a value is complete, is among these: its error is the one reported;
otherwise the decoded result is returned with a nil error.  The result is
non-nil exactly when the error is nil. -/
theorem search_outcomes (b : api.BoardgameAtlas)
    (net : http.Request → Except GoString http.Response) (ctx : Option context.Context)
    (query : GoString) (limit skip : Nat) :
    (ctx = none →
        b.Search net ctx query limit skip
          = { result := none,
              err := some (ascii "cannot create HTTP client: net/http: nil Context"),
              sent := [] })
    ∧ (∀ c req, ctx = some c → api.searchRequest b ctx query limit skip = .ok req →
        (∀ e, c.Err = some e →
          b.Search net ctx query limit skip
            = { result := none,
                err := some (ascii "cannot create HTTP client for invocation: "
                        ++ url.errorText (ascii "Get") req.URL.String e),
                sent := [] })
        ∧ (∀ e, c.Err = none → net req = .error e →
          b.Search net ctx query limit skip
            = { result := none,
                err := some (ascii "cannot create HTTP client for invocation: " ++ e),
                sent := [req] })
        ∧ (∀ resp, c.Err = none → net req = .ok resp → resp.StatusCode ≥ 400 →
          b.Search net ctx query limit skip
            = { result := none, err := some (ascii "error HTTP status: " ++ resp.Status),
                sent := [req] })
        ∧ (∀ resp left e, c.Err = none → net req = .ok resp → resp.StatusCode < 400 →
          json.Decode resp.Body api.SearchResult.zero = (left, some e) →
          b.Search net ctx query limit skip
            = { result := none,
                err := some (ascii "cannot deserialize JSON payload: " ++ e.Error),
                sent := [req] })
        ∧ (∀ resp e, c.Err = none → net req = .ok resp → resp.StatusCode < 400 →
          resp.Body.err = some e →
          json.scanValue json.maxNestingDepth resp.Body.data = .error .eof →
          b.Search net ctx query limit skip
            = { result := none,
                err := some (ascii "cannot deserialize JSON payload: " ++ e),
                sent := [req] })
        ∧ (∀ resp result, c.Err = none → net req = .ok resp → resp.StatusCode < 400 →
          json.Decode resp.Body api.SearchResult.zero = (result, none) →
          b.Search net ctx query limit skip
            = { result := some result, err := none, sent := [req] }))
    ∧ ((b.Search net ctx query limit skip).result.isSome
        ↔ (b.Search net ctx query limit skip).err = none) := by
  refine ⟨?_, ?_, ?_⟩
  · intro h; subst h; rfl
  · intro c req hc hreq
    subst hc
    rw [searchRequest_some] at hreq
    have hreq2 := hreq
    injection hreq with hreq
    have hctx : req.ctx = c := by rw [← hreq]
    refine ⟨?_, ?_, ?_, ?_, ?_, ?_⟩
    · intro e he
      simp only [api.BoardgameAtlas.Search, searchRequest_some, http.Do, he]
      rw [← hreq]
    · intro e he hnet
      rw [← hreq] at hnet
      simp only [api.BoardgameAtlas.Search, searchRequest_some, http.Do, he, hnet]
      rw [← hreq]
    · intro resp he hnet hst
      rw [← hreq] at hnet
      simp only [api.BoardgameAtlas.Search, searchRequest_some, http.Do, he, hnet, hst, if_true]
      rw [← hreq]
    · intro resp pr e he hnet hst hdec
      rw [← hreq] at hnet
      have hst2 : ¬ resp.StatusCode ≥ 400 := by omega
      simp only [api.BoardgameAtlas.Search, searchRequest_some, http.Do, he, hnet, hst2,
        if_false, hdec]
      rw [← hreq]
    · intro resp e he hnet hst herr hscan
      rw [← hreq] at hnet
      have hst2 : ¬ resp.StatusCode ≥ 400 := by omega
      have hdec : json.Decode resp.Body api.SearchResult.zero
          = (api.SearchResult.zero, some (.Read e)) := by
        simp only [json.Decode, json.readValue, hscan, herr]
      simp only [api.BoardgameAtlas.Search, searchRequest_some, http.Do, he, hnet, hst2,
        if_false, hdec, json.DecodeError.Error]
      rw [← hreq]
    · intro resp r he hnet hst hdec
      rw [← hreq] at hnet
      have hst2 : ¬ resp.StatusCode ≥ 400 := by omega
      simp only [api.BoardgameAtlas.Search, searchRequest_some, http.Do, he, hnet, hst2,
        if_false, hdec]
      rw [← hreq]
  · cases ctx with
    | none => simp [api.BoardgameAtlas.Search, api.searchRequest, http.NewRequestWithContext]
    | some c =>
      simp only [api.BoardgameAtlas.Search, searchRequest_some, http.Do]
      cases hc : c.Err with
      | some e => simp
      | none =>
        simp only []
        cases hn : net _ with
        | error e => simp
        | ok resp =>
          simp only []
          by_cases hst : resp.StatusCode ≥ 400
          · simp [hst]
          · simp only [hst, if_false]
            rcases hd : json.Decode resp.Body api.SearchResult.zero with ⟨r, _ | e⟩
            · simp
            · simp

/-- C5 as amended, at two calls.  With a context whose cancel function was
called before, the error of the invocation is returned and no request is sent.
With a response `200 OK` whose body breaks off inside the first game because the
deadline of the context expires while the body is read, the deserialization
error is returned, with the error of the read. -/
theorem search_outcomes_witness :
    (api.New (ascii "id")).Search
        (fun _ => .ok { StatusCode := 200, Status := ascii "200 OK",
                        Body := { data := ascii "\x7b\"games\":[],\"count\":0\x7d",
                                  err := none } })
        (some (.WithCancel .Background true)) (ascii "catan") 10 0
      = { result := none,
          err := some (ascii "cannot create HTTP client for invocation: "
                  ++ url.errorText (ascii "Get")
                      (ascii "https://api.boardgameatlas.com/api/search?client_id=id&limit=10&name=catan&skip=0")
                      (ascii "context canceled")),
          sent := [] }
    ∧ (api.New (ascii "id")).Search
        (fun _ => .ok { StatusCode := 200, Status := ascii "200 OK",
                        Body := { data := ascii "\x7b\"games\":[\x7b\"name\":\"Cat",
                                  err := some (ascii "context deadline exceeded") } })
        (some (.WithTimeout .Background 1000000000)) (ascii "catan") 10 0
      = { result := none,
          err := some (ascii "cannot deserialize JSON payload: context deadline exceeded"),
          sent := [{ Method := ascii "GET",
                     URL := { api.SEARCH_URL_parsed with
                                RawQuery := ascii "client_id=id&limit=10&name=catan&skip=0" },
                     ctx := .WithTimeout .Background 1000000000 }] } :=
  ⟨((search_outcomes (api.New (ascii "id"))
      (fun _ => .ok { StatusCode := 200, Status := ascii "200 OK",
                      Body := { data := ascii "\x7b\"games\":[],\"count\":0\x7d",
                                err := none } })
      (some (.WithCancel .Background true)) (ascii "catan") 10 0).2.1
    (.WithCancel .Background true)
    { Method := ascii "GET",
      URL := { api.SEARCH_URL_parsed with
                 RawQuery := ascii "client_id=id&limit=10&name=catan&skip=0" },
      ctx := .WithCancel .Background true }
    rfl rfl).1 (ascii "context canceled") rfl,
   ((search_outcomes (api.New (ascii "id"))
      (fun _ => .ok { StatusCode := 200, Status := ascii "200 OK",
                      Body := { data := ascii "\x7b\"games\":[\x7b\"name\":\"Cat",
                                err := some (ascii "context deadline exceeded") } })
      (some (.WithTimeout .Background 1000000000)) (ascii "catan") 10 0).2.1
    (.WithTimeout .Background 1000000000)
    { Method := ascii "GET",
      URL := { api.SEARCH_URL_parsed with
                 RawQuery := ascii "client_id=id&limit=10&name=catan&skip=0" },
      ctx := .WithTimeout .Background 1000000000 }
    rfl rfl).2.2.2.2.1
    { StatusCode := 200, Status := ascii "200 OK",
      Body := { data := ascii "\x7b\"games\":[\x7b\"name\":\"Cat",
                err := some (ascii "context deadline exceeded") } }
    (ascii "context deadline exceeded") rfl rfl (by decide) rfl rfl⟩

/-- C4, the claim as stated fails for a body with text after the JSON value:
`Decode` reads one value and leaves what follows it alone.  The response is
`200 OK`, the body is an object followed by text that is not JSON, and `Search`
returns the decoded result with a nil error. -/
theorem search_trailing_text_accepted :
    (api.New (ascii "id")).Search
        (fun _ => .ok { StatusCode := 200, Status := ascii "200 OK",
                        Body := { data := ascii "\x7b\"games\":[],\"count\":1\x7d trailing text",
                                  err := none } })
        (some .Background) (ascii "catan") 10 0
      = { result := some { Games := .slice [] 0, Count := 1 },
          err := none,
          sent := [{ Method := ascii "GET",
                     URL := { api.SEARCH_URL_parsed with
                                RawQuery := ascii "client_id=id&limit=10&name=catan&skip=0" },
                     ctx := .Background }] } := by
  decide

/-- C4 as amended: for a response with a status below 400 whose body `Decode`
rejects, `Search` returns a nil result and an error whose message starts with
`cannot deserialize JSON payload` (and goes on with the decoder's message); and
`Decode` rejects an empty body, a body of spaces, a truncated body, malformed
JSON, and a count that is negative, fractional or does not fit the `uint`.
Text after the first JSON value is not among the failures. -/
theorem search_decode_error (b : api.BoardgameAtlas)
    (net : http.Request → Except GoString http.Response) (ctx : Option context.Context)
    (query : GoString) (limit skip : Nat) (req : http.Request) (resp : http.Response)
    (left : api.SearchResult) (e : json.DecodeError) :
    (api.searchRequest b ctx query limit skip = .ok req →
      http.Do net req = .ok resp →
      resp.StatusCode < 400 →
      json.Decode resp.Body api.SearchResult.zero = (left, some e) →
      b.Search net ctx query limit skip
          = { result := none,
              err := some (ascii "cannot deserialize JSON payload: " ++ e.Error),
              sent := [req] }
        ∧ ascii "cannot deserialize JSON payload"
            <+: ascii "cannot deserialize JSON payload: " ++ e.Error)
    ∧ (json.Decode { data := ascii "", err := none } api.SearchResult.zero).2 = some .EOF
    ∧ (json.Decode { data := ascii " \n", err := none } api.SearchResult.zero).2 = some .EOF
    ∧ (json.Decode { data := ascii "\x7b\"games\":[\x7b\"name\":\"Cat",
                     err := none } api.SearchResult.zero).2
        = some .UnexpectedEOF
    ∧ (json.Decode { data := ascii "\x7b\"games\":[,]\x7d", err := none } api.SearchResult.zero).2
        = some (.Syntax (ascii "invalid character \x27,\x27 looking for beginning of value"))
    ∧ (json.Decode { data := ascii "\x7b\"games\":[],\"count\":-1\x7d",
                     err := none } api.SearchResult.zero).2
        = some (.UnmarshalType { Value := ascii "number -1", GoType := ascii "uint",
                                 Struct := ascii "SearchResult", Field := ascii "count" })
    ∧ (json.Decode { data := ascii "\x7b\"games\":[],\"count\":1.5\x7d",
                     err := none } api.SearchResult.zero).2
        = some (.UnmarshalType { Value := ascii "number 1.5", GoType := ascii "uint",
                                 Struct := ascii "SearchResult", Field := ascii "count" })
    ∧ (json.Decode { data := ascii "\x7b\"count\":18446744073709551616\x7d",
                     err := none } api.SearchResult.zero).2
        = some (.UnmarshalType { Value := ascii "number 18446744073709551616",
                                 GoType := ascii "uint",
                                 Struct := ascii "SearchResult", Field := ascii "count" }) := by
  refine ⟨?_, by decide, by decide, by decide, by decide, by decide, by decide, by decide⟩
  intro hreq hresp hst hdec
  have hctx : req.ctx.Err = none := by
    unfold http.Do at hresp
    cases h : req.ctx.Err with
    | none => rfl
    | some e => rw [h] at hresp; cases hresp
  have hst2 : ¬ resp.StatusCode ≥ 400 := by omega
  refine ⟨?_, ?_⟩
  · simp only [api.BoardgameAtlas.Search, hreq, hresp, hctx, hst2, if_false, hdec]
  · exact ⟨ascii ": " ++ e.Error, by simp [ascii]⟩

/-- C4 as amended, at a response `200 OK` with a truncated body. -/
theorem search_decode_error_witness :
    (api.New (ascii "id")).Search
        (fun _ => .ok { StatusCode := 200, Status := ascii "200 OK",
                        Body := { data := ascii "\x7b\"games\":[\x7b\"name\":\"Cat",
                                  err := none } })
        (some .Background) (ascii "catan") 10 0
      = { result := none,
          err := some (ascii "cannot deserialize JSON payload: unexpected EOF"),
          sent := [{ Method := ascii "GET",
                     URL := { api.SEARCH_URL_parsed with
                                RawQuery := ascii "client_id=id&limit=10&name=catan&skip=0" },
                     ctx := .Background }] } :=
  ((search_decode_error (api.New (ascii "id"))
      (fun _ => .ok { StatusCode := 200, Status := ascii "200 OK",
                      Body := { data := ascii "\x7b\"games\":[\x7b\"name\":\"Cat", err := none } })
      (some .Background) (ascii "catan") 10 0
      { Method := ascii "GET",
        URL := { api.SEARCH_URL_parsed with
                   RawQuery := ascii "client_id=id&limit=10&name=catan&skip=0" },
        ctx := .Background }
      { StatusCode := 200, Status := ascii "200 OK",
        Body := { data := ascii "\x7b\"games\":[\x7b\"name\":\"Cat", err := none } }
      api.SearchResult.zero .UnexpectedEOF).1 rfl rfl (by decide) rfl).1

/-! ## The output of the driver -/

/-- C10, the claim as stated fails: the blank line is printed after every game,
the last one too.  For a result with one game the output is the three lines and
a blank line, not the three lines alone. -/
theorem driver_output_trailing_blank_line :
    (cmd.main { query := ascii "catan", clientId := ascii "id", limit := 10, skip := 0,
                timeout := 10 }
        (fun _ => .ok { StatusCode := 200, Status := ascii "200 OK",
                        Body := { data := ascii ("\x7b\"games\":[\x7b\"id\":\"1\",\"name\":\"Catan\","
                          ++ "\"description\":\"d\",\"official_url\":\"u\"\x7d],\"count\":1\x7d"),
                                  err := none } })
        true id).stdout
      = ascii "Name: Catan\nDescription: d\nUrl: u\n\n"
    ∧ ascii "Name: Catan\nDescription: d\nUrl: u\n\n" ≠ ascii "Name: Catan\nDescription: d\nUrl: u\n" := by
  decide

/-- C10 as amended: when the search succeeds, the output with colour off is, for
the games in the order returned, the three lines `Name: `, `Description: `,
`Url: ` of each game followed by a blank line, after the last game too; nothing
is printed for a result without games, and the exit status is 0. -/
theorem driver_output (flags : cmd.Flags) (net : http.Request → Except GoString http.Response)
    (paint : GoString → GoString) (result : api.SearchResult) (sent : List http.Request)
    (hquery : cmd.isNull flags.query = false) (hclient : cmd.isNull flags.clientId = false)
    (hsearch : (api.New flags.clientId).Search net
        (some (.WithTimeout .Background (cmd.timeoutDuration flags.timeout)))
        flags.query flags.limit flags.skip
      = { result := some result, err := none, sent := sent }) :
    (cmd.main flags net true paint).stdout
      = result.Games.toList.flatMap (fun g =>
          ascii "Name: " ++ g.Name ++ ascii "\n"
            ++ (ascii "Description: " ++ g.Description ++ ascii "\n")
            ++ (ascii "Url: " ++ g.Url ++ ascii "\n")
            ++ ascii "\n")
    ∧ (result.Games.toList = [] → (cmd.main flags net true paint).stdout = [])
    ∧ (cmd.main flags net true paint).status = 0 := by
  have hprint : ∀ gs : List api.Game,
      cmd.printGames true paint gs
        = gs.flatMap (fun g =>
          ascii "Name: " ++ g.Name ++ ascii "\n"
            ++ (ascii "Description: " ++ g.Description ++ ascii "\n")
            ++ (ascii "Url: " ++ g.Url ++ ascii "\n")
            ++ ascii "\n") := by
    intro gs
    induction gs with
    | nil => rfl
    | cons g gs ih =>
      simp only [cmd.printGames, ih, List.flatMap_cons, cmd.printGame, cmd.boldGreen, if_true]
      simp [ascii]
  have hmain : cmd.main flags net true paint
      = { stdout := cmd.printGames true paint result.Games.toList, status := 0, sent := sent,
          fatal := none } := by
    simp only [cmd.main, hquery, hclient, hsearch]
    simp
  rw [hmain]
  refine ⟨hprint _, ?_, rfl⟩
  intro h
  simp only [h, cmd.printGames]

/-- C10 as amended, at a successful search that returns two games. -/
theorem driver_output_witness :
    (cmd.main { query := ascii "catan", clientId := ascii "id", limit := 10, skip := 0,
                timeout := 10 }
        (fun _ => .ok { StatusCode := 200, Status := ascii "200 OK",
                        Body := { data := ascii ("\x7b\"games\":[\x7b\"name\":\"Catan\","
                          ++ "\"description\":\"d\",\"official_url\":\"u\"\x7d,"
                          ++ "\x7b\"name\":\"Azul\"\x7d],\"count\":2\x7d"), err := none } })
        true id).stdout
      = ascii "Name: Catan\nDescription: d\nUrl: u\n\nName: Azul\nDescription: \nUrl: \n\n" :=
  (driver_output { query := ascii "catan", clientId := ascii "id", limit := 10, skip := 0,
                   timeout := 10 }
    (fun _ => .ok { StatusCode := 200, Status := ascii "200 OK",
                    Body := { data := ascii ("\x7b\"games\":[\x7b\"name\":\"Catan\","
                      ++ "\"description\":\"d\",\"official_url\":\"u\"\x7d,"
                      ++ "\x7b\"name\":\"Azul\"\x7d],\"count\":2\x7d"), err := none } })
    id
    { Games := .slice [{ api.Game.zero with Name := ascii "Catan", Description := ascii "d",
                                            Url := ascii "u" },
                       { api.Game.zero with Name := ascii "Azul" }] 2,
      Count := 2 }
    [{ Method := ascii "GET",
       URL := { api.SEARCH_URL_parsed with
                  RawQuery := ascii "client_id=id&limit=10&name=catan&skip=0" },
       ctx := .WithTimeout .Background 10000000000 }]
    (by decide) (by decide) (by decide)).1

/-! ## The request URL -/

namespace url

theorem unescapeCheck_cons (c : Byte) (rest : GoString) (h : c ≠ 37) :
    unescapeCheck (c :: rest) = unescapeCheck rest := by
  rw [unescapeCheck.eq_def]; simp [h]

theorem unescapeCheck_hex (h1 h2 : Byte) (rest : GoString) (e1 : ishex h1 = true)
    (e2 : ishex h2 = true) : unescapeCheck (37 :: h1 :: h2 :: rest) = unescapeCheck rest := by
  rw [unescapeCheck.eq_def]; simp [e1, e2]

theorem unescapeBytes_cons (c : Byte) (rest : GoString) (h : c ≠ 37) (h2 : c ≠ 43) :
    unescapeBytes (c :: rest) = c :: unescapeBytes rest := by
  rw [unescapeBytes.eq_def]; simp [h, h2]

theorem unescapeBytes_plus (rest : GoString) :
    unescapeBytes (43 :: rest) = 32 :: unescapeBytes rest := by
  rw [unescapeBytes.eq_def]; simp

theorem unescapeBytes_hex (h1 h2 : Byte) (rest : GoString) :
    unescapeBytes (37 :: h1 :: h2 :: rest)
      = Fin.ofNat (unhex h1 * 16 + unhex h2) :: unescapeBytes rest := by
  rw [unescapeBytes.eq_def]; simp

theorem escapeByte_unescapeCheck (c : Byte) (rest : GoString) :
    unescapeCheck (escapeByte c ++ rest) = unescapeCheck rest := by
  have h1 : ∀ c : Byte, ishex (upperhex (c.val / 16)) = true ∧ ishex (upperhex (c.val % 16)) = true := by
    decide
  have h2 : ∀ c : Byte, shouldEscape c = false → c ≠ 37 := by decide
  unfold escapeByte
  split
  · exact unescapeCheck_cons 43 rest (by decide)
  · split
    · exact unescapeCheck_hex _ _ rest (h1 c).1 (h1 c).2
    · rename_i h
      exact unescapeCheck_cons c rest (h2 c (by simpa using h))

theorem escapeByte_unescapeBytes (c : Byte) (rest : GoString) :
    unescapeBytes (escapeByte c ++ rest) = c :: unescapeBytes rest := by
  have h1 : ∀ c : Byte,
      (Fin.ofNat (unhex (upperhex (c.val / 16)) * 16 + unhex (upperhex (c.val % 16))) : Byte) = c := by
    decide
  have h2 : ∀ c : Byte, shouldEscape c = false → c ≠ 37 ∧ c ≠ 43 := by decide
  unfold escapeByte
  split
  · rename_i h
    subst h
    exact unescapeBytes_plus rest
  · split
    · have := unescapeBytes_hex (upperhex (c.val / 16)) (upperhex (c.val % 16)) rest
      rw [h1 c] at this
      exact this
    · rename_i h
      have := h2 c (by simpa using h)
      exact unescapeBytes_cons c rest this.1 this.2

theorem unescapeCheck_QueryEscape (s : GoString) : unescapeCheck (QueryEscape s) = none := by
  induction s with
  | nil => rfl
  | cons c s ih =>
    simp only [QueryEscape, List.flatMap_cons] at ih ⊢
    rw [escapeByte_unescapeCheck]; exact ih

theorem unescapeBytes_QueryEscape (s : GoString) : unescapeBytes (QueryEscape s) = s := by
  induction s with
  | nil => rfl
  | cons c s ih =>
    simp only [QueryEscape, List.flatMap_cons] at ih ⊢
    rw [escapeByte_unescapeBytes, ih]

/-- Unescaping undoes escaping, for every byte string. -/
theorem QueryUnescape_QueryEscape (s : GoString) : QueryUnescape (QueryEscape s) = .ok s := by
  simp only [QueryUnescape, unescapeCheck_QueryEscape, unescapeBytes_QueryEscape]

/-- An escaped string has no `&`, `=` or `;` in it. -/
theorem QueryEscape_no_separator (s : GoString) :
    (38 : Byte) ∉ QueryEscape s ∧ (61 : Byte) ∉ QueryEscape s ∧ (59 : Byte) ∉ QueryEscape s := by
  have h : ∀ c : Byte, (38 : Byte) ∉ escapeByte c ∧ (61 : Byte) ∉ escapeByte c
      ∧ (59 : Byte) ∉ escapeByte c := by decide
  simp only [QueryEscape, List.mem_flatMap, not_exists, not_and]
  exact ⟨fun c _ => (h c).1, fun c _ => (h c).2.1, fun c _ => (h c).2.2⟩

theorem cut_append (sep : Byte) (a b : GoString) (h : sep ∉ a) :
    cut sep (a ++ sep :: b) = (a, b, true) := by
  induction a with
  | nil => simp [cut]
  | cons c a ih =>
    have hc : c ≠ sep := fun e => h (by simp [e])
    have ha : sep ∉ a := fun e => h (by simp [e])
    simp [cut, hc, ih ha]

theorem cut_absent (sep : Byte) (a : GoString) (h : sep ∉ a) : cut sep a = (a, [], false) := by
  induction a with
  | nil => simp [cut]
  | cons c a ih =>
    have hc : c ≠ sep := fun e => h (by simp [e])
    have ha : sep ∉ a := fun e => h (by simp [e])
    simp [cut, hc, ih ha]

theorem parseQueryLoop_nil (fuel : Nat) (m : Values) (err : Option ParseError) :
    parseQueryLoop fuel m err [] = (m, err) := by
  cases fuel <;> simp [parseQueryLoop]

/-- One turn of the loop of `parseQuery` on a piece `key=value&`, for a key that
needs no escaping and an escaped value. -/
theorem parseQueryLoop_piece (fuel : Nat) (m : Values) (err : Option ParseError)
    (k v rest : GoString) (hk : k ≠ []) (h38 : (38 : Byte) ∉ k) (h61 : (61 : Byte) ∉ k)
    (h59 : (59 : Byte) ∉ k) (hku : QueryUnescape k = .ok k) :
    parseQueryLoop (fuel + 1) m err (k ++ 61 :: QueryEscape v ++ 38 :: rest)
      = parseQueryLoop fuel (Values.Add m k v) err rest := by
  obtain ⟨e38, e61, e59⟩ := QueryEscape_no_separator v
  have hseg : (38 : Byte) ∉ k ++ 61 :: QueryEscape v := by
    simp only [List.mem_append, List.mem_cons, not_or]
    exact ⟨h38, by decide, e38⟩
  have hcut : cut 38 (k ++ 61 :: QueryEscape v ++ 38 :: rest)
      = (k ++ 61 :: QueryEscape v, rest, true) := by
    have := cut_append 38 (k ++ 61 :: QueryEscape v) rest hseg
    simpa using this
  have hsemi : (59 : Byte) ∉ k ++ 61 :: QueryEscape v := by
    simp only [List.mem_append, List.mem_cons, not_or]
    exact ⟨h59, by decide, e59⟩
  have hne : k ++ 61 :: QueryEscape v ++ 38 :: rest ≠ [] := by
    cases k with
    | nil => exact absurd rfl hk
    | cons a k => simp
  have hne2 : k ++ 61 :: QueryEscape v ≠ [] := by
    cases k with
    | nil => exact absurd rfl hk
    | cons a k => simp
  have hcut2 : cut 61 (k ++ 61 :: QueryEscape v) = (k, QueryEscape v, true) :=
    cut_append 61 k (QueryEscape v) h61
  rw [parseQueryLoop]
  simp only [hne, if_false, hcut, hsemi, hne2, hcut2, hku, QueryUnescape_QueryEscape]

/-- The last turn of the loop of `parseQuery`, on a piece `key=value`. -/
theorem parseQueryLoop_last (fuel : Nat) (m : Values) (err : Option ParseError)
    (k v : GoString) (hk : k ≠ []) (h38 : (38 : Byte) ∉ k) (h61 : (61 : Byte) ∉ k)
    (h59 : (59 : Byte) ∉ k) (hku : QueryUnescape k = .ok k) :
    parseQueryLoop (fuel + 1) m err (k ++ 61 :: QueryEscape v) = (Values.Add m k v, err) := by
  obtain ⟨e38, e61, e59⟩ := QueryEscape_no_separator v
  have hseg : (38 : Byte) ∉ k ++ 61 :: QueryEscape v := by
    simp only [List.mem_append, List.mem_cons, not_or]
    exact ⟨h38, by decide, e38⟩
  have hcut : cut 38 (k ++ 61 :: QueryEscape v) = (k ++ 61 :: QueryEscape v, [], false) :=
    cut_absent 38 _ hseg
  have hsemi : (59 : Byte) ∉ k ++ 61 :: QueryEscape v := by
    simp only [List.mem_append, List.mem_cons, not_or]
    exact ⟨h59, by decide, e59⟩
  have hne2 : k ++ 61 :: QueryEscape v ≠ [] := by
    cases k with
    | nil => exact absurd rfl hk
    | cons a k => simp
  have hcut2 : cut 61 (k ++ 61 :: QueryEscape v) = (k, QueryEscape v, true) :=
    cut_append 61 k (QueryEscape v) h61
  rw [parseQueryLoop]
  simp only [hne2, if_false, hcut, hsemi, hcut2, hku, QueryUnescape_QueryEscape,
    parseQueryLoop_nil]

end url

/-- The four parameters `Search` adds, in the order of the `Add` calls. -/
theorem searchValues_eq (b : api.BoardgameAtlas) (query : GoString) (limit skip : Nat) :
    api.searchValues b api.SEARCH_URL_parsed query limit skip
      = [(ascii "name", [query]), (ascii "limit", [strconv.FormatUint limit]),
         (ascii "skip", [strconv.Itoa (toInt skip)]), (ascii "client_id", [b.clientId])] := by
  have h0 : api.SEARCH_URL_parsed.Query = [] := by decide
  have h1 : ascii "name" ≠ ascii "limit" := by decide
  have h2 : ascii "name" ≠ ascii "skip" := by decide
  have h3 : ascii "name" ≠ ascii "client_id" := by decide
  have h4 : ascii "limit" ≠ ascii "skip" := by decide
  have h5 : ascii "limit" ≠ ascii "client_id" := by decide
  have h6 : ascii "skip" ≠ ascii "client_id" := by decide
  simp only [api.searchValues, h0, url.Values.Add, h1, h2, h3, h4, h5, h6, if_false]

/-- The query string `Search` puts into the request: the four parameters sorted by
key, every value escaped. -/
theorem searchValues_Encode (b : api.BoardgameAtlas) (query : GoString) (limit skip : Nat) :
    (api.searchValues b api.SEARCH_URL_parsed query limit skip).Encode
      = ascii "client_id" ++ 61 :: url.QueryEscape b.clientId
        ++ 38 :: (ascii "limit" ++ 61 :: url.QueryEscape (strconv.FormatUint limit)
        ++ 38 :: (ascii "name" ++ 61 :: url.QueryEscape query
        ++ 38 :: (ascii "skip" ++ 61 :: url.QueryEscape (strconv.Itoa (toInt skip))))) := by
  rw [searchValues_eq]
  have hs : url.sortKeys [ascii "name", ascii "limit", ascii "skip", ascii "client_id"]
      = [ascii "client_id", ascii "limit", ascii "name", ascii "skip"] := by decide
  have k1 : url.QueryEscape (ascii "client_id") = ascii "client_id" := by decide
  have k2 : url.QueryEscape (ascii "limit") = ascii "limit" := by decide
  have k3 : url.QueryEscape (ascii "name") = ascii "name" := by decide
  have k4 : url.QueryEscape (ascii "skip") = ascii "skip" := by decide
  have h1 : ascii "name" ≠ ascii "limit" := by decide
  have h2 : ascii "name" ≠ ascii "skip" := by decide
  have h3 : ascii "name" ≠ ascii "client_id" := by decide
  have h4 : ascii "limit" ≠ ascii "skip" := by decide
  have h5 : ascii "limit" ≠ ascii "client_id" := by decide
  have h6 : ascii "skip" ≠ ascii "client_id" := by decide
  have h7 : ascii "limit" ≠ ascii "name" := fun h => h1 h.symm
  simp only [url.Values.Encode, List.map, hs, url.encodeKeys, url.Values.lookup, k1, k2, k3, k4,
    h1, h2, h3, h4, h5, h6, h7, if_false, if_true, url.encodeKey]
  simp [ascii]

/-- The parsed endpoint prints as the constant `SEARCH_URL`. -/
theorem SEARCH_URL_parsed_String : api.SEARCH_URL_parsed.String = api.SEARCH_URL := by
  decide

/-- What `Search` hands to the network: nothing without a context or with a
context that is done, and otherwise the one request it has built. -/
theorem search_sent (b : api.BoardgameAtlas) (net : http.Request → Except GoString http.Response)
    (ctx : Option context.Context) (query : GoString) (limit skip : Nat) :
    (b.Search net ctx query limit skip).sent
      = match ctx with
        | none => []
        | some c =>
          match c.Err with
          | some _ => []
          | none =>
            [{ Method := ascii "GET",
               URL := { api.SEARCH_URL_parsed with
                          RawQuery :=
                            (api.searchValues b api.SEARCH_URL_parsed query limit skip).Encode },
               ctx := c }] := by
  cases ctx with
  | none => rfl
  | some c =>
    simp only [api.BoardgameAtlas.Search, searchRequest_some, http.Do]
    cases hc : c.Err with
    | some e => rfl
    | none =>
      simp only []
      cases hn : net _ with
      | error e => rfl
      | ok resp =>
        simp only []
        by_cases hst : resp.StatusCode ≥ 400
        · simp only [hst, if_true]
        · simp only [hst, if_false]
          rcases hd : json.Decode resp.Body api.SearchResult.zero with ⟨r, _ | e⟩ <;> rfl

/-- The query string of the request parses back to the four parameters. -/
theorem ParseQuery_searchValues (b : api.BoardgameAtlas) (query : GoString) (limit skip : Nat) :
    url.ParseQuery (api.searchValues b api.SEARCH_URL_parsed query limit skip).Encode
      = ([(ascii "client_id", [b.clientId]), (ascii "limit", [strconv.FormatUint limit]),
          (ascii "name", [query]), (ascii "skip", [strconv.Itoa (toInt skip)])], none) := by
  rw [searchValues_Encode]
  have hfuel : ∃ f, (ascii "client_id" ++ 61 :: url.QueryEscape b.clientId
        ++ 38 :: (ascii "limit" ++ 61 :: url.QueryEscape (strconv.FormatUint limit)
        ++ 38 :: (ascii "name" ++ 61 :: url.QueryEscape query
        ++ 38 :: (ascii "skip" ++ 61 :: url.QueryEscape (strconv.Itoa (toInt skip)))))).length + 1
      = f + 1 + 1 + 1 + 1 := by
    refine ⟨(ascii "client_id" ++ 61 :: url.QueryEscape b.clientId
        ++ 38 :: (ascii "limit" ++ 61 :: url.QueryEscape (strconv.FormatUint limit)
        ++ 38 :: (ascii "name" ++ 61 :: url.QueryEscape query
        ++ 38 :: (ascii "skip" ++ 61 :: url.QueryEscape (strconv.Itoa (toInt skip)))))).length - 3, ?_⟩
    simp only [List.length_append, List.length_cons]
    have : (ascii "client_id").length = 9 := by decide
    omega
  obtain ⟨f, hf⟩ := hfuel
  unfold url.ParseQuery
  rw [hf]
  rw [url.parseQueryLoop_piece _ _ _ (ascii "client_id") _ _ (by decide) (by decide) (by decide)
        (by decide) rfl,
      url.parseQueryLoop_piece _ _ _ (ascii "limit") _ _ (by decide) (by decide) (by decide)
        (by decide) rfl,
      url.parseQueryLoop_piece _ _ _ (ascii "name") _ _ (by decide) (by decide) (by decide)
        (by decide) rfl,
      url.parseQueryLoop_last _ _ _ (ascii "skip") _ (by decide) (by decide) (by decide)
        (by decide) rfl]
  have h1 : ascii "client_id" ≠ ascii "limit" := by decide
  have h2 : ascii "client_id" ≠ ascii "name" := by decide
  have h3 : ascii "client_id" ≠ ascii "skip" := by decide
  have h4 : ascii "limit" ≠ ascii "name" := by decide
  have h5 : ascii "limit" ≠ ascii "skip" := by decide
  have h6 : ascii "name" ≠ ascii "skip" := by decide
  simp only [url.Values.Add, h1, h2, h3, h4, h5, h6, if_false]

/-- C1: every request `Search` hands to the network is a `GET` of the fixed
endpoint `https://api.boardgameatlas.com/api/search` followed by `?` and a query
string that `url.ParseQuery` decodes without error to exactly four keys with one
value each: `name` is the query argument, `client_id` the identifier given to
`New`, and `limit` and `skip` are the texts the code prints for them.  With a
context that is not done, this request is sent. -/
theorem search_request_url (clientId query : GoString) (limit skip : Nat)
    (net : http.Request → Except GoString http.Response) (ctx : Option context.Context) :
    (∀ req ∈ ((api.New clientId).Search net ctx query limit skip).sent,
      req.Method = ascii "GET"
      ∧ req.URL.String = api.SEARCH_URL ++ 63 :: req.URL.RawQuery
      ∧ url.ParseQuery req.URL.RawQuery
          = ([(ascii "client_id", [clientId]), (ascii "limit", [strconv.FormatUint limit]),
              (ascii "name", [query]), (ascii "skip", [strconv.Itoa (toInt skip)])], none))
    ∧ (∀ c, ctx = some c → c.Err = none →
        ((api.New clientId).Search net ctx query limit skip).sent.length = 1) := by
  rw [search_sent]
  refine ⟨?_, ?_⟩
  · intro req hreq
    cases ctx with
    | none => simp at hreq
    | some c =>
      cases hc : c.Err with
      | some e => simp [hc] at hreq
      | none =>
        simp only [hc, List.mem_singleton] at hreq
        subst hreq
        refine ⟨rfl, ?_, ?_⟩
        · have hne : (api.searchValues (api.New clientId) api.SEARCH_URL_parsed query limit
              skip).Encode ≠ [] := by
            rw [searchValues_Encode]
            have : ascii "client_id" = 99 :: ascii "lient_id" := by decide
            rw [this]; simp
          simp only [url.URL.String, hne, ne_eq, not_false_eq_true, if_true]
          have : api.SEARCH_URL_parsed.Scheme ++ ascii "://" ++ api.SEARCH_URL_parsed.Host
              ++ api.SEARCH_URL_parsed.Path = api.SEARCH_URL := by decide
          rw [← this]
        · exact ParseQuery_searchValues (api.New clientId) query limit skip
  · intro c hc he
    subst hc
    simp [he]

/-- C1 at a call with the background context: the request that is sent. -/
theorem search_request_url_witness :
    ({ Method := ascii "GET",
       URL := { api.SEARCH_URL_parsed with
                  RawQuery := ascii "client_id=my+id&limit=10&name=ticket+to+ride%26co&skip=5" },
       ctx := .Background } : http.Request).URL.String
      = api.SEARCH_URL
          ++ 63 :: ascii "client_id=my+id&limit=10&name=ticket+to+ride%26co&skip=5"
    ∧ url.ParseQuery (ascii "client_id=my+id&limit=10&name=ticket+to+ride%26co&skip=5")
        = ([(ascii "client_id", [ascii "my id"]), (ascii "limit", [ascii "10"]),
            (ascii "name", [ascii "ticket to ride&co"]), (ascii "skip", [ascii "5"])], none) :=
  ((search_request_url (ascii "my id") (ascii "ticket to ride&co") 10 5
      (fun _ => .error (ascii "no network")) (some .Background)).1
    { Method := ascii "GET",
      URL := { api.SEARCH_URL_parsed with
                 RawQuery := ascii "client_id=my+id&limit=10&name=ticket+to+ride%26co&skip=5" },
      ctx := .Background }
    (by decide)).2

/-! ## UTF-8 decoding -/

namespace utf8

/-- A non-empty input decodes to a rune at least one byte wide and not wider
than the input. -/
theorem DecodeRune_size (q : GoString) (h : q ≠ []) :
    1 ≤ (DecodeRune q).2 ∧ (DecodeRune q).2 ≤ q.length := by
  cases q with
  | nil => exact absurd rfl h
  | cons p0 rest =>
    unfold DecodeRune
    repeat' split
    all_goals simp_all

/-- A rune other than `RuneError` is decoded from the first bytes alone: what
follows them does not matter. -/
theorem DecodeRune_append (p q : GoString) (h : (DecodeRune p).1 ≠ RuneError) :
    DecodeRune (p ++ q) = DecodeRune p := by
  cases p with
  | nil => simp [DecodeRune] at h
  | cons p0 rest =>
    simp only [List.cons_append]
    by_cases hp : p0.val < RuneSelf
    · simp [DecodeRune, hp]
    · cases hf : first p0 with
      | none => simp [DecodeRune, hp, hf] at h
      | some t =>
        obtain ⟨sz, lo, hi⟩ := t
        have hsz : sz = 2 ∨ sz = 3 ∨ sz = 4 := by
          unfold first at hf
          repeat' split at hf
          all_goals simp at hf
          all_goals omega
        rcases rest with _ | ⟨b1, _ | ⟨b2, _ | ⟨b3, rest3⟩⟩⟩
        · simp only [DecodeRune, hp, hf, if_false] at h
          split at h <;> simp at h
        all_goals rcases hsz with rfl | rfl | rfl
        all_goals
          simp only [DecodeRune, hp, hf, if_false, List.cons_append, List.nil_append,
            List.length_cons, List.length_nil, List.length_append, Nat.reduceAdd, Nat.reduceLT,
            Nat.reduceLeDiff, if_true] at h ⊢
        all_goals try (exact absurd rfl h)
        all_goals
          clear h
          split
          · exfalso; omega
          · rfl

/-- What `DecodeLastRune` returns for a non-empty input when it is not the error
rune: a rune one byte wide at least and not wider than the input, and the rune
`DecodeRune` finds when it spans the whole input. -/
theorem DecodeLastRune_spec (p : GoString) (hp : p ≠ [])
    (hr : (DecodeLastRune p).1 ≠ RuneError) :
    1 ≤ (DecodeLastRune p).2 ∧ (DecodeLastRune p).2 ≤ p.length
      ∧ ((DecodeLastRune p).2 = p.length → DecodeRune p = DecodeLastRune p) := by
  have hlen : p.length ≠ 0 := by
    intro h; exact hp (List.length_eq_zero.mp h)
  unfold DecodeLastRune at hr ⊢
  simp only [hlen, if_false] at hr ⊢
  split
  · rename_i hlast
    refine ⟨le_refl _, by omega, ?_⟩
    intro h1
    simp only at h1
    cases p with
    | nil => exact absurd rfl hp
    | cons b rest =>
      cases rest with
      | nil =>
        simp only [List.length_cons, List.length_nil, Nat.zero_add, Nat.sub_self,
          List.getD_cons_zero] at hlast ⊢
        simp [DecodeRune, hlast]
      | cons c rest => simp at h1
  · rename_i hlast
    simp only [hlast, if_false] at hr
    generalize (if lastRuneLoop p (if (p.length : Int) - 4 < 0 then 0 else (p.length : Int) - 4) 4
        ((p.length : Int) - 1 - 1) < 0 then 0
      else (lastRuneLoop p (if (p.length : Int) - 4 < 0 then 0 else (p.length : Int) - 4) 4
        ((p.length : Int) - 1 - 1)).toNat) = start at hr ⊢
    split
    · rename_i hne
      simp only [hne, ne_eq, not_false_eq_true, if_true] at hr
      exact absurd trivial hr
    · rename_i heq
      simp only [ne_eq, Decidable.not_not] at heq
      have hne : p.drop start ≠ [] := by
        intro h
        rw [h] at hr heq
        simp only [heq, ne_eq, not_true_eq_false, if_false] at hr
        exact hr rfl
      have hs := DecodeRune_size (p.drop start) hne
      refine ⟨hs.1, by omega, ?_⟩
      intro h2
      have : start = 0 := by omega
      subst this
      simp

end utf8

/-! ## Trimming and the blank check of the driver -/

namespace utf8

/-- Decoding the runes of a string takes at most as many turns as it has bytes:
with that many turns or more, the runes are the same. -/
theorem runes_turns (n : Nat) (s : GoString) (f1 f2 : Nat) (hs : s.length ≤ n) (h1 : n ≤ f1)
    (h2 : n ≤ f2) : runes f1 s = runes f2 s := by
  induction n generalizing s f1 f2 with
  | zero =>
    have : s = [] := List.length_eq_zero.mp (by omega)
    subst this
    cases f1 <;> cases f2 <;> simp [runes]
  | succ n ih =>
    by_cases he : s = []
    · subst he
      cases f1 <;> cases f2 <;> simp [runes]
    · cases f1 with
      | zero => omega
      | succ f1 =>
        cases f2 with
        | zero => omega
        | succ f2 =>
          have hsz := DecodeRune_size s he
          simp only [runes, he, if_false]
          rw [ih (s.drop (DecodeRune s).2) f1 f2 (by rw [List.length_drop]; omega) (by omega)
            (by omega)]

end utf8

namespace strings

/-- `indexFunc` finds no rune that is not a space exactly when all runes are spaces. -/
theorem indexFunc_none_iff (fuel : Nat) (s : GoString) (i : Nat) :
    indexFunc unicode.IsSpace false fuel s i = none
      ↔ (utf8.runes fuel s).all unicode.IsSpace = true := by
  induction fuel generalizing s i with
  | zero => simp [indexFunc, utf8.runes]
  | succ fuel ih =>
    unfold indexFunc utf8.runes
    by_cases hs : s = []
    · simp [hs]
    · simp only [hs, if_false, List.all_cons, Bool.and_eq_true]
      cases hsp : unicode.IsSpace (utf8.DecodeRune s).1 with
      | false => simp
      | true =>
        simp only [Bool.true_eq_false, if_false, true_and]
        exact ih _ _

/-- Where `indexFunc` finds a rune, there is one and the predicate is false for it. -/
theorem indexFunc_some (f : Nat → Bool) (fuel : Nat) (s : GoString) (i j : Nat)
    (h : indexFunc f false fuel s i = some j) :
    ∃ k, j = i + k ∧ s.drop k ≠ [] ∧ f (utf8.DecodeRune (s.drop k)).1 = false := by
  induction fuel generalizing s i with
  | zero => simp [indexFunc] at h
  | succ fuel ih =>
    unfold indexFunc at h
    by_cases hs : s = []
    · simp [hs] at h
    · simp only [hs, if_false] at h
      cases hsp : f (utf8.DecodeRune s).1 with
      | false =>
        simp only [hsp, if_true, Option.some.injEq] at h
        exact ⟨0, by omega, by simpa using hs, by simpa using hsp⟩
      | true =>
        simp only [hsp, Bool.true_eq_false, if_false] at h
        obtain ⟨k, hk, hne, hf⟩ := ih _ _ h
        refine ⟨(utf8.DecodeRune s).2 + k, by omega, ?_, ?_⟩
        · simpa only [List.drop_drop, Nat.add_comm] using hne
        · simpa only [List.drop_drop, Nat.add_comm] using hf

/-- Walking back from the end of a string whose first rune is not a space,
`lastIndexFunc` finds a rune that is not a space. -/
theorem lastIndexFunc_some (v : GoString) (hv : v ≠ [])
    (hfirst : unicode.IsSpace (utf8.DecodeRune v).1 = false) (fuel i : Nat)
    (h1 : 1 ≤ i) (h2 : i ≤ v.length) (h3 : i ≤ fuel) :
    ∃ j, lastIndexFunc unicode.IsSpace false v fuel i = some j := by
  induction fuel generalizing i with
  | zero => omega
  | succ fuel ih =>
    unfold lastIndexFunc
    have hi : i > 0 := by omega
    simp only [hi, if_true]
    cases hsp : unicode.IsSpace (utf8.DecodeLastRune (v.take i)).1 with
    | false => simp
    | true =>
      simp only [Bool.true_eq_false, if_false]
      have hne : v.take i ≠ [] := by
        cases v with
        | nil => exact absurd rfl hv
        | cons a v =>
          cases i with
          | zero => omega
          | succ i => simp
      have hr : (utf8.DecodeLastRune (v.take i)).1 ≠ utf8.RuneError := by
        intro e
        rw [e] at hsp
        exact absurd hsp (by decide)
      have hlen : (v.take i).length = i := by simp; omega
      obtain ⟨d1, d2, d3⟩ := utf8.DecodeLastRune_spec (v.take i) hne hr
      rw [hlen] at d2 d3
      have hlt : (utf8.DecodeLastRune (v.take i)).2 ≠ i := by
        intro e
        have e1 := d3 e
        have e2 : utf8.DecodeRune (v.take i ++ v.drop i) = utf8.DecodeRune (v.take i) :=
          utf8.DecodeRune_append _ _ (by rw [e1]; exact hr)
        rw [List.take_append_drop, e1] at e2
        rw [e2, hsp] at hfirst
        cases hfirst
      apply ih
      · omega
      · omega
      · omega

/-- Trimming the end of a string whose first rune is not a space leaves some of it. -/
theorem TrimRightFunc_ne_nil (v : GoString) (hv : v ≠ [])
    (hfirst : unicode.IsSpace (utf8.DecodeRune v).1 = false) :
    TrimRightFunc v unicode.IsSpace ≠ [] := by
  have hlen : 1 ≤ v.length := by
    cases v with
    | nil => exact absurd rfl hv
    | cons a v => simp
  obtain ⟨j, hj⟩ := lastIndexFunc_some v hv hfirst (v.length + 1) v.length hlen (le_refl _)
    (by omega)
  unfold TrimRightFunc
  rw [hj]
  have hpos : ∀ n, 1 ≤ n → v.take n ≠ [] := by
    intro n hn
    cases v with
    | nil => exact absurd rfl hv
    | cons a v =>
      cases n with
      | zero => omega
      | succ n => simp
  simp only []
  split
  · apply hpos
    cases j with
    | zero =>
      have := utf8.DecodeRune_size (v.drop 0) (by simpa using hv)
      omega
    | succ j => omega
  · apply hpos; omega

/-- `TrimFunc` with `unicode.IsSpace` leaves nothing exactly of a string of spaces. -/
theorem TrimFunc_length (t : GoString) :
    decide ((TrimFunc t unicode.IsSpace).length ≤ 0)
      = (utf8.runes (t.length + 1) t).all unicode.IsSpace := by
  unfold TrimFunc TrimLeftFunc
  cases hidx : indexFunc unicode.IsSpace false (t.length + 1) t 0 with
  | none =>
    have := (indexFunc_none_iff (t.length + 1) t 0).mp hidx
    rw [this]
    simp [TrimRightFunc, lastIndexFunc]
  | some j =>
    have hnot : ¬ ((utf8.runes (t.length + 1) t).all unicode.IsSpace = true) := by
      intro h
      have := (indexFunc_none_iff (t.length + 1) t 0).mpr h
      rw [this] at hidx
      cases hidx
    obtain ⟨k, hk, hne, hf⟩ := indexFunc_some _ _ _ _ _ hidx
    have hjk : j = k := by omega
    subst hjk
    have := TrimRightFunc_ne_nil (t.drop j) hne hf
    simp only [Bool.not_eq_true] at hnot
    rw [hnot]
    simp only [decide_eq_false_iff_not, Nat.le_zero, List.length_eq_zero]
    exact this

/-- An ASCII byte is a space for `unicode.IsSpace` exactly when the table
`asciiSpace` has it. -/
theorem IsSpace_ascii : ∀ c : Byte, c.val < utf8.RuneSelf →
    unicode.IsSpace c.val = asciiSpace c := by
  decide

/-- The second loop of `TrimSpace` leaves some of a string that starts with an
ASCII byte that is not a space. -/
theorem trimSpaceEnd_ne_nil (c : Byte) (hc : c.val < utf8.RuneSelf) (hsp : asciiSpace c = false)
    (rev : List Byte) : trimSpaceEnd (rev ++ [c]) ≠ [] := by
  induction rev with
  | nil =>
    have h1 : ¬ c.val ≥ utf8.RuneSelf := by omega
    simp [trimSpaceEnd, h1, hsp]
  | cons x rev ih =>
    simp only [List.cons_append, trimSpaceEnd]
    split
    · apply TrimRightFunc_ne_nil
      · simp
      · have : (x :: rev.append [c]).reverse = c :: (rev.reverse ++ [x]) := by simp
        rw [this]
        simp only [utf8.DecodeRune, hc, if_true]
        rw [IsSpace_ascii c hc]; exact hsp
    · split
      · simp
      · exact ih

end strings

/-- The function `isNull` of the driver answers whether its argument is blank. -/
theorem isNull_eq_blank (s : GoString) : cmd.isNull s = cmd.blank s := by
  unfold cmd.isNull cmd.blank
  induction s with
  | nil => simp [strings.TrimSpace, utf8.runes]
  | cons c rest ih =>
    unfold strings.TrimSpace
    split
    · exact strings.TrimFunc_length (c :: rest)
    · rename_i hge
      have hc : c.val < utf8.RuneSelf := by omega
      have hrunes : utf8.runes ((c :: rest).length + 1) (c :: rest)
          = c.val :: utf8.runes (rest.length + 1) rest := by
        simp [utf8.runes, utf8.DecodeRune, hc]
      rw [hrunes, List.all_cons, strings.IsSpace_ascii c hc]
      split
      · rename_i hsp
        simp only [Bool.not_eq_true'] at hsp
        have := strings.trimSpaceEnd_ne_nil c hc hsp rest.reverse
        have hrev : (c :: rest).reverse = rest.reverse ++ [c] := by simp
        rw [hrev, hsp]
        simp only [Bool.false_and, decide_eq_false_iff_not, Nat.le_zero, List.length_eq_zero]
        exact this
      · rename_i hsp
        simp only [Bool.not_eq_true', Bool.not_eq_false] at hsp
        rw [hsp, Bool.true_and]
        exact ih

/-- C8: `isNull` is true exactly for the blank strings (empty, or all white
space), so it is false for every string with a rune that is not white space; and
when the query or the client identifier is blank, the driver stops with a
diagnostic and exit status 1, nothing printed, and without any request handed to
the network. -/
theorem driver_blank_argument :
    (∀ s : GoString, cmd.isNull s = true ↔ cmd.blank s = true)
    ∧ (∀ s : GoString, (∃ r ∈ utf8.runes (s.length + 1) s, unicode.IsSpace r = false) →
        cmd.isNull s = false)
    ∧ (∀ (flags : cmd.Flags) (net : http.Request → Except GoString http.Response)
        (noColor : Bool) (paint : GoString → GoString),
        cmd.blank flags.query = true ∨ cmd.blank flags.clientId = true →
        (cmd.main flags net noColor paint).status = 1
          ∧ (cmd.main flags net noColor paint).fatal.isSome = true
          ∧ (cmd.main flags net noColor paint).stdout = []
          ∧ (cmd.main flags net noColor paint).sent = []) := by
  refine ⟨?_, ?_, ?_⟩
  · intro s; rw [isNull_eq_blank]
  · intro s ⟨r, hr, hsp⟩
    rw [isNull_eq_blank]
    unfold cmd.blank
    rw [Bool.eq_false_iff]
    intro hall
    rw [List.all_eq_true] at hall
    have := hall r hr
    rw [hsp] at this
    cases this
  · intro flags net noColor paint h
    unfold cmd.main
    by_cases hq : cmd.isNull flags.query = true
    · simp [hq]
    · have hc : cmd.isNull flags.clientId = true := by
        rcases h with h | h
        · rw [isNull_eq_blank] at hq; exact absurd h hq
        · rw [isNull_eq_blank]; exact h
      simp [hq, hc]

/-- C8 at a query of spaces (a tab, a no-break space and an ideographic space
among them): the driver stops before any request is made. -/
theorem driver_blank_argument_witness :
    (cmd.main { query := [32, 9, 0xC2, 0xA0, 0xE3, 0x80, 0x80, 32], clientId := ascii "id",
                limit := 10, skip := 0, timeout := 10 }
        (fun _ => .ok { StatusCode := 200, Status := ascii "200 OK", Body := { data := [],
                                                                               err := none } })
        true id).status = 1
    ∧ (cmd.main { query := [32, 9, 0xC2, 0xA0, 0xE3, 0x80, 0x80, 32], clientId := ascii "id",
                  limit := 10, skip := 0, timeout := 10 }
        (fun _ => .ok { StatusCode := 200, Status := ascii "200 OK", Body := { data := [],
                                                                               err := none } })
        true id).fatal.isSome = true
    ∧ (cmd.main { query := [32, 9, 0xC2, 0xA0, 0xE3, 0x80, 0x80, 32], clientId := ascii "id",
                  limit := 10, skip := 0, timeout := 10 }
        (fun _ => .ok { StatusCode := 200, Status := ascii "200 OK", Body := { data := [],
                                                                               err := none } })
        true id).stdout = []
    ∧ (cmd.main { query := [32, 9, 0xC2, 0xA0, 0xE3, 0x80, 0x80, 32], clientId := ascii "id",
                  limit := 10, skip := 0, timeout := 10 }
        (fun _ => .ok { StatusCode := 200, Status := ascii "200 OK", Body := { data := [],
                                                                               err := none } })
        true id).sent = [] :=
  driver_blank_argument.2.2
    { query := [32, 9, 0xC2, 0xA0, 0xE3, 0x80, 0x80, 32], clientId := ascii "id",
      limit := 10, skip := 0, timeout := 10 }
    (fun _ => .ok { StatusCode := 200, Status := ascii "200 OK", Body := { data := [],
                                                                           err := none } })
    true id (Or.inl (by decide))

/-! ## Decimal numbers -/

namespace strconv

theorem digitByte_val (d : Nat) : (digitByte d).val = 48 + d % 10 := by
  simp only [digitByte, Fin.ofNat, Fin.val_mk]
  omega

/-- The text of a positive number: a first digit that is not `0`, then digits. -/
theorem formatBits_pos (fuel u : Nat) (acc : GoString) (h : u < 10 ^ fuel) (hu : 0 < u) :
    ∃ d ds, formatBits fuel u acc = d :: (ds ++ acc) ∧ 49 ≤ d.val ∧ d.val ≤ 57
      ∧ ∀ x ∈ ds, 48 ≤ x.val ∧ x.val ≤ 57 := by
  induction fuel generalizing u acc with
  | zero => simp at h; omega
  | succ fuel ih =>
    unfold formatBits
    by_cases h10 : u ≥ 10
    · simp only [h10, if_true]
      have h1 : u / 10 < 10 ^ fuel := by
        rw [Nat.pow_succ] at h
        omega
      obtain ⟨d, ds, e, hd1, hd2, hds⟩ := ih (u / 10) (digitByte (u % 10) :: acc) h1 (by omega)
      refine ⟨d, ds ++ [digitByte (u % 10)], ?_, hd1, hd2, ?_⟩
      · rw [e]; simp
      · intro x hx
        rcases List.mem_append.mp hx with hx | hx
        · exact hds x hx
        · simp only [List.mem_singleton] at hx
          subst hx
          rw [digitByte_val]; omega
    · simp only [h10, if_false]
      refine ⟨digitByte u, [], by simp, ?_, ?_, by simp⟩
      · rw [digitByte_val]; omega
      · rw [digitByte_val]; omega

theorem parseUintLoop_formatBits (fuel u : Nat) (acc : GoString) (h : u < 10 ^ fuel)
    (h64 : u < 2 ^ 64) :
    parseUintLoop (formatBits fuel u acc) 0 = parseUintLoop acc u := by
  induction fuel generalizing u acc with
  | zero =>
    have : u = 0 := by simp at h; omega
    subst this; rfl
  | succ fuel ih =>
    unfold formatBits
    by_cases h10 : u ≥ 10
    · simp only [h10, if_true]
      have h1 : u / 10 < 10 ^ fuel := by
        rw [Nat.pow_succ] at h
        omega
      rw [ih (u / 10) _ h1 (by omega)]
      rw [parseUintLoop]
      have hv := digitByte_val (u % 10)
      have hd : 48 ≤ (digitByte (u % 10)).val ∧ (digitByte (u % 10)).val ≤ 57 := by omega
      have hc : ¬ u / 10 ≥ (2 ^ 64 - 1) / 10 + 1 := by omega
      have hs : u / 10 * 10 + ((digitByte (u % 10)).val - 48) = u := by omega
      have ho : ¬ u > 2 ^ 64 - 1 := by omega
      simp only [hd, and_self, if_true, hc, if_false, hs, ho]
    · simp only [h10, if_false]
      rw [parseUintLoop]
      have hv := digitByte_val u
      have hd : 48 ≤ (digitByte u).val ∧ (digitByte u).val ≤ 57 := by omega
      have hs : 0 * 10 + ((digitByte u).val - 48) = u := by omega
      have ho : ¬ u > 2 ^ 64 - 1 := by omega
      simp only [hd, and_self, if_true, hs, ho, if_false]
      simp

theorem FormatUint_ne_nil (n : Nat) : FormatUint n ≠ [] := by
  unfold FormatUint formatBits
  split
  · by_cases h : n / 10 = 0
    · omega
    · have : n / 10 < 10 ^ 19 ∨ ¬ n / 10 < 10 ^ 19 := by omega
      rcases this with h1 | h1
      · obtain ⟨d, ds, e, _⟩ := formatBits_pos 19 (n / 10) [digitByte (n % 10)] h1 (by omega)
        rw [e]; simp
      · -- the buffer is full: the digits written so far are returned
        have key : ∀ fuel u (acc : GoString), acc ≠ [] → formatBits fuel u acc ≠ [] := by
          intro fuel
          induction fuel with
          | zero => intro u acc h; simpa [formatBits] using h
          | succ fuel ih =>
            intro u acc h
            unfold formatBits
            split
            · exact ih _ _ (by simp)
            · simp
        exact key _ _ _ (by simp)
  · simp

/-- Parsing the decimal text of a 64-bit number gives the number back. -/
theorem ParseUint_FormatUint (n : Nat) (h : n < 2 ^ 64) : ParseUint (FormatUint n) = some n := by
  unfold ParseUint
  simp only [FormatUint_ne_nil, if_false]
  unfold FormatUint
  rw [parseUintLoop_formatBits 20 n [] (by omega) h]
  rfl

/-- The decimal text of a 64-bit number: `0`, or a first digit from `1` to `9`
followed by digits. -/
theorem FormatUint_digits (n : Nat) (h : n < 2 ^ 64) :
    FormatUint n = [48] ∨ ∃ d ds, FormatUint n = d :: ds ∧ 49 ≤ d.val ∧ d.val ≤ 57
      ∧ ∀ x ∈ ds, 48 ≤ x.val ∧ x.val ≤ 57 := by
  by_cases h0 : n = 0
  · subst h0; left; rfl
  · right
    obtain ⟨d, ds, e, h1, h2, h3⟩ := formatBits_pos 20 n [] (by omega) (by omega)
    exact ⟨d, ds, by simpa [FormatUint] using e, h1, h2, h3⟩

end strconv

/-! ## The ranges in which the numeric parameters and the timeout are exact -/

/-- The `limit` parameter is the decimal text of the limit over the whole `uint`
range: `strconv.ParseUint` reads the limit back from it. -/
theorem limit_parameter_decimal (b : api.BoardgameAtlas) (query : GoString) (limit skip : Nat)
    (h : limit < 2 ^ 64) :
    url.Values.lookup (api.searchValues b api.SEARCH_URL_parsed query limit skip) (ascii "limit")
      = [strconv.FormatUint limit]
    ∧ strconv.ParseUint (strconv.FormatUint limit) = some limit := by
  rw [searchValues_eq]
  exact ⟨by simp +decide [url.Values.lookup], strconv.ParseUint_FormatUint limit h⟩

/-- Below `2^63` the `skip` parameter is the decimal text of the skip. -/
theorem skip_parameter_in_range (b : api.BoardgameAtlas) (query : GoString) (limit skip : Nat)
    (h : skip < 2 ^ 63) :
    url.Values.lookup (api.searchValues b api.SEARCH_URL_parsed query limit skip) (ascii "skip")
      = [strconv.FormatUint skip] := by
  rw [searchValues_eq]
  have h1 : toInt skip = (skip : Int) := by
    have e : skip % 2 ^ 64 = skip := Nat.mod_eq_of_lt (by omega)
    simp only [toInt, uintSize, e, Nat.reduceSub]
    rw [if_pos h]
  have h2 : strconv.Itoa (toInt skip) = strconv.FormatUint skip := by
    rw [h1]
    simp only [strconv.Itoa, strconv.FormatInt, Int.natAbs_ofNat]
    rw [if_neg (by omega)]
  rw [h2]
  simp +decide [url.Values.lookup]

/-- From `2^63` on the `skip` parameter is a minus sign followed by the decimal
text of `2^64 - skip`: the sign has changed. -/
theorem skip_parameter_out_of_range (b : api.BoardgameAtlas) (query : GoString)
    (limit skip : Nat) (h1 : 2 ^ 63 ≤ skip) (h2 : skip < 2 ^ 64) :
    url.Values.lookup (api.searchValues b api.SEARCH_URL_parsed query limit skip) (ascii "skip")
      = [45 :: strconv.FormatUint (2 ^ 64 - skip)] := by
  rw [searchValues_eq]
  have e : skip % 2 ^ 64 = skip := Nat.mod_eq_of_lt h2
  have h3 : toInt skip = (skip : Int) - 2 ^ 64 := by
    simp only [toInt, uintSize, e, Nat.reduceSub]
    rw [if_neg (by omega)]
  have h4 : ((skip : Int) - 2 ^ 64).natAbs = 2 ^ 64 - skip := by omega
  have h5 : strconv.Itoa (toInt skip) = 45 :: strconv.FormatUint (2 ^ 64 - skip) := by
    rw [h3]
    simp only [strconv.Itoa, strconv.FormatInt, h4]
    rw [if_pos (by omega)]
  rw [h5]
  simp +decide [url.Values.lookup]

/-- Up to 9223372036 seconds the timeout is exact and not negative. -/
theorem timeout_in_range (t : Nat) (h : t ≤ 9223372036) :
    cmd.timeoutDuration t = (t : Int) * 1000000000 ∧ 0 ≤ cmd.timeoutDuration t := by
  have e : t * 1000000000 % 2 ^ 64 = t * 1000000000 := Nat.mod_eq_of_lt (by omega)
  have h1 : cmd.timeoutDuration t = ((t * 1000000000 : Nat) : Int) := by
    simp only [cmd.timeoutDuration, cmd.Second, toInt, uintSize, e, Nat.reduceSub,
      Nat.mod_mod]
    rw [if_pos (by omega)]
  rw [h1]
  constructor
  · push_cast; ring
  · omega

namespace utf8

theorem byte_ofNat (n : Nat) (b : Byte) (h : n = b.val) : (Fin.ofNat n : Byte) = b := by
  apply Fin.ext
  simp only [Fin.ofNat, Fin.val_mk]
  have := b.isLt
  omega

/-- The entries of the table `first`. -/
theorem first_table : ∀ p0 : Byte,
    first p0 = none
    ∨ (first p0 = some (2, 0x80, 0xBF) ∧ 0xC2 ≤ p0.val ∧ p0.val ≤ 0xDF)
    ∨ (first p0 = some (3, 0xA0, 0xBF) ∧ p0.val = 0xE0)
    ∨ (first p0 = some (3, 0x80, 0xBF) ∧ 0xE1 ≤ p0.val ∧ p0.val ≤ 0xEF ∧ p0.val ≠ 0xED)
    ∨ (first p0 = some (3, 0x80, 0x9F) ∧ p0.val = 0xED)
    ∨ (first p0 = some (4, 0x90, 0xBF) ∧ p0.val = 0xF0)
    ∨ (first p0 = some (4, 0x80, 0xBF) ∧ 0xF1 ≤ p0.val ∧ p0.val ≤ 0xF3)
    ∨ (first p0 = some (4, 0x80, 0x8F) ∧ p0.val = 0xF4) := by
  decide

theorem decode2_valid (p0 : Byte) (rest : GoString) (lo hi : Nat) (hp : ¬ p0.val < RuneSelf)
    (hf : first p0 = some (2, lo, hi)) (h : DecodeRune (p0 :: rest) ≠ (RuneError, 1)) :
    ∃ b1 t, rest = b1 :: t ∧ lo ≤ b1.val ∧ b1.val ≤ hi
      ∧ DecodeRune (p0 :: rest) = (p0.val % 32 * 64 + b1.val % 64, 2) := by
  rcases rest with _ | ⟨b1, t⟩
  · exfalso; apply h; simp [DecodeRune, hp, hf]
  · by_cases c : b1.val < lo ∨ hi < b1.val
    · exfalso; apply h; simp [DecodeRune, hp, hf, c]
    · refine ⟨b1, t, rfl, by omega, by omega, ?_⟩
      simp [DecodeRune, hp, hf, c]

theorem decode3_valid (p0 : Byte) (rest : GoString) (lo hi : Nat) (hp : ¬ p0.val < RuneSelf)
    (hf : first p0 = some (3, lo, hi)) (h : DecodeRune (p0 :: rest) ≠ (RuneError, 1)) :
    ∃ b1 b2 t, rest = b1 :: b2 :: t ∧ lo ≤ b1.val ∧ b1.val ≤ hi ∧ 0x80 ≤ b2.val ∧ b2.val ≤ 0xBF
      ∧ DecodeRune (p0 :: rest) = (p0.val % 16 * 4096 + b1.val % 64 * 64 + b2.val % 64, 3) := by
  rcases rest with _ | ⟨b1, _ | ⟨b2, t⟩⟩
  · exfalso; apply h; simp [DecodeRune, hp, hf]
  · exfalso; apply h; simp [DecodeRune, hp, hf]
  · by_cases c : b1.val < lo ∨ hi < b1.val
    · exfalso; apply h; simp [DecodeRune, hp, hf, c]
    · by_cases c2 : isCont b2 = true
      · have c3 := c2
        simp only [isCont, decide_eq_true_eq] at c3
        refine ⟨b1, b2, t, rfl, by omega, by omega, c3.1, c3.2, ?_⟩
        simp [DecodeRune, hp, hf, c, c2]
      · exfalso; apply h; simp [DecodeRune, hp, hf, c, c2]

theorem decode4_valid (p0 : Byte) (rest : GoString) (lo hi : Nat) (hp : ¬ p0.val < RuneSelf)
    (hf : first p0 = some (4, lo, hi)) (h : DecodeRune (p0 :: rest) ≠ (RuneError, 1)) :
    ∃ b1 b2 b3 t, rest = b1 :: b2 :: b3 :: t ∧ lo ≤ b1.val ∧ b1.val ≤ hi
      ∧ 0x80 ≤ b2.val ∧ b2.val ≤ 0xBF ∧ 0x80 ≤ b3.val ∧ b3.val ≤ 0xBF
      ∧ DecodeRune (p0 :: rest)
          = (p0.val % 8 * 262144 + b1.val % 64 * 4096 + b2.val % 64 * 64 + b3.val % 64, 4) := by
  rcases rest with _ | ⟨b1, _ | ⟨b2, _ | ⟨b3, t⟩⟩⟩
  · exfalso; apply h; simp [DecodeRune, hp, hf]
  · exfalso; apply h; simp [DecodeRune, hp, hf]
  · exfalso; apply h; simp [DecodeRune, hp, hf]
  · by_cases c : b1.val < lo ∨ hi < b1.val
    · exfalso; apply h; simp [DecodeRune, hp, hf, c]
    · by_cases c2 : isCont b2 = true
      · by_cases c4 : isCont b3 = true
        · have c3 := c2
          have c5 := c4
          simp only [isCont, decide_eq_true_eq] at c3 c5
          refine ⟨b1, b2, b3, t, rfl, by omega, by omega, c3.1, c3.2, c5.1, c5.2, ?_⟩
          simp [DecodeRune, hp, hf, c, c2, c4]
        · exfalso; apply h; simp [DecodeRune, hp, hf, c, c2, c4]
      · exfalso; apply h; simp [DecodeRune, hp, hf, c, c2]

/-- Encoding the rune of a valid encoding gives the bytes it was decoded from. -/
theorem AppendRune_DecodeRune (s : GoString) (hs : s ≠ [])
    (h : DecodeRune s ≠ (RuneError, 1)) :
    AppendRune (DecodeRune s).1 = s.take (DecodeRune s).2 := by
  cases s with
  | nil => exact absurd rfl hs
  | cons p0 rest =>
    by_cases hp : p0.val < RuneSelf
    · have hp2 : p0.val ≤ 0x7F := by simp only [RuneSelf] at hp; omega
      simp only [DecodeRune, hp, if_true, AppendRune, hp2, List.take_succ_cons, List.take_zero]
      congr 1
      exact byte_ofNat _ _ rfl
    · rcases first_table p0 with hf | ⟨hf, hr⟩ | ⟨hf, hr⟩ | ⟨hf, hr⟩ | ⟨hf, hr⟩ | ⟨hf, hr⟩
        | ⟨hf, hr⟩ | ⟨hf, hr⟩
      · exfalso; apply h; simp [DecodeRune, hp, hf]
      · obtain ⟨b1, t, rfl, h1, h2, hd⟩ := decode2_valid p0 rest _ _ hp hf h
        rw [hd]
        have e1 : ¬ p0.val % 32 * 64 + b1.val % 64 ≤ 0x7F := by omega
        have e2 : p0.val % 32 * 64 + b1.val % 64 ≤ 0x7FF := by omega
        simp only [AppendRune, e1, e2, if_true, if_false, List.take_succ_cons, List.take_zero]
        congr 1
        · apply byte_ofNat; omega
        · congr 1; apply byte_ofNat; omega
      · obtain ⟨b1, b2, t, rfl, h1, h2, h3, h4, hd⟩ := decode3_valid p0 rest _ _ hp hf h
        rw [hd]
        have e1 : ¬ p0.val % 16 * 4096 + b1.val % 64 * 64 + b2.val % 64 ≤ 0x7F := by omega
        have e2 : ¬ p0.val % 16 * 4096 + b1.val % 64 * 64 + b2.val % 64 ≤ 0x7FF := by omega
        have e3 : ¬ (p0.val % 16 * 4096 + b1.val % 64 * 64 + b2.val % 64 > 0x10FFFF
            ∨ (0xD800 ≤ p0.val % 16 * 4096 + b1.val % 64 * 64 + b2.val % 64
              ∧ p0.val % 16 * 4096 + b1.val % 64 * 64 + b2.val % 64 ≤ 0xDFFF)) := by omega
        have e4 : p0.val % 16 * 4096 + b1.val % 64 * 64 + b2.val % 64 ≤ 0xFFFF := by omega
        simp only [AppendRune, MaxRune, e1, e2, e3, e4, if_true, if_false, List.take_succ_cons,
          List.take_zero]
        congr 1
        · apply byte_ofNat; omega
        · congr 1
          · apply byte_ofNat; omega
          · congr 1; apply byte_ofNat; omega
      · obtain ⟨b1, b2, t, rfl, h1, h2, h3, h4, hd⟩ := decode3_valid p0 rest _ _ hp hf h
        rw [hd]
        have e1 : ¬ p0.val % 16 * 4096 + b1.val % 64 * 64 + b2.val % 64 ≤ 0x7F := by omega
        have e2 : ¬ p0.val % 16 * 4096 + b1.val % 64 * 64 + b2.val % 64 ≤ 0x7FF := by omega
        have e3 : ¬ (p0.val % 16 * 4096 + b1.val % 64 * 64 + b2.val % 64 > 0x10FFFF
            ∨ (0xD800 ≤ p0.val % 16 * 4096 + b1.val % 64 * 64 + b2.val % 64
              ∧ p0.val % 16 * 4096 + b1.val % 64 * 64 + b2.val % 64 ≤ 0xDFFF)) := by omega
        have e4 : p0.val % 16 * 4096 + b1.val % 64 * 64 + b2.val % 64 ≤ 0xFFFF := by omega
        simp only [AppendRune, MaxRune, e1, e2, e3, e4, if_true, if_false, List.take_succ_cons,
          List.take_zero]
        congr 1
        · apply byte_ofNat; omega
        · congr 1
          · apply byte_ofNat; omega
          · congr 1; apply byte_ofNat; omega
      · obtain ⟨b1, b2, t, rfl, h1, h2, h3, h4, hd⟩ := decode3_valid p0 rest _ _ hp hf h
        rw [hd]
        have e1 : ¬ p0.val % 16 * 4096 + b1.val % 64 * 64 + b2.val % 64 ≤ 0x7F := by omega
        have e2 : ¬ p0.val % 16 * 4096 + b1.val % 64 * 64 + b2.val % 64 ≤ 0x7FF := by omega
        have e3 : ¬ (p0.val % 16 * 4096 + b1.val % 64 * 64 + b2.val % 64 > 0x10FFFF
            ∨ (0xD800 ≤ p0.val % 16 * 4096 + b1.val % 64 * 64 + b2.val % 64
              ∧ p0.val % 16 * 4096 + b1.val % 64 * 64 + b2.val % 64 ≤ 0xDFFF)) := by omega
        have e4 : p0.val % 16 * 4096 + b1.val % 64 * 64 + b2.val % 64 ≤ 0xFFFF := by omega
        simp only [AppendRune, MaxRune, e1, e2, e3, e4, if_true, if_false, List.take_succ_cons,
          List.take_zero]
        congr 1
        · apply byte_ofNat; omega
        · congr 1
          · apply byte_ofNat; omega
          · congr 1; apply byte_ofNat; omega
      · obtain ⟨b1, b2, b3, t, rfl, h1, h2, h3, h4, h5, h6, hd⟩ :=
          decode4_valid p0 rest _ _ hp hf h
        rw [hd]
        have e1 : ¬ p0.val % 8 * 262144 + b1.val % 64 * 4096 + b2.val % 64 * 64 + b3.val % 64
            ≤ 0x7F := by omega
        have e2 : ¬ p0.val % 8 * 262144 + b1.val % 64 * 4096 + b2.val % 64 * 64 + b3.val % 64
            ≤ 0x7FF := by omega
        have e3 : ¬ (p0.val % 8 * 262144 + b1.val % 64 * 4096 + b2.val % 64 * 64 + b3.val % 64
              > 0x10FFFF
            ∨ (0xD800 ≤ p0.val % 8 * 262144 + b1.val % 64 * 4096 + b2.val % 64 * 64 + b3.val % 64
              ∧ p0.val % 8 * 262144 + b1.val % 64 * 4096 + b2.val % 64 * 64 + b3.val % 64
                ≤ 0xDFFF)) := by omega
        have e4 : ¬ p0.val % 8 * 262144 + b1.val % 64 * 4096 + b2.val % 64 * 64 + b3.val % 64
            ≤ 0xFFFF := by omega
        simp only [AppendRune, MaxRune, e1, e2, e3, e4, if_true, if_false, List.take_succ_cons,
          List.take_zero]
        congr 1
        · apply byte_ofNat; omega
        · congr 1
          · apply byte_ofNat; omega
          · congr 1
            · apply byte_ofNat; omega
            · congr 1; apply byte_ofNat; omega
      · obtain ⟨b1, b2, b3, t, rfl, h1, h2, h3, h4, h5, h6, hd⟩ :=
          decode4_valid p0 rest _ _ hp hf h
        rw [hd]
        have e1 : ¬ p0.val % 8 * 262144 + b1.val % 64 * 4096 + b2.val % 64 * 64 + b3.val % 64
            ≤ 0x7F := by omega
        have e2 : ¬ p0.val % 8 * 262144 + b1.val % 64 * 4096 + b2.val % 64 * 64 + b3.val % 64
            ≤ 0x7FF := by omega
        have e3 : ¬ (p0.val % 8 * 262144 + b1.val % 64 * 4096 + b2.val % 64 * 64 + b3.val % 64
              > 0x10FFFF
            ∨ (0xD800 ≤ p0.val % 8 * 262144 + b1.val % 64 * 4096 + b2.val % 64 * 64 + b3.val % 64
              ∧ p0.val % 8 * 262144 + b1.val % 64 * 4096 + b2.val % 64 * 64 + b3.val % 64
                ≤ 0xDFFF)) := by omega
        have e4 : ¬ p0.val % 8 * 262144 + b1.val % 64 * 4096 + b2.val % 64 * 64 + b3.val % 64
            ≤ 0xFFFF := by omega
        simp only [AppendRune, MaxRune, e1, e2, e3, e4, if_true, if_false, List.take_succ_cons,
          List.take_zero]
        congr 1
        · apply byte_ofNat; omega
        · congr 1
          · apply byte_ofNat; omega
          · congr 1
            · apply byte_ofNat; omega
            · congr 1; apply byte_ofNat; omega
      · obtain ⟨b1, b2, b3, t, rfl, h1, h2, h3, h4, h5, h6, hd⟩ :=
          decode4_valid p0 rest _ _ hp hf h
        rw [hd]
        have e1 : ¬ p0.val % 8 * 262144 + b1.val % 64 * 4096 + b2.val % 64 * 64 + b3.val % 64
            ≤ 0x7F := by omega
        have e2 : ¬ p0.val % 8 * 262144 + b1.val % 64 * 4096 + b2.val % 64 * 64 + b3.val % 64
            ≤ 0x7FF := by omega
        have e3 : ¬ (p0.val % 8 * 262144 + b1.val % 64 * 4096 + b2.val % 64 * 64 + b3.val % 64
              > 0x10FFFF
            ∨ (0xD800 ≤ p0.val % 8 * 262144 + b1.val % 64 * 4096 + b2.val % 64 * 64 + b3.val % 64
              ∧ p0.val % 8 * 262144 + b1.val % 64 * 4096 + b2.val % 64 * 64 + b3.val % 64
                ≤ 0xDFFF)) := by omega
        have e4 : ¬ p0.val % 8 * 262144 + b1.val % 64 * 4096 + b2.val % 64 * 64 + b3.val % 64
            ≤ 0xFFFF := by omega
        simp only [AppendRune, MaxRune, e1, e2, e3, e4, if_true, if_false, List.take_succ_cons,
          List.take_zero]
        congr 1
        · apply byte_ofNat; omega
        · congr 1
          · apply byte_ofNat; omega
          · congr 1
            · apply byte_ofNat; omega
            · congr 1; apply byte_ofNat; omega

/-- The bytes of a valid encoding of more than one byte are not ASCII. -/
theorem DecodeRune_take_high (p0 : Byte) (rest : GoString) (hp : ¬ p0.val < RuneSelf)
    (h : DecodeRune (p0 :: rest) ≠ (RuneError, 1)) :
    ∀ c ∈ (p0 :: rest).take (DecodeRune (p0 :: rest)).2, 0x80 ≤ c.val := by
  have hp0 : 0x80 ≤ p0.val := by simp only [RuneSelf] at hp; omega
  rcases first_table p0 with hf | ⟨hf, hr⟩ | ⟨hf, hr⟩ | ⟨hf, hr⟩ | ⟨hf, hr⟩ | ⟨hf, hr⟩
    | ⟨hf, hr⟩ | ⟨hf, hr⟩
  · exfalso; apply h; simp [DecodeRune, hp, hf]
  · obtain ⟨b1, t, rfl, h1, h2, hd⟩ := decode2_valid p0 rest _ _ hp hf h
    rw [hd]
    intro c hc
    simp only [List.take_succ_cons, List.take_zero, List.mem_cons, List.mem_nil_iff,
      or_false] at hc
    rcases hc with rfl | rfl <;> omega
  iterate 3
    obtain ⟨b1, b2, t, rfl, h1, h2, h3, h4, hd⟩ := decode3_valid p0 rest _ _ hp hf h
    rw [hd]
    intro c hc
    simp only [List.take_succ_cons, List.take_zero, List.mem_cons, List.mem_nil_iff,
      or_false] at hc
    rcases hc with rfl | rfl | rfl <;> omega
  iterate 3
    obtain ⟨b1, b2, b3, t, rfl, h1, h2, h3, h4, h5, h6, hd⟩ :=
      decode4_valid p0 rest _ _ hp hf h
    rw [hd]
    intro c hc
    simp only [List.take_succ_cons, List.take_zero, List.mem_cons, List.mem_nil_iff,
      or_false] at hc
    rcases hc with rfl | rfl | rfl | rfl <;> omega

/-- A valid encoding decodes to the same rune whatever follows its bytes. -/
theorem DecodeRune_take_append (s x : GoString) (hs : s ≠ [])
    (h : DecodeRune s ≠ (RuneError, 1)) :
    DecodeRune (s.take (DecodeRune s).2 ++ x) = DecodeRune s := by
  cases s with
  | nil => exact absurd rfl hs
  | cons p0 rest =>
    by_cases hp : p0.val < RuneSelf
    · simp [DecodeRune, hp]
    · rcases first_table p0 with hf | ⟨hf, hr⟩ | ⟨hf, hr⟩ | ⟨hf, hr⟩ | ⟨hf, hr⟩ | ⟨hf, hr⟩
        | ⟨hf, hr⟩ | ⟨hf, hr⟩
      · exfalso; apply h; simp [DecodeRune, hp, hf]
      · obtain ⟨b1, t, rfl, h1, h2, hd⟩ := decode2_valid p0 rest _ _ hp hf h
        rw [hd]
        have c : ¬ (b1.val < 128 ∨ 191 < b1.val) := by omega
        simp [DecodeRune, hp, hf, c]
      · obtain ⟨b1, b2, t, rfl, h1, h2, h3, h4, hd⟩ := decode3_valid p0 rest _ _ hp hf h
        rw [hd]
        have c := not_or.mpr ⟨Nat.not_lt.mpr h1, Nat.not_lt.mpr h2⟩
        have c2 : isCont b2 = true := by
          simp only [isCont, decide_eq_true_eq]; exact ⟨h3, h4⟩
        simp [DecodeRune, hp, hf, c, c2]
      · obtain ⟨b1, b2, t, rfl, h1, h2, h3, h4, hd⟩ := decode3_valid p0 rest _ _ hp hf h
        rw [hd]
        have c := not_or.mpr ⟨Nat.not_lt.mpr h1, Nat.not_lt.mpr h2⟩
        have c2 : isCont b2 = true := by
          simp only [isCont, decide_eq_true_eq]; exact ⟨h3, h4⟩
        simp [DecodeRune, hp, hf, c, c2]
      · obtain ⟨b1, b2, t, rfl, h1, h2, h3, h4, hd⟩ := decode3_valid p0 rest _ _ hp hf h
        rw [hd]
        have c := not_or.mpr ⟨Nat.not_lt.mpr h1, Nat.not_lt.mpr h2⟩
        have c2 : isCont b2 = true := by
          simp only [isCont, decide_eq_true_eq]; exact ⟨h3, h4⟩
        simp [DecodeRune, hp, hf, c, c2]
      · obtain ⟨b1, b2, b3, t, rfl, h1, h2, h3, h4, h5, h6, hd⟩ :=
          decode4_valid p0 rest _ _ hp hf h
        rw [hd]
        have c := not_or.mpr ⟨Nat.not_lt.mpr h1, Nat.not_lt.mpr h2⟩
        have c2 : isCont b2 = true := by
          simp only [isCont, decide_eq_true_eq]; exact ⟨h3, h4⟩
        have c3 : isCont b3 = true := by
          simp only [isCont, decide_eq_true_eq]; exact ⟨h5, h6⟩
        simp [DecodeRune, hp, hf, c, c2, c3]
      · obtain ⟨b1, b2, b3, t, rfl, h1, h2, h3, h4, h5, h6, hd⟩ :=
          decode4_valid p0 rest _ _ hp hf h
        rw [hd]
        have c := not_or.mpr ⟨Nat.not_lt.mpr h1, Nat.not_lt.mpr h2⟩
        have c2 : isCont b2 = true := by
          simp only [isCont, decide_eq_true_eq]; exact ⟨h3, h4⟩
        have c3 : isCont b3 = true := by
          simp only [isCont, decide_eq_true_eq]; exact ⟨h5, h6⟩
        simp [DecodeRune, hp, hf, c, c2, c3]
      · obtain ⟨b1, b2, b3, t, rfl, h1, h2, h3, h4, h5, h6, hd⟩ :=
          decode4_valid p0 rest _ _ hp hf h
        rw [hd]
        have c := not_or.mpr ⟨Nat.not_lt.mpr h1, Nat.not_lt.mpr h2⟩
        have c2 : isCont b2 = true := by
          simp only [isCont, decide_eq_true_eq]; exact ⟨h3, h4⟩
        have c3 : isCont b3 = true := by
          simp only [isCont, decide_eq_true_eq]; exact ⟨h5, h6⟩
        simp [DecodeRune, hp, hf, c, c2, c3]

end utf8

/-! ## String literals: encoding, scanning, unquoting -/

namespace json

theorem isHex_lowerhex (n : Nat) : isHex (lowerhex n) = true := by
  have h : ∀ k : Fin 16, isHex (lowerhex k.val) = true := by decide
  have e : lowerhex n = lowerhex (n % 16) := by simp [lowerhex, Nat.mod_mod]
  rw [e]
  exact h ⟨n % 16, Nat.mod_lt _ (by decide)⟩

theorem unhex_lowerhex (n : Nat) : url.unhex (lowerhex n) = n % 16 := by
  have h : ∀ k : Fin 16, url.unhex (lowerhex k.val) = k.val := by decide
  have e : lowerhex n = lowerhex (n % 16) := by simp [lowerhex, Nat.mod_mod]
  rw [e]
  exact h ⟨n % 16, Nat.mod_lt _ (by decide)⟩

/-- The scanner passes over a byte that is no quote, no backslash and no control
character. -/
theorem scanString_plain (c : Byte) (x : GoString) (h1 : c ≠ 34) (h2 : c ≠ 92) (h3 : 32 ≤ c.val) :
    scanString (c :: x) = consResult c (scanString x) := by
  have h4 : ¬ c.val < 32 := by omega
  rw [scanString.eq_def]
  simp only [h1, h2, h4, if_false]

/-- The scanner passes over a short escape. -/
theorem scanString_esc (e : Byte) (x : GoString)
    (h : e = 98 ∨ e = 102 ∨ e = 110 ∨ e = 114 ∨ e = 116 ∨ e = 92 ∨ e = 47 ∨ e = 34) :
    scanString (92 :: e :: x) = consResult 92 (consResult e (scanString x)) := by
  rw [scanString.eq_def]
  simp only [h, if_true]
  simp

/-- The scanner passes over an escape with four hexadecimal digits. -/
theorem scanString_u (h1 h2 h3 h4 : Byte) (x : GoString) (e1 : isHex h1 = true)
    (e2 : isHex h2 = true) (e3 : isHex h3 = true) (e4 : isHex h4 = true) :
    scanString (92 :: 117 :: h1 :: h2 :: h3 :: h4 :: x)
      = consResult 92 (consResult 117 (consResult h1 (consResult h2 (consResult h3
          (consResult h4 (scanString x)))))) := by
  rw [scanString.eq_def]
  simp [e1, e2, e3, e4]

theorem unquoteLoop_plain (fuel : Nat) (c : Byte) (x : GoString) (h1 : c ≠ 34) (h2 : c ≠ 92)
    (h3 : 32 ≤ c.val) (h4 : c.val < utf8.RuneSelf) :
    unquoteLoop (fuel + 1) (c :: x) = (unquoteLoop fuel x).map (c :: ·) := by
  have h5 : ¬ c.val < 32 := by omega
  rw [unquoteLoop.eq_def]
  simp only [h1, h2, h4, h5, if_false, if_true, or_self]

theorem unquoteScan_plain (fuel : Nat) (c : Byte) (x : GoString) (k : Nat) (h1 : c ≠ 34)
    (h2 : c ≠ 92) (h3 : 32 ≤ c.val) (h4 : c.val < utf8.RuneSelf) :
    unquoteScan (fuel + 1) (c :: x) k = unquoteScan fuel x (k + 1) := by
  have h5 : ¬ c.val < 32 := by omega
  rw [unquoteScan.eq_def]
  simp only [h1, h2, h4, h5, if_false, if_true, or_self]

theorem unquoteScan_backslash (fuel : Nat) (x : GoString) (k : Nat) :
    unquoteScan fuel (92 :: x) k = k := by
  cases fuel with
  | zero => rfl
  | succ fuel => rw [unquoteScan.eq_def]; simp

theorem unquoteScan_nil (fuel : Nat) (k : Nat) : unquoteScan fuel [] k = k := by
  cases fuel with
  | zero => rfl
  | succ fuel => rw [unquoteScan.eq_def]

theorem unquoteLoop_esc (fuel : Nat) (e d : Byte) (x : GoString)
    (h : (e = 34 ∧ d = 34) ∨ (e = 92 ∧ d = 92) ∨ (e = 98 ∧ d = 8) ∨ (e = 102 ∧ d = 12)
      ∨ (e = 110 ∧ d = 10) ∨ (e = 114 ∧ d = 13) ∨ (e = 116 ∧ d = 9)) :
    unquoteLoop (fuel + 1) (92 :: e :: x) = (unquoteLoop fuel x).map (d :: ·) := by
  rw [unquoteLoop.eq_def]
  rcases h with ⟨rfl, rfl⟩ | ⟨rfl, rfl⟩ | ⟨rfl, rfl⟩ | ⟨rfl, rfl⟩ | ⟨rfl, rfl⟩ | ⟨rfl, rfl⟩
    | ⟨rfl, rfl⟩ <;> simp

theorem unquoteLoop_u (fuel : Nat) (h1 h2 h3 h4 : Byte) (x : GoString) (r : Nat)
    (e1 : isHex h1 = true) (e2 : isHex h2 = true) (e3 : isHex h3 = true) (e4 : isHex h4 = true)
    (hr : ((url.unhex h1 * 16 + url.unhex h2) * 16 + url.unhex h3) * 16 + url.unhex h4 = r)
    (hs : utf16.IsSurrogate r = false) :
    unquoteLoop (fuel + 1) (92 :: 117 :: h1 :: h2 :: h3 :: h4 :: x)
      = (unquoteLoop fuel x).map (utf8.AppendRune r ++ ·) := by
  rw [unquoteLoop.eq_def]
  simp [getu4, e1, e2, e3, e4, hr, hs]

theorem htmlSafeSet_plain : ∀ b : Byte, htmlSafeSet b = true →
    b ≠ 34 ∧ b ≠ 92 ∧ 32 ≤ b.val ∧ b.val < utf8.RuneSelf := by
  decide

theorem getu4_byte : ∀ b : Byte,
    ((url.unhex 48 * 16 + url.unhex 48) * 16 + url.unhex (lowerhex (b.val / 16))) * 16
        + url.unhex (lowerhex (b.val % 16)) = b.val := by
  decide

/-- The scanner passes over bytes that are not ASCII. -/
theorem scanString_high (pre : GoString) (h : ∀ c ∈ pre, 0x80 ≤ c.val) (x raw rest : GoString)
    (hx : scanString x = .ok (raw, rest)) :
    scanString (pre ++ x) = .ok (pre ++ raw, rest) := by
  induction pre with
  | nil => simpa using hx
  | cons c pre ih =>
    have hc := h c (by simp)
    have h1 : c ≠ 34 := by intro e; subst e; revert hc; decide
    have h2 : c ≠ 92 := by intro e; subst e; revert hc; decide
    rw [List.cons_append, scanString_plain c _ h1 h2 (by omega),
      ih (fun d hd => h d (by simp [hd]))]
    rfl

/-- One turn of the loop of `appendString` on a string that starts with a valid
rune: the piece written for the rune is passed over by the scanner, and
unquoting it gives the bytes of the rune back; the first loop of `unquoteBytes`
passes over the piece when it is these bytes and stops when it is an escape. -/
theorem appendStringLoop_step (f : Nat) (s : GoString) (hs : s ≠ [])
    (hv : utf8.DecodeRune s ≠ (utf8.RuneError, 1)) :
    ∃ piece, appendStringLoop (f + 1) s
        = piece ++ appendStringLoop f (s.drop (utf8.DecodeRune s).2)
      ∧ piece ≠ []
      ∧ (∀ x raw rest, scanString x = .ok (raw, rest) →
          scanString (piece ++ x) = .ok (piece ++ raw, rest))
      ∧ (∀ fuel x, unquoteLoop (fuel + 1) (piece ++ x)
          = (unquoteLoop fuel x).map (s.take (utf8.DecodeRune s).2 ++ ·))
      ∧ ((piece = s.take (utf8.DecodeRune s).2
            ∧ ∀ fuel x k, unquoteScan (fuel + 1) (piece ++ x) k
                = unquoteScan fuel x (k + (utf8.DecodeRune s).2))
          ∨ ∃ t, piece = 92 :: t) := by
  cases s with
  | nil => exact absurd rfl hs
  | cons b rest =>
    by_cases hb : b.val < utf8.RuneSelf
    · have hd : utf8.DecodeRune (b :: rest) = (b.val, 1) := by simp [utf8.DecodeRune, hb]
      rw [hd]
      simp only [List.drop_succ_cons, List.drop_zero, List.take_succ_cons, List.take_zero]
      by_cases hsafe : htmlSafeSet b = true
      · obtain ⟨p1, p2, p3, p4⟩ := htmlSafeSet_plain b hsafe
        refine ⟨[b], ?_, by simp, ?_, ?_, Or.inl ⟨rfl, ?_⟩⟩
        · simp [appendStringLoop, hb, hsafe]
        · intro x raw rest hx
          simp only [List.singleton_append]
          rw [scanString_plain b x p1 p2 p3, hx]; rfl
        · intro fuel x
          simp only [List.singleton_append]
          rw [unquoteLoop_plain fuel b x p1 p2 p3 p4]
        · intro fuel x k
          simp only [List.singleton_append]
          rw [unquoteScan_plain fuel b x k p1 p2 p3 p4]
      · have hsafe2 : htmlSafeSet b = false := by simpa using hsafe
        have hb2 : b.val ≤ 0x7F := by simp only [utf8.RuneSelf] at hb; omega
        have happ : utf8.AppendRune b.val = [b] := by
          simp only [utf8.AppendRune, hb2, if_true]
          congr 1
          exact utf8.byte_ofNat _ _ rfl
        by_cases h1 : b = 92 ∨ b = 34
        · refine ⟨[92, b], ?_, by simp, ?_, ?_, Or.inr ⟨_, rfl⟩⟩
          · simp [appendStringLoop, hb, hsafe2, h1]
          · intro x raw rest hx
            simp only [List.cons_append, List.nil_append]
            rw [scanString_esc b x (by rcases h1 with h | h <;> simp [h]), hx]; rfl
          · intro fuel x
            simp only [List.cons_append, List.nil_append]
            rw [unquoteLoop_esc fuel b b x (by rcases h1 with h | h <;> simp [h])]
        · by_cases h2 : b = 8
          · subst h2
            refine ⟨[92, 98], ?_, by simp, ?_, ?_, Or.inr ⟨_, rfl⟩⟩
            · simp [appendStringLoop, hb, hsafe2]
            · intro x raw rest hx
              simp only [List.cons_append, List.nil_append]
              rw [scanString_esc 98 x (by simp), hx]; rfl
            · intro fuel x
              simp only [List.cons_append, List.nil_append]
              rw [unquoteLoop_esc fuel 98 8 x (by simp)]
          · by_cases h3 : b = 12
            · subst h3
              refine ⟨[92, 102], ?_, by simp, ?_, ?_, Or.inr ⟨_, rfl⟩⟩
              · simp [appendStringLoop, hb, hsafe2]
              · intro x raw rest hx
                simp only [List.cons_append, List.nil_append]
                rw [scanString_esc 102 x (by simp), hx]; rfl
              · intro fuel x
                simp only [List.cons_append, List.nil_append]
                rw [unquoteLoop_esc fuel 102 12 x (by simp)]
            · by_cases h4 : b = 10
              · subst h4
                refine ⟨[92, 110], ?_, by simp, ?_, ?_, Or.inr ⟨_, rfl⟩⟩
                · simp [appendStringLoop, hb, hsafe2]
                · intro x raw rest hx
                  simp only [List.cons_append, List.nil_append]
                  rw [scanString_esc 110 x (by simp), hx]; rfl
                · intro fuel x
                  simp only [List.cons_append, List.nil_append]
                  rw [unquoteLoop_esc fuel 110 10 x (by simp)]
              · by_cases h5 : b = 13
                · subst h5
                  refine ⟨[92, 114], ?_, by simp, ?_, ?_, Or.inr ⟨_, rfl⟩⟩
                  · simp [appendStringLoop, hb, hsafe2]
                  · intro x raw rest hx
                    simp only [List.cons_append, List.nil_append]
                    rw [scanString_esc 114 x (by simp), hx]; rfl
                  · intro fuel x
                    simp only [List.cons_append, List.nil_append]
                    rw [unquoteLoop_esc fuel 114 13 x (by simp)]
                · by_cases h6 : b = 9
                  · subst h6
                    refine ⟨[92, 116], ?_, by simp, ?_, ?_, Or.inr ⟨_, rfl⟩⟩
                    · simp [appendStringLoop, hb, hsafe2]
                    · intro x raw rest hx
                      simp only [List.cons_append, List.nil_append]
                      rw [scanString_esc 116 x (by simp), hx]; rfl
                    · intro fuel x
                      simp only [List.cons_append, List.nil_append]
                      rw [unquoteLoop_esc fuel 116 9 x (by simp)]
                  · refine ⟨[92, 117, 48, 48, lowerhex (b.val / 16), lowerhex (b.val % 16)], ?_,
                      by simp, ?_, ?_, Or.inr ⟨_, rfl⟩⟩
                    · simp [appendStringLoop, hb, hsafe2, h1, h2, h3, h4, h5, h6]
                    · intro x raw rest hx
                      simp only [List.cons_append, List.nil_append]
                      rw [scanString_u 48 48 _ _ x (by decide) (by decide) (isHex_lowerhex _)
                        (isHex_lowerhex _), hx]
                      rfl
                    · intro fuel x
                      simp only [List.cons_append, List.nil_append]
                      rw [unquoteLoop_u fuel 48 48 _ _ x b.val (by decide) (by decide)
                        (isHex_lowerhex _) (isHex_lowerhex _) (getu4_byte b)
                        (by simp only [utf16.IsSurrogate, decide_eq_false_iff_not]; omega), happ]
                      rfl
    · have hlen := utf8.DecodeRune_size (b :: rest) hs
      have happ := utf8.AppendRune_DecodeRune (b :: rest) hs hv
      have hhigh := utf8.DecodeRune_take_high b rest hb hv
      have hb1 : b ≠ 92 := by
        intro e; subst e; exact hb (by decide)
      have hb2 : ¬ (b = 34 ∨ b.val < 32) := by
        intro e
        rcases e with e | e
        · subst e; exact hb (by decide)
        · simp only [utf8.RuneSelf] at hb; omega
      have htake : ∃ t, (b :: rest).take (utf8.DecodeRune (b :: rest)).2 = b :: t := by
        cases hn : (utf8.DecodeRune (b :: rest)).2 with
        | zero => omega
        | succ n => exact ⟨rest.take n, rfl⟩
      have hdrop : ∀ x : GoString,
          ((b :: rest).take (utf8.DecodeRune (b :: rest)).2 ++ x).drop
            (utf8.DecodeRune (b :: rest)).2 = x := by
        intro x
        have hl : ((b :: rest).take (utf8.DecodeRune (b :: rest)).2).length
            = (utf8.DecodeRune (b :: rest)).2 := by
          rw [List.length_take]
          exact Nat.min_eq_left hlen.2
        rw [List.drop_append_of_le_length (by omega)]
        rw [List.drop_eq_nil_of_le (by omega)]
        rfl
      by_cases hr : (utf8.DecodeRune (b :: rest)).1 = 0x2028
          ∨ (utf8.DecodeRune (b :: rest)).1 = 0x2029
      · refine ⟨[92, 117, 50, 48, 50, lowerhex ((utf8.DecodeRune (b :: rest)).1 % 16)], ?_,
          by simp, ?_, ?_, Or.inr ⟨_, rfl⟩⟩
        · simp [appendStringLoop, hb, hv, hr]
        · intro x raw rest2 hx
          simp only [List.cons_append, List.nil_append]
          rw [scanString_u 50 48 50 _ x (by decide) (by decide) (by decide) (isHex_lowerhex _),
            hx]
          rfl
        · intro fuel x
          simp only [List.cons_append, List.nil_append]
          rw [unquoteLoop_u fuel 50 48 50 _ x (utf8.DecodeRune (b :: rest)).1 (by decide)
            (by decide) (by decide) (isHex_lowerhex _)
            (by rw [unhex_lowerhex]; rcases hr with h | h <;> rw [h] <;> decide)
            (by rcases hr with h | h <;> rw [h] <;> decide), happ]
      · refine ⟨(b :: rest).take (utf8.DecodeRune (b :: rest)).2, ?_, ?_, ?_, ?_,
          Or.inl ⟨rfl, ?_⟩⟩
        · simp [appendStringLoop, hb, hv, hr]
        · obtain ⟨t, ht⟩ := htake
          rw [ht]; simp
        · intro x raw rest2 hx
          exact scanString_high _ hhigh x raw rest2 hx
        · intro fuel x
          have hdec := utf8.DecodeRune_take_append (b :: rest) x hs hv
          obtain ⟨t, ht⟩ := htake
          have hdrop2 := hdrop x
          rw [ht] at hdec hdrop2 ⊢
          simp only [List.cons_append] at hdec hdrop2 ⊢
          rw [unquoteLoop.eq_def]
          simp only [hb1, hb2, hb, if_false, hdec, hdrop2, happ, ht]
          rfl
        · intro fuel x k
          have hdec := utf8.DecodeRune_take_append (b :: rest) x hs hv
          obtain ⟨t, ht⟩ := htake
          have hdrop2 := hdrop x
          rw [ht] at hdec hdrop2 ⊢
          simp only [List.cons_append] at hdec hdrop2 ⊢
          rw [unquoteScan.eq_def]
          have hb3 : ¬ (b = 92 ∨ b = 34 ∨ b.val < 32) := by
            intro e
            rcases e with e | e
            · exact hb1 e
            · exact hb2 e
          simp only [hb3, hb, if_false, hdec, hdrop2, hv]

end json

namespace json

theorem validLoop_step (f : Nat) (s : GoString) (hs : s ≠ [])
    (hv : utf8.validLoop (f + 1) s = true) :
    utf8.DecodeRune s ≠ (utf8.RuneError, 1)
      ∧ utf8.validLoop f (s.drop (utf8.DecodeRune s).2) = true := by
  unfold utf8.validLoop at hv
  simp only [hs, if_false] at hv
  by_cases h : utf8.DecodeRune s = (utf8.RuneError, 1)
  · simp [h] at hv
  · simp only [h, if_false] at hv
    exact ⟨h, hv⟩

/-- The scanner reads the body of an encoded string up to the closing quote. -/
theorem scanString_appendStringLoop (f : Nat) (s x : GoString) (hlen : s.length < f)
    (hv : utf8.validLoop f s = true) :
    scanString (appendStringLoop f s ++ 34 :: x) = .ok (appendStringLoop f s, x) := by
  induction f generalizing s with
  | zero => omega
  | succ f ih =>
    by_cases hs : s = []
    · subst hs
      simp only [appendStringLoop, List.nil_append]
      rw [scanString.eq_def]
      simp
    · obtain ⟨hd, hv2⟩ := validLoop_step f s hs hv
      obtain ⟨piece, he, _, hscan, _, _⟩ := appendStringLoop_step f s hs hd
      have hsz := utf8.DecodeRune_size s hs
      have hl : (s.drop (utf8.DecodeRune s).2).length < f := by
        rw [List.length_drop]; omega
      rw [he, List.append_assoc]
      exact hscan _ _ _ (ih _ hl hv2)

/-- The second loop of `unquoteBytes` gives a valid string back from its encoding. -/
theorem unquoteLoop_appendStringLoop (f : Nat) (s : GoString) (fuel : Nat) (hlen : s.length < f)
    (hv : utf8.validLoop f s = true) (hfuel : (appendStringLoop f s).length < fuel) :
    unquoteLoop fuel (appendStringLoop f s) = some s := by
  induction f generalizing s fuel with
  | zero => omega
  | succ f ih =>
    by_cases hs : s = []
    · subst hs
      cases fuel with
      | zero => omega
      | succ fuel => simp [appendStringLoop, unquoteLoop]
    · obtain ⟨hd, hv2⟩ := validLoop_step f s hs hv
      obtain ⟨piece, he, hne, _, hloop, _⟩ := appendStringLoop_step f s hs hd
      have hsz := utf8.DecodeRune_size s hs
      have hl : (s.drop (utf8.DecodeRune s).2).length < f := by
        rw [List.length_drop]; omega
      have hp : 1 ≤ piece.length := by
        cases piece with
        | nil => exact absurd rfl hne
        | cons a t => simp
      rw [he] at hfuel ⊢
      rw [List.length_append] at hfuel
      cases fuel with
      | zero => omega
      | succ fuel =>
        rw [hloop, ih _ fuel hl hv2 (by omega)]
        simp

/-- The first loop of `unquoteBytes` on the encoding of a valid string: it either
runs to the end, and then nothing was escaped, or it stops where the second
loop takes over. -/
theorem unquoteScan_appendStringLoop (f : Nat) (s : GoString) (fuel k : Nat)
    (hlen : s.length < f) (hv : utf8.validLoop f s = true)
    (hfuel : (appendStringLoop f s).length < fuel) :
    ∃ j, unquoteScan fuel (appendStringLoop f s) k = k + j
      ∧ ((j = (appendStringLoop f s).length ∧ appendStringLoop f s = s)
        ∨ (j < (appendStringLoop f s).length
            ∧ ∀ fuel2, (appendStringLoop f s).length < fuel2 →
                (unquoteLoop fuel2 ((appendStringLoop f s).drop j)).map
                  ((appendStringLoop f s).take j ++ ·) = some s)) := by
  induction f generalizing s fuel k with
  | zero => omega
  | succ f ih =>
    by_cases hs : s = []
    · subst hs
      refine ⟨0, ?_, Or.inl ⟨by simp [appendStringLoop], by simp [appendStringLoop]⟩⟩
      simp [appendStringLoop, unquoteScan_nil]
    · obtain ⟨hd, hv2⟩ := validLoop_step f s hs hv
      obtain ⟨piece, he, hne, _, hloop, hcase⟩ := appendStringLoop_step f s hs hd
      have hsz := utf8.DecodeRune_size s hs
      have hl : (s.drop (utf8.DecodeRune s).2).length < f := by
        rw [List.length_drop]; omega
      have hp : 1 ≤ piece.length := by
        cases piece with
        | nil => exact absurd rfl hne
        | cons a t => simp
      have hfuel2 := hfuel
      rw [he, List.length_append] at hfuel2
      rcases hcase with ⟨hpiece, hscan⟩ | ⟨t, ht⟩
      · cases fuel with
        | zero => omega
        | succ fuel =>
          obtain ⟨j, hj, hres⟩ := ih (s.drop (utf8.DecodeRune s).2) fuel
            (k + (utf8.DecodeRune s).2) hl hv2 (by omega)
          have hpl : piece.length = (utf8.DecodeRune s).2 := by
            rw [hpiece, List.length_take]; exact Nat.min_eq_left hsz.2
          refine ⟨(utf8.DecodeRune s).2 + j, ?_, ?_⟩
          · rw [he, hscan, hj]; omega
          · rcases hres with ⟨hj1, hj2⟩ | ⟨hj1, hj2⟩
            · left
              refine ⟨?_, ?_⟩
              · rw [he, List.length_append, hpl, hj1]
              · rw [he, hj2, hpiece, List.take_append_drop]
            · right
              refine ⟨?_, ?_⟩
              · rw [he, List.length_append, hpl]; omega
              · intro fuel2 hf2
                rw [he] at hf2 ⊢
                rw [List.length_append] at hf2
                have h1 : (piece ++ appendStringLoop f (s.drop (utf8.DecodeRune s).2)).drop
                    ((utf8.DecodeRune s).2 + j)
                    = (appendStringLoop f (s.drop (utf8.DecodeRune s).2)).drop j := by
                  rw [← hpl, List.drop_append]
                have h2 : (piece ++ appendStringLoop f (s.drop (utf8.DecodeRune s).2)).take
                    ((utf8.DecodeRune s).2 + j)
                    = piece ++ (appendStringLoop f (s.drop (utf8.DecodeRune s).2)).take j := by
                  rw [← hpl, List.take_append]
                rw [h1, h2]
                have h3 := hj2 fuel2 (by omega)
                cases hu : unquoteLoop fuel2
                    ((appendStringLoop f (s.drop (utf8.DecodeRune s).2)).drop j) with
                | none => rw [hu] at h3; simp at h3
                | some d =>
                  rw [hu] at h3
                  simp only [Option.map_some', Option.some.injEq] at h3 ⊢
                  rw [List.append_assoc, h3, hpiece, List.take_append_drop]
      · refine ⟨0, ?_, Or.inr ⟨?_, ?_⟩⟩
        · rw [he, ht, List.cons_append, unquoteScan_backslash]; rfl
        · rw [he, List.length_append]; omega
        · intro fuel2 hf2
          simp only [List.drop_zero, List.take_zero, List.nil_append]
          rw [unquoteLoop_appendStringLoop (f + 1) s fuel2 hlen hv hf2]
          simp

/-- Unquoting the body of the encoding of a valid string gives the string back. -/
theorem unquoteBytes_appendStringLoop (s : GoString) (hv : utf8.ValidString s = true) :
    unquoteBytes (appendStringLoop (s.length + 1) s) = some s := by
  unfold unquoteBytes
  obtain ⟨j, hj, hres⟩ := unquoteScan_appendStringLoop (s.length + 1) s
    ((appendStringLoop (s.length + 1) s).length + 1) 0 (by omega) hv (by omega)
  simp only [hj, Nat.zero_add]
  rcases hres with ⟨h1, h2⟩ | ⟨h1, h2⟩
  · simp only [h1, if_true, h2]
  · have : j ≠ (appendStringLoop (s.length + 1) s).length := by omega
    simp only [this, if_false]
    exact h2 _ (by omega)

/-- Scanning the encoding of a valid string gives the string as a value. -/
theorem beginValue_appendString (arr obj : Byte → GoString → Except ScanError (Value × GoString))
    (s x : GoString) (hv : utf8.ValidString s = true) :
    beginValue arr obj (appendString s ++ x) = .ok (.string s, x) := by
  have h1 : appendString s ++ x = 34 :: (appendStringLoop (s.length + 1) s ++ 34 :: x) := by
    simp [appendString]
  rw [h1]
  unfold beginValue
  have hsp : skipSpace (34 :: (appendStringLoop (s.length + 1) s ++ 34 :: x))
      = 34 :: (appendStringLoop (s.length + 1) s ++ 34 :: x) := by
    have : isSpace 34 = false := by decide
    rw [skipSpace]; simp [this]
  rw [hsp]
  simp only []
  rw [scanString_appendStringLoop _ s x (by omega) hv]
  simp [stringValue, unquoteBytes_appendStringLoop s hv]

end json

/-! ## Scanning the encoding of a search result -/

namespace json

theorem skipSpace_cons (c : Byte) (x : GoString) (h : isSpace c = false) :
    skipSpace (c :: x) = c :: x := by
  rw [skipSpace]; simp [h]

/-- The scanner passes over bytes that are no quote, no backslash and no control
character, as the names of the fields are. -/
theorem scanString_name (pre : GoString)
    (h : ∀ c ∈ pre, c ≠ 34 ∧ c ≠ 92 ∧ 32 ≤ c.val) (x : GoString) :
    scanString (pre ++ 34 :: x) = .ok (pre, x) := by
  induction pre with
  | nil => rw [List.nil_append, scanString.eq_def]; simp
  | cons c pre ih =>
    obtain ⟨h1, h2, h3⟩ := h c (by simp)
    rw [List.cons_append, scanString_plain c _ h1 h2 h3, ih (fun d hd => h d (by simp [hd]))]
    rfl

theorem scanDigits_digits (ds : GoString) (c : Byte) (x : GoString)
    (h : ∀ d ∈ ds, 48 ≤ d.val ∧ d.val ≤ 57) (hc : isDigit c = false) :
    scanDigits (ds ++ c :: x) = (ds, c :: x) := by
  induction ds with
  | nil => simp [scanDigits, hc]
  | cons d ds ih =>
    have hd : isDigit d = true := by
      simp only [isDigit, decide_eq_true_eq]; exact h d (by simp)
    simp [scanDigits, hd, ih (fun e he => h e (by simp [he]))]

/-- Scanning the decimal text of a 64-bit number that is followed by a comma or a
closing bracket gives the number literal. -/
theorem beginValue_FormatUint (arr obj : Byte → GoString → Except ScanError (Value × GoString))
    (n : Nat) (hn : n < 2 ^ 64) (c : Byte) (x : GoString) (hc : c = 44 ∨ c = 125 ∨ c = 93) :
    beginValue arr obj (strconv.FormatUint n ++ c :: x)
      = .ok (.number (strconv.FormatUint n), c :: x) := by
  have hfrac : scanFraction (c :: x) = .ok ([], c :: x) := by
    rcases hc with rfl | rfl | rfl <;> simp [scanFraction]
  have hdig : isDigit c = false := by
    rcases hc with rfl | rfl | rfl <;> decide
  rcases strconv.FormatUint_digits n hn with h0 | ⟨d, ds, hd, h1, h2, h3⟩
  · rw [h0]
    have hsp : isSpace 48 = false := by decide
    simp only [List.cons_append, List.nil_append, beginValue, skipSpace_cons 48 _ hsp]
    simp [scanUnsigned, hfrac, consResult, numberValue]
  · rw [hd]
    have hcases : d = 49 ∨ d = 50 ∨ d = 51 ∨ d = 52 ∨ d = 53 ∨ d = 54 ∨ d = 55 ∨ d = 56
        ∨ d = 57 := by
      have : ∀ e : Byte, 49 ≤ e.val → e.val ≤ 57 → e = 49 ∨ e = 50 ∨ e = 51 ∨ e = 52 ∨ e = 53
          ∨ e = 54 ∨ e = 55 ∨ e = 56 ∨ e = 57 := by decide
      exact this d h1 h2
    have hsd := scanDigits_digits ds c x h3 hdig
    rcases hcases with rfl | rfl | rfl | rfl | rfl | rfl | rfl | rfl | rfl
    all_goals
      simp only [List.cons_append, beginValue]
      rw [skipSpace_cons _ _ (by decide)]
      simp [scanUnsigned, hsd, hfrac, numberValue, h1, h2]

/-- The scanner on a value, whatever the nesting depth left: a string. -/
theorem scanValue_appendString (depth : Nat) (s x : GoString) (hv : utf8.ValidString s = true) :
    scanValue depth (appendString s ++ x) = .ok (.string s, x) := by
  cases depth <;> simp only [scanValue] <;> exact beginValue_appendString _ _ s x hv

/-- The scanner on a value, whatever the nesting depth left: a number. -/
theorem scanValue_FormatUint (depth : Nat) (n : Nat) (hn : n < 2 ^ 64) (c : Byte) (x : GoString)
    (hc : c = 44 ∨ c = 125 ∨ c = 93) :
    scanValue depth (strconv.FormatUint n ++ c :: x)
      = .ok (.number (strconv.FormatUint n), c :: x) := by
  cases depth <;> simp only [scanValue] <;> exact beginValue_FormatUint _ _ n hn c x hc

/-- One turn of the loop over the members of an object, for a member that is
followed by a comma. -/
theorem scanMembers_comma (pv : GoString → Except ScanError (Value × GoString)) (fuel : Nat)
    (key val x : GoString) (v : Value) (acc : List (GoString × Value))
    (hkey : ∀ c ∈ key, c ≠ 34 ∧ c ≠ 92 ∧ 32 ≤ c.val) (huq : unquoteBytes key = some key)
    (hpv : pv (val ++ 44 :: x) = .ok (v, 44 :: x)) :
    scanMembers pv (fuel + 1) (34 :: (key ++ 34 :: 58 :: (val ++ 44 :: x))) acc
      = scanMembers pv fuel x (acc ++ [(key, v)]) := by
  rw [scanMembers]
  rw [skipSpace_cons 34 _ (by decide)]
  simp only [if_true]
  rw [scanString_name key hkey]
  simp only [huq]
  rw [skipSpace_cons 58 _ (by decide)]
  simp only [if_true, hpv]
  rw [skipSpace_cons 44 _ (by decide)]
  simp

/-- The last turn of the loop over the members of an object. -/
theorem scanMembers_close (pv : GoString → Except ScanError (Value × GoString)) (fuel : Nat)
    (key val x : GoString) (v : Value) (acc : List (GoString × Value))
    (hkey : ∀ c ∈ key, c ≠ 34 ∧ c ≠ 92 ∧ 32 ≤ c.val) (huq : unquoteBytes key = some key)
    (hpv : pv (val ++ 125 :: x) = .ok (v, 125 :: x)) :
    scanMembers pv (fuel + 1) (34 :: (key ++ 34 :: 58 :: (val ++ 125 :: x))) acc
      = .ok (.object (acc ++ [(key, v)]), x) := by
  rw [scanMembers]
  rw [skipSpace_cons 34 _ (by decide)]
  simp only [if_true]
  rw [scanString_name key hkey]
  simp only [huq]
  rw [skipSpace_cons 58 _ (by decide)]
  simp only [if_true, hpv]
  rw [skipSpace_cons 125 _ (by decide)]
  simp

end json

namespace json

/-- The text `Marshal` writes for a `Game`, member by member. -/
theorem marshalGame_text (g : api.Game) (y : GoString) :
    marshalGame g ++ y
      = 123 :: 34 :: (ascii "id" ++ 34 :: 58 :: (appendString g.Id
        ++ 44 :: 34 :: (ascii "name" ++ 34 :: 58 :: (appendString g.Name
        ++ 44 :: 34 :: (ascii "price" ++ 34 :: 58 :: (appendString g.Price
        ++ 44 :: 34 :: (ascii "year_published" ++ 34 :: 58 :: (strconv.FormatUint g.YearPublished
        ++ 44 :: 34 :: (ascii "description" ++ 34 :: 58 :: (appendString g.Description
        ++ 44 :: 34 :: (ascii "official_url" ++ 34 :: 58 :: (appendString g.Url
        ++ 44 :: 34 :: (ascii "image_url" ++ 34 :: 58 :: (appendString g.ImageUrl
        ++ 44 :: 34 :: (ascii "rules_url" ++ 34 :: 58 :: (appendString g.RulesUrl
        ++ 125 :: y)))))))))))))))) := by
  have e1 : ascii "\x7b\"id\":" = 123 :: 34 :: (ascii "id" ++ [34, 58]) := by decide
  have e2 : ascii ",\"name\":" = 44 :: 34 :: (ascii "name" ++ [34, 58]) := by decide
  have e3 : ascii ",\"price\":" = 44 :: 34 :: (ascii "price" ++ [34, 58]) := by decide
  have e4 : ascii ",\"year_published\":" = 44 :: 34 :: (ascii "year_published" ++ [34, 58]) := by
    decide
  have e5 : ascii ",\"description\":" = 44 :: 34 :: (ascii "description" ++ [34, 58]) := by
    decide
  have e6 : ascii ",\"official_url\":" = 44 :: 34 :: (ascii "official_url" ++ [34, 58]) := by
    decide
  have e7 : ascii ",\"image_url\":" = 44 :: 34 :: (ascii "image_url" ++ [34, 58]) := by decide
  have e8 : ascii ",\"rules_url\":" = 44 :: 34 :: (ascii "rules_url" ++ [34, 58]) := by decide
  have e9 : ascii "\x7d" = [125] := by decide
  simp only [marshalGame, e1, e2, e3, e4, e5, e6, e7, e8, e9, List.append_assoc,
    List.cons_append, List.nil_append]

/-- Scanning the encoding of a `Game` gives the object with the eight members. -/
theorem scanValue_marshalGame (depth : Nat) (g : api.Game) (y : GoString)
    (hutf : g.isUTF8 = true) (hyear : g.YearPublished < 2 ^ 64) :
    scanValue (depth + 1) (marshalGame g ++ y)
      = .ok (.object [(ascii "id", .string g.Id), (ascii "name", .string g.Name),
          (ascii "price", .string g.Price),
          (ascii "year_published", .number (strconv.FormatUint g.YearPublished)),
          (ascii "description", .string g.Description), (ascii "official_url", .string g.Url),
          (ascii "image_url", .string g.ImageUrl), (ascii "rules_url", .string g.RulesUrl)],
        y) := by
  simp only [api.Game.isUTF8, Bool.and_eq_true] at hutf
  obtain ⟨⟨⟨⟨⟨⟨u1, u2⟩, u3⟩, u4⟩, u5⟩, u6⟩, u7⟩ := hutf
  rw [marshalGame_text]
  simp only [scanValue, beginValue]
  rw [skipSpace_cons 123 _ (by decide)]
  simp only [if_true, scanObject]
  rw [skipSpace_cons 34 _ (by decide)]
  have h125 : ¬ ((34 : Byte) = 125) := by decide
  simp only [h125, if_false]
  generalize hfuel : (List.length (34 :: (ascii "id" ++ 34 :: 58 :: (appendString g.Id
        ++ 44 :: 34 :: (ascii "name" ++ 34 :: 58 :: (appendString g.Name
        ++ 44 :: 34 :: (ascii "price" ++ 34 :: 58 :: (appendString g.Price
        ++ 44 :: 34 :: (ascii "year_published" ++ 34 :: 58 :: (strconv.FormatUint g.YearPublished
        ++ 44 :: 34 :: (ascii "description" ++ 34 :: 58 :: (appendString g.Description
        ++ 44 :: 34 :: (ascii "official_url" ++ 34 :: 58 :: (appendString g.Url
        ++ 44 :: 34 :: (ascii "image_url" ++ 34 :: 58 :: (appendString g.ImageUrl
        ++ 44 :: 34 :: (ascii "rules_url" ++ 34 :: 58 :: (appendString g.RulesUrl
        ++ 125 :: y)))))))))))))))))) + 1 = fuel
  have hf : ∃ f, fuel = f + 1 + 1 + 1 + 1 + 1 + 1 + 1 + 1 := by
    refine ⟨fuel - 8, ?_⟩
    rw [← hfuel]
    simp only [List.length_cons, List.length_append]
    omega
  obtain ⟨f, rfl⟩ := hf
  rw [scanMembers_comma _ _ (ascii "id") _ _ (.string g.Id) _ (by decide) (by decide)
        (scanValue_appendString _ _ _ u1),
      scanMembers_comma _ _ (ascii "name") _ _ (.string g.Name) _ (by decide) (by decide)
        (scanValue_appendString _ _ _ u2),
      scanMembers_comma _ _ (ascii "price") _ _ (.string g.Price) _ (by decide) (by decide)
        (scanValue_appendString _ _ _ u3),
      scanMembers_comma _ _ (ascii "year_published") _ _
        (.number (strconv.FormatUint g.YearPublished)) _ (by decide) (by decide)
        (scanValue_FormatUint _ _ hyear 44 _ (Or.inl rfl)),
      scanMembers_comma _ _ (ascii "description") _ _ (.string g.Description) _ (by decide)
        (by decide) (scanValue_appendString _ _ _ u4),
      scanMembers_comma _ _ (ascii "official_url") _ _ (.string g.Url) _ (by decide) (by decide)
        (scanValue_appendString _ _ _ u5),
      scanMembers_comma _ _ (ascii "image_url") _ _ (.string g.ImageUrl) _ (by decide)
        (by decide) (scanValue_appendString _ _ _ u6),
      scanMembers_close _ _ (ascii "rules_url") _ _ (.string g.RulesUrl) _ (by decide)
        (by decide) (scanValue_appendString _ _ _ u7)]
  rfl

end json

namespace json

/-- A `Game` as the value its encoding scans to. -/
theorem marshalGame_head (g : api.Game) (y : GoString) :
    ∃ t, marshalGame g ++ y = 123 :: t := by
  rw [marshalGame_text]; exact ⟨_, rfl⟩

/-- Scanning the elements of an encoded slice of games. -/
theorem scanElems_marshalGameList (depth : Nat) (g : api.Game) (gs : List api.Game)
    (y : GoString) (fuel : Nat) (acc : List Value) (hfuel : gs.length < fuel)
    (hutf : ∀ x ∈ g :: gs, x.isUTF8 = true) (hyear : ∀ x ∈ g :: gs, x.YearPublished < 2 ^ 64) :
    scanElems (scanValue (depth + 1)) fuel (marshalGameList (g :: gs) ++ 93 :: y) acc
      = .ok (.array (acc ++ (g :: gs).map (fun x =>
          .object [(ascii "id", .string x.Id), (ascii "name", .string x.Name),
            (ascii "price", .string x.Price),
            (ascii "year_published", .number (strconv.FormatUint x.YearPublished)),
            (ascii "description", .string x.Description),
            (ascii "official_url", .string x.Url),
            (ascii "image_url", .string x.ImageUrl), (ascii "rules_url", .string x.RulesUrl)])),
        y) := by
  induction gs generalizing g fuel acc with
  | nil =>
    cases fuel with
    | zero => simp at hfuel
    | succ fuel =>
      simp only [marshalGameList, scanElems]
      rw [scanValue_marshalGame depth g _ (hutf g (by simp)) (hyear g (by simp))]
      simp only []
      rw [skipSpace_cons 93 _ (by decide)]
      simp
  | cons h gs ih =>
    cases fuel with
    | zero => simp at hfuel
    | succ fuel =>
      simp only [marshalGameList, scanElems, List.append_assoc, List.singleton_append,
        List.cons_append, List.nil_append]
      rw [scanValue_marshalGame depth g _ (hutf g (by simp)) (hyear g (by simp))]
      simp only []
      rw [skipSpace_cons 44 _ (by decide)]
      simp only [if_true]
      have := ih h fuel (acc ++ [Value.object [(ascii "id", .string g.Id),
            (ascii "name", .string g.Name), (ascii "price", .string g.Price),
            (ascii "year_published", .number (strconv.FormatUint g.YearPublished)),
            (ascii "description", .string g.Description),
            (ascii "official_url", .string g.Url), (ascii "image_url", .string g.ImageUrl),
            (ascii "rules_url", .string g.RulesUrl)]])
        (by simp at hfuel; omega)
        (fun x hx => hutf x (by simp at hx ⊢; tauto))
        (fun x hx => hyear x (by simp at hx ⊢; tauto))
      rw [this]
      simp

/-- Scanning the encoding of a slice of games: `null` for the nil slice, the
array of the objects of the games otherwise. -/
theorem scanValue_marshalGames (depth : Nat) (s : api.GameSlice) (y : GoString)
    (hutf : ∀ x ∈ s.toList, x.isUTF8 = true) (hyear : ∀ x ∈ s.toList, x.YearPublished < 2 ^ 64) :
    scanValue (depth + 1 + 1) (marshalGames s ++ 44 :: y)
      = .ok ((match s with
          | .nil => Value.null
          | .slice _ _ => .array (s.toList.map (fun x =>
              .object [(ascii "id", .string x.Id), (ascii "name", .string x.Name),
                (ascii "price", .string x.Price),
                (ascii "year_published", .number (strconv.FormatUint x.YearPublished)),
                (ascii "description", .string x.Description),
                (ascii "official_url", .string x.Url),
                (ascii "image_url", .string x.ImageUrl),
                (ascii "rules_url", .string x.RulesUrl)]))), 44 :: y) := by
  cases s with
  | nil =>
    have e : ascii "null" ++ 44 :: y = 110 :: 117 :: 108 :: 108 :: 44 :: y := by
      have : ascii "null" = [110, 117, 108, 108] := by decide
      rw [this]; rfl
    have e2 : scanLiteral (ascii "null") (ascii "ull") (117 :: 108 :: 108 :: 44 :: y)
        = .ok (44 :: y) := rfl
    rw [scanValue]
    simp only [marshalGames, beginValue]
    rw [e, skipSpace_cons 110 _ (by decide)]
    simp [e2, literalValue]
  | slice backing len =>
    rw [scanValue]
    simp only [marshalGames, api.GameSlice.toList, List.cons_append, List.nil_append,
      List.append_assoc, beginValue] at hutf hyear ⊢
    rw [skipSpace_cons 91 _ (by decide)]
    have h1 : ¬ ((91 : Byte) = 123) := by decide
    simp only [h1, if_false, if_true, scanArray]
    cases hl : backing.take len with
    | nil =>
      simp only [marshalGameList, List.nil_append, List.map_nil]
      rw [skipSpace_cons 93 _ (by decide)]
      simp
    | cons g gs =>
      rw [hl] at hutf hyear
      obtain ⟨t, ht⟩ := marshalGame_head g
        (match gs with
          | [] => 93 :: 44 :: y
          | h :: rest => [44] ++ marshalGameList (h :: rest) ++ 93 :: 44 :: y)
      have hhead : marshalGameList (g :: gs) ++ 93 :: 44 :: y = 123 :: t := by
        rw [← ht]
        cases gs with
        | nil => simp [marshalGameList]
        | cons h rest => simp [marshalGameList]
      have hsp : skipSpace (marshalGameList (g :: gs) ++ 93 :: 44 :: y)
          = marshalGameList (g :: gs) ++ 93 :: 44 :: y := by
        rw [hhead, skipSpace_cons 123 _ (by decide)]
      rw [hsp]
      rw [hhead]
      have h2 : ¬ ((123 : Byte) = 93) := by decide
      simp only [h2, if_false]
      rw [← hhead]
      rw [scanElems_marshalGameList depth g gs (44 :: y) _ [] ?_ hutf hyear]
      · simp
      · have : (marshalGameList (g :: gs)).length ≥ gs.length := by
          clear hl hutf hyear ht hhead hsp
          induction gs generalizing g with
          | nil => simp
          | cons h rest ih =>
            have := ih h
            simp only [marshalGameList, List.length_append, List.length_cons, List.length_nil]
            omega
        simp only [List.length_append, List.length_cons]
        omega

end json

/-! ## Decoding the object of a search result -/

namespace json

/-- Decoding the object of a `Game` into any element stores all eight fields. -/
theorem decodeGame_object (g0 g : api.Game) (hyear : g.YearPublished < 2 ^ 64) :
    decodeGame g0 (.object [(ascii "id", .string g.Id), (ascii "name", .string g.Name),
        (ascii "price", .string g.Price),
        (ascii "year_published", .number (strconv.FormatUint g.YearPublished)),
        (ascii "description", .string g.Description), (ascii "official_url", .string g.Url),
        (ascii "image_url", .string g.ImageUrl), (ascii "rules_url", .string g.RulesUrl)]) none
      = (g, none) := by
  have f0 : findField gameFields (ascii "id") = some 0 := by decide
  have f1 : findField gameFields (ascii "name") = some 1 := by decide
  have f2 : findField gameFields (ascii "price") = some 2 := by decide
  have f3 : findField gameFields (ascii "year_published") = some 3 := by decide
  have f4 : findField gameFields (ascii "description") = some 4 := by decide
  have f5 : findField gameFields (ascii "official_url") = some 5 := by decide
  have f6 : findField gameFields (ascii "image_url") = some 6 := by decide
  have f7 : findField gameFields (ascii "rules_url") = some 7 := by decide
  simp only [decodeGame, decodeGameMembers, decodeGameMember, f0, f1, f2, f3, f4, f5, f6, f7,
    storeString, storeUint, strconv.ParseUint_FormatUint _ hyear]

/-- Decoding an array of game objects into a slice that is full appends the games. -/
theorem decodeGameElems_objects (gs backing : List api.Game)
    (hyear : ∀ x ∈ gs, x.YearPublished < 2 ^ 64) :
    decodeGameElems (gs.map (fun x =>
        Value.object [(ascii "id", .string x.Id), (ascii "name", .string x.Name),
          (ascii "price", .string x.Price),
          (ascii "year_published", .number (strconv.FormatUint x.YearPublished)),
          (ascii "description", .string x.Description), (ascii "official_url", .string x.Url),
          (ascii "image_url", .string x.ImageUrl), (ascii "rules_url", .string x.RulesUrl)]))
        backing.length backing backing.length none
      = (backing ++ gs, backing.length + gs.length, none) := by
  induction gs generalizing backing with
  | nil => simp [decodeGameElems]
  | cons g gs ih =>
    simp only [List.map_cons, decodeGameElems, ge_iff_le, le_refl, if_true]
    rw [decodeGame_object _ g (hyear g (by simp))]
    have hset : (backing ++ [api.Game.zero]).set backing.length g = backing ++ [g] := by
      rw [List.set_append_right _ _ (le_refl _)]
      simp
    simp only [hset]
    have := ih (backing ++ [g]) (fun x hx => hyear x (by simp [hx]))
    simp only [List.length_append, List.length_cons, List.length_nil, Nat.zero_add] at this
    rw [this]
    simp only [List.append_assoc, List.singleton_append, List.length_cons]
    refine Prod.ext rfl (Prod.ext ?_ rfl)
    simp only []
    omega

end json

namespace json

/-- Scanning the encoding of a search result gives the object with its two
members and uses up the encoding. -/
theorem scanValue_Marshal (r : api.SearchResult) (hutf : r.isUTF8 = true)
    (hrange : r.inRange = true) :
    scanValue maxNestingDepth (Marshal r)
      = .ok (.object [(ascii "games", (match r.Games with
          | .nil => Value.null
          | .slice _ _ => .array (r.Games.toList.map (fun x =>
              .object [(ascii "id", .string x.Id), (ascii "name", .string x.Name),
                (ascii "price", .string x.Price),
                (ascii "year_published", .number (strconv.FormatUint x.YearPublished)),
                (ascii "description", .string x.Description),
                (ascii "official_url", .string x.Url),
                (ascii "image_url", .string x.ImageUrl),
                (ascii "rules_url", .string x.RulesUrl)])))),
          (ascii "count", .number (strconv.FormatUint r.Count))], []) := by
  simp only [api.SearchResult.isUTF8, List.all_eq_true] at hutf
  simp only [api.SearchResult.inRange, Bool.and_eq_true, decide_eq_true_eq,
    List.all_eq_true] at hrange
  obtain ⟨hcount, hyear⟩ := hrange
  have e1 : ascii "\x7b\"games\":" = 123 :: 34 :: (ascii "games" ++ [34, 58]) := by decide
  have e2 : ascii ",\"count\":" = 44 :: 34 :: (ascii "count" ++ [34, 58]) := by decide
  have e3 : ascii "\x7d" = [125] := by decide
  have htext : Marshal r = 123 :: 34 :: (ascii "games" ++ 34 :: 58 :: (marshalGames r.Games
      ++ 44 :: 34 :: (ascii "count" ++ 34 :: 58 :: (strconv.FormatUint r.Count
      ++ 125 :: [])))) := by
    simp only [Marshal, e1, e2, e3, List.append_assoc, List.cons_append, List.nil_append]
  have hdepth : maxNestingDepth = 9998 + 1 + 1 := by decide
  rw [htext, hdepth, scanValue]
  simp only [beginValue]
  rw [skipSpace_cons 123 _ (by decide)]
  simp only [if_true, scanObject]
  rw [skipSpace_cons 34 _ (by decide)]
  have h125 : ¬ ((34 : Byte) = 125) := by decide
  simp only [h125, if_false]
  generalize hfuel : (List.length (34 :: (ascii "games" ++ 34 :: 58 :: (marshalGames r.Games
      ++ 44 :: 34 :: (ascii "count" ++ 34 :: 58 :: (strconv.FormatUint r.Count
      ++ 125 :: [])))))) + 1 = fuel
  have hf : ∃ f, fuel = f + 1 + 1 := by
    refine ⟨fuel - 2, ?_⟩
    rw [← hfuel]
    simp only [List.length_cons, List.length_append]
    omega
  obtain ⟨f, rfl⟩ := hf
  rw [scanMembers_comma _ _ (ascii "games") _ _ _ _ (by decide) (by decide)
        (scanValue_marshalGames 9997 r.Games _ hutf hyear),
      scanMembers_close _ _ (ascii "count") _ _ (.number (strconv.FormatUint r.Count)) _
        (by decide) (by decide) (scanValue_FormatUint _ _ hcount 125 _ (Or.inr (Or.inl rfl)))]
  rfl

/-- Reading a stream whose bytes are the encoding of a search result gives the
object with its two members: the object is complete at its closing bracket, so
the end of the stream is not looked at. -/
theorem readValue_Marshal (r : api.SearchResult) (hutf : r.isUTF8 = true)
    (hrange : r.inRange = true) (body : io.ReadCloser) (hbody : body.data = Marshal r) :
    readValue body
      = .ok (.object [(ascii "games", (match r.Games with
          | .nil => Value.null
          | .slice _ _ => .array (r.Games.toList.map (fun x =>
              .object [(ascii "id", .string x.Id), (ascii "name", .string x.Name),
                (ascii "price", .string x.Price),
                (ascii "year_published", .number (strconv.FormatUint x.YearPublished)),
                (ascii "description", .string x.Description),
                (ascii "official_url", .string x.Url),
                (ascii "image_url", .string x.ImageUrl),
                (ascii "rules_url", .string x.RulesUrl)])))),
          (ascii "count", .number (strconv.FormatUint r.Count))]) := by
  unfold readValue
  rw [hbody, scanValue_Marshal r hutf hrange]
  cases body.err <;> rfl

/-- Decoding a stream whose bytes are the encoding of a search result with valid
UTF-8 strings: the games and the count come back, in a slice of exactly these
games (nil for nil). -/
theorem Decode_Marshal (r : api.SearchResult) (hutf : r.isUTF8 = true)
    (hrange : r.inRange = true) (body : io.ReadCloser) (hbody : body.data = Marshal r) :
    Decode body api.SearchResult.zero
      = ((match r.Games with
          | .nil => { Games := .nil, Count := r.Count }
          | .slice _ _ =>
            { Games := .slice r.Games.toList r.Games.toList.length, Count := r.Count }), none) := by
  have hread := readValue_Marshal r hutf hrange body hbody
  simp only [api.SearchResult.inRange, Bool.and_eq_true, decide_eq_true_eq,
    List.all_eq_true] at hrange
  obtain ⟨hcount, hyear⟩ := hrange
  have f0 : findField resultFields (ascii "games") = some 0 := by decide
  have f1 : findField resultFields (ascii "count") = some 1 := by decide
  unfold Decode
  rw [hread]
  cases hg : r.Games with
  | nil =>
    simp only [unmarshal, decodeResultMembers, decodeResultMember, f0, f1,
      decodeGames, storeUint, strconv.ParseUint_FormatUint _ hcount,
      api.SearchResult.zero]
  | slice backing len =>
    rw [hg] at hyear
    have hel := decodeGameElems_objects (api.GameSlice.slice backing len).toList [] hyear
    simp only [List.length_nil, List.nil_append, Nat.zero_add] at hel
    simp only [unmarshal, decodeResultMembers, decodeResultMember, f0, f1,
      decodeGames, storeUint, strconv.ParseUint_FormatUint _ hcount,
      api.SearchResult.zero, hel, List.length_map]
    by_cases h0 : (api.GameSlice.slice backing len).toList.length = 0
    · have : (api.GameSlice.slice backing len).toList = [] := List.length_eq_zero.mp h0
      simp [this]
    · simp [h0]

end json

/-- C7, the claim as stated fails for a string that is not valid UTF-8: the
encoder writes the escape of U+FFFD for an invalid byte, so a game named by the
single byte `0xFF` comes back named by the three bytes of U+FFFD. -/
theorem marshal_decode_invalid_utf8 :
    json.Decode
        { data := json.Marshal
            { Games := .slice [{ api.Game.zero with Name := [0xFF] }] 1, Count := 1 },
          err := none }
        api.SearchResult.zero
      = ({ Games := .slice [{ api.Game.zero with Name := [0xEF, 0xBF, 0xBD] }] 1, Count := 1 },
          none)
    ∧ ([0xEF, 0xBF, 0xBD] : GoString) ≠ [0xFF] := by
  decide

/-- C7 as amended: for every `SearchResult` whose strings are valid UTF-8 (the
`uint` fields holding 64-bit values), decoding its JSON encoding succeeds and
gives the same list of games, in the same order with the same field values, and
the same count; a nil slice of games comes back nil. -/
theorem marshal_decode_roundtrip (r : api.SearchResult) (hutf : r.isUTF8 = true)
    (hrange : r.inRange = true) :
    (json.Decode { data := json.Marshal r, err := none } api.SearchResult.zero).2 = none
    ∧ (json.Decode { data := json.Marshal r,
                     err := none } api.SearchResult.zero).1.Games.toList = r.Games.toList
    ∧ (json.Decode { data := json.Marshal r, err := none } api.SearchResult.zero).1.Count = r.Count
    ∧ ((json.Decode { data := json.Marshal r,
                      err := none } api.SearchResult.zero).1.Games = .nil ↔ r.Games = .nil) := by
  have hdec := json.Decode_Marshal r hutf hrange { data := json.Marshal r, err := none } rfl
  rw [hdec]
  cases hg : r.Games with
  | nil => simp [api.GameSlice.toList]
  | slice backing len => simp [api.GameSlice.toList]

/-- C7 as amended, at a result with two games whose strings hold quotes, control
characters, `<`, and runes of two, three and four bytes. -/
theorem marshal_decode_roundtrip_witness :
    (json.Decode
        { data := json.Marshal
            { Games := .slice
                [{ api.Game.zero with
                    Id := ascii "a1",
                    Name := ascii "Say \"<hi>\"\n" ++ [0xC3, 0xA9, 0xE2, 0x80, 0xA8],
                    YearPublished := 1995, Url := [0xF0, 0x9F, 0x8E, 0xB2] },
                 api.Game.zero] 2,
              Count := 18446744073709551615 },
          err := none }
        api.SearchResult.zero).1.Games.toList
      = [{ api.Game.zero with
            Id := ascii "a1", Name := ascii "Say \"<hi>\"\n" ++ [0xC3, 0xA9, 0xE2, 0x80, 0xA8],
            YearPublished := 1995, Url := [0xF0, 0x9F, 0x8E, 0xB2] },
         api.Game.zero] :=
  (marshal_decode_roundtrip
    { Games := .slice
        [{ api.Game.zero with
            Id := ascii "a1", Name := ascii "Say \"<hi>\"\n" ++ [0xC3, 0xA9, 0xE2, 0x80, 0xA8],
            YearPublished := 1995, Url := [0xF0, 0x9F, 0x8E, 0xB2] },
         api.Game.zero] 2,
      Count := 18446744073709551615 }
    (by decide) (by decide)).2.1

/-! ## Decoding an object of the documented shape -/

namespace json

theorem isString_cases (v : Value) (h : v.isString = true) : ∃ s, v = .string s := by
  cases v <;> simp [Value.isString] at h
  exact ⟨_, rfl⟩

theorem isUint_cases (v : Value) (h : v.isUint = true) :
    ∃ lit n, v = .number lit ∧ strconv.ParseUint lit = some n := by
  cases v <;> simp [Value.isUint] at h
  rename_i lit
  cases hp : strconv.ParseUint lit with
  | none => simp [hp] at h
  | some n => exact ⟨lit, n, rfl, hp⟩

/-- Decoding the members of a game object of the documented shape into a `Game`:
each field of the schema gets the value under its key and keeps its value when
the key is absent; no error is saved. -/
theorem decodeGameMembers_shape (ms : List (GoString × Value)) (g : api.Game)
    (h : gameShape ms = true) :
    decodeGameMembers ms g none
      = ({ Id := stringOr g.Id (member ms (ascii "id")),
           Name := stringOr g.Name (member ms (ascii "name")),
           Price := stringOr g.Price (member ms (ascii "price")),
           YearPublished := uintOr g.YearPublished (member ms (ascii "year_published")),
           Description := stringOr g.Description (member ms (ascii "description")),
           Url := stringOr g.Url (member ms (ascii "official_url")),
           ImageUrl := stringOr g.ImageUrl (member ms (ascii "image_url")),
           RulesUrl := stringOr g.RulesUrl (member ms (ascii "rules_url")) }, none) := by
  have f0 : findField gameFields (ascii "id") = some 0 := by decide
  have f1 : findField gameFields (ascii "name") = some 1 := by decide
  have f2 : findField gameFields (ascii "price") = some 2 := by decide
  have f3 : findField gameFields (ascii "year_published") = some 3 := by decide
  have f4 : findField gameFields (ascii "description") = some 4 := by decide
  have f5 : findField gameFields (ascii "official_url") = some 5 := by decide
  have f6 : findField gameFields (ascii "image_url") = some 6 := by decide
  have f7 : findField gameFields (ascii "rules_url") = some 7 := by decide
  induction ms generalizing g with
  | nil => simp [decodeGameMembers, member, stringOr, uintOr]
  | cons m ms ih =>
    obtain ⟨k, v⟩ := m
    simp only [gameShape, Bool.and_eq_true, Bool.or_eq_true, Bool.not_eq_true',
      Option.isNone_iff_eq_none] at h
    obtain ⟨⟨h1, h2⟩, h3⟩ := h
    rw [decodeGameMembers]
    by_cases k3 : k = ascii "year_published"
    · subst k3
      simp only [if_true] at h1
      obtain ⟨lit, n, rfl, hn⟩ := isUint_cases v h1
      have hmem : member ms (ascii "year_published") = none := by
        rcases h2 with h2 | h2
        · exact absurd h2 (by decide)
        · exact h2
      simp +decide only [decodeGameMember, f3, storeUint, hn, ih _ h3, member, hmem, stringOr,
        uintOr, if_true, if_false, Option.getD_some]
    · simp only [k3, if_false] at h1
      by_cases hk : gameFields.contains k = true
      · simp only [hk, if_true] at h1
        obtain ⟨s, rfl⟩ := isString_cases v h1
        have hmem : member ms k = none := by
          rcases h2 with h2 | h2
          · rw [hk] at h2; cases h2
          · exact h2
        have hcases : k = ascii "id" ∨ k = ascii "name" ∨ k = ascii "price"
            ∨ k = ascii "description" ∨ k = ascii "official_url" ∨ k = ascii "image_url"
            ∨ k = ascii "rules_url" := by
          simp only [gameFields, List.contains_cons, List.contains_nil, Bool.or_false,
            Bool.or_eq_true, beq_iff_eq] at hk
          tauto
        rcases hcases with rfl | rfl | rfl | rfl | rfl | rfl | rfl
        · simp +decide only [decodeGameMember, f0, storeString, ih _ h3, member, hmem, stringOr,
            uintOr, if_true, if_false]
        · simp +decide only [decodeGameMember, f1, storeString, ih _ h3, member, hmem, stringOr,
            uintOr, if_true, if_false]
        · simp +decide only [decodeGameMember, f2, storeString, ih _ h3, member, hmem, stringOr,
            uintOr, if_true, if_false]
        · simp +decide only [decodeGameMember, f4, storeString, ih _ h3, member, hmem, stringOr,
            uintOr, if_true, if_false]
        · simp +decide only [decodeGameMember, f5, storeString, ih _ h3, member, hmem, stringOr,
            uintOr, if_true, if_false]
        · simp +decide only [decodeGameMember, f6, storeString, ih _ h3, member, hmem, stringOr,
            uintOr, if_true, if_false]
        · simp +decide only [decodeGameMember, f7, storeString, ih _ h3, member, hmem, stringOr,
            uintOr, if_true, if_false]
      · simp only [hk, Option.isNone_iff_eq_none] at h1
        have h1' : findField gameFields k = none := by simpa using h1
        have hne : k ≠ ascii "id" ∧ k ≠ ascii "name" ∧ k ≠ ascii "price"
            ∧ k ≠ ascii "description" ∧ k ≠ ascii "official_url" ∧ k ≠ ascii "image_url"
            ∧ k ≠ ascii "rules_url" := by
          simp only [gameFields, List.contains_cons, List.contains_nil, Bool.or_false,
            Bool.or_eq_true, beq_iff_eq, not_or] at hk
          tauto
        obtain ⟨n0, n1, n2, n4, n5, n6, n7⟩ := hne
        simp only [decodeGameMember, h1', ih _ h3, member, k3, n0, n1, n2, n4, n5, n6, n7,
          if_false]

end json

namespace json

/-- Decoding a game object of the documented shape into a zero element. -/
theorem decodeGame_shape (e : Value) (h : e.isGame = true) :
    decodeGame api.Game.zero e none = (gameOfValue e, none) := by
  cases e with
  | object ms =>
    simp only [Value.isGame] at h
    simp only [decodeGame, decodeGameMembers_shape ms _ h, gameOfValue, gameOf, api.Game.zero]
  | null => simp [Value.isGame] at h
  | bool b => simp [Value.isGame] at h
  | number l => simp [Value.isGame] at h
  | string s => simp [Value.isGame] at h
  | array es => simp [Value.isGame] at h

/-- Decoding an array of game objects of the documented shape into a slice that
is full appends their games. -/
theorem decodeGameElems_shape (elems : List Value) (backing : List api.Game)
    (h : ∀ e ∈ elems, e.isGame = true) :
    decodeGameElems elems backing.length backing backing.length none
      = (backing ++ elems.map gameOfValue, backing.length + elems.length, none) := by
  induction elems generalizing backing with
  | nil => simp [decodeGameElems]
  | cons e es ih =>
    simp only [List.map_cons, decodeGameElems, ge_iff_le, le_refl, if_true]
    have hget : (backing ++ [api.Game.zero]).getD backing.length api.Game.zero
        = api.Game.zero := by
      simp [List.getD_eq_getElem?_getD]
    rw [hget, decodeGame_shape e (h e (by simp))]
    have hset : (backing ++ [api.Game.zero]).set backing.length (gameOfValue e)
        = backing ++ [gameOfValue e] := by
      rw [List.set_append_right _ _ (le_refl _)]
      simp
    simp only [hset]
    have := ih (backing ++ [gameOfValue e]) (fun x hx => h x (by simp [hx]))
    simp only [List.length_append, List.length_cons, List.length_nil, Nat.zero_add] at this
    rw [this]
    simp only [List.append_assoc, List.singleton_append, List.length_cons]
    refine Prod.ext rfl (Prod.ext ?_ rfl)
    simp only []
    omega

/-- Decoding the array `games` of the documented shape into the nil slice. -/
theorem decodeGames_shape (elems : List Value) (h : ∀ e ∈ elems, e.isGame = true) :
    (decodeGames .nil (.array elems) none).2 = none
      ∧ (decodeGames .nil (.array elems) none).1.toList = elems.map gameOfValue := by
  have hel := decodeGameElems_shape elems [] h
  simp only [List.length_nil, List.nil_append, Nat.zero_add] at hel
  simp only [decodeGames, hel]
  by_cases h0 : elems.length = 0
  · have : elems = [] := List.length_eq_zero.mp h0
    simp [this, api.GameSlice.toList]
  · simp [h0, api.GameSlice.toList]

/-- Decoding the members of a response object of the documented shape into a
`SearchResult` whose games are nil when the object has the key `games`: the
games and the count are those under the two keys, an absent key leaves the field
as it is, and no error is saved. -/
theorem decodeResultMembers_shape (ms : List (GoString × Value)) (r : api.SearchResult)
    (h : resultShape ms = true)
    (hnil : (member ms (ascii "games")).isSome = true → r.Games = .nil) :
    (decodeResultMembers ms r none).2 = none
      ∧ (decodeResultMembers ms r none).1.Games.toList
          = (match member ms (ascii "games") with
              | some (.array elems) => elems.map gameOfValue
              | _ => r.Games.toList)
      ∧ (decodeResultMembers ms r none).1.Count = uintOr r.Count (member ms (ascii "count")) := by
  have f0 : findField resultFields (ascii "games") = some 0 := by decide
  have f1 : findField resultFields (ascii "count") = some 1 := by decide
  induction ms generalizing r with
  | nil => simp [decodeResultMembers, member, uintOr]
  | cons m ms ih =>
    obtain ⟨k, v⟩ := m
    simp only [resultShape, Bool.and_eq_true, Bool.or_eq_true, Bool.not_eq_true',
      Option.isNone_iff_eq_none] at h
    obtain ⟨⟨h1, h2⟩, h3⟩ := h
    rw [decodeResultMembers]
    by_cases k0 : k = ascii "games"
    · subst k0
      simp only [if_true] at h1
      have hmem : member ms (ascii "games") = none := by
        rcases h2 with h2 | h2
        · exact absurd h2 (by decide)
        · exact h2
      have hr : r.Games = .nil := hnil (by simp [member])
      cases v with
      | array elems =>
        simp only [List.all_eq_true] at h1
        obtain ⟨d1, d2⟩ := decodeGames_shape elems h1
        have hstep : decodeResultMember r none (ascii "games", .array elems)
            = ({ r with Games := (decodeGames .nil (.array elems) none).1 }, none) := by
          simp only [decodeResultMember, f0, hr, d1]
        rw [hstep]
        obtain ⟨i1, i2, i3⟩ := ih { r with Games := (decodeGames .nil (.array elems) none).1 }
          h3 (by simp [hmem])
        refine ⟨i1, ?_, ?_⟩
        · rw [i2, hmem]
          simp only [member, if_true, d2]
        · rw [i3]
          simp +decide only [member, if_false]
      | null => simp at h1
      | bool b => simp at h1
      | number l => simp at h1
      | string s => simp at h1
      | object o => simp at h1
    · simp only [k0, if_false] at h1
      by_cases k1 : k = ascii "count"
      · subst k1
        simp only [if_true] at h1
        obtain ⟨lit, n, rfl, hn⟩ := isUint_cases v h1
        have hmem : member ms (ascii "count") = none := by
          rcases h2 with h2 | h2
          · exact absurd h2 (by decide)
          · exact h2
        have hstep : decodeResultMember r none (ascii "count", .number lit)
            = ({ r with Count := n }, none) := by
          simp only [decodeResultMember, f1, storeUint, hn]
        rw [hstep]
        obtain ⟨i1, i2, i3⟩ := ih { r with Count := n } h3
          (fun hs => hnil (by simpa +decide [member] using hs))
        refine ⟨i1, ?_, ?_⟩
        · rw [i2]
          simp +decide only [member, if_false]
        · rw [i3, hmem]
          simp only [member, if_true, uintOr, hn, Option.getD_some]
      · simp only [k1, if_false, Option.isNone_iff_eq_none] at h1
        have hstep : decodeResultMember r none (k, v) = (r, none) := by
          simp only [decodeResultMember, h1]
        rw [hstep]
        obtain ⟨i1, i2, i3⟩ := ih r h3 (fun hs => hnil (by simpa [member, k0] using hs))
        refine ⟨i1, ?_, ?_⟩
        · rw [i2]
          simp only [member, k0, if_false]
        · rw [i3]
          simp only [member, k1, if_false]

end json

/-- C2, the claim as stated fails for keys outside the schema that are keys of
the schema in another letter case: they are not ignored.  In this body the game
has the name `Catan` under `name` and the count is 1 under `count`, but the
later keys `NAME` and `Count` are decoded into the same fields, and `Search`
returns a game named `Risk` and the count 7. -/
theorem search_key_letter_case :
    ((api.New (ascii "id")).Search
        (fun _ => .ok { StatusCode := 200, Status := ascii "200 OK",
                        Body := { data := ascii ("\x7b\"games\":[\x7b\"id\":\"1\",\"name\":\"Catan\","
                          ++ "\"NAME\":\"Risk\"\x7d],\"count\":1,\"Count\":7\x7d"), err := none } })
        (some .Background) (ascii "catan") 10 0).result
      = some { Games := .slice [{ api.Game.zero with Id := ascii "1", Name := ascii "Risk" }] 1,
               Count := 7 }
    ∧ json.gamesOf
        [(ascii "games", .array [.object [(ascii "id", .string (ascii "1")),
            (ascii "name", .string (ascii "Catan")), (ascii "NAME", .string (ascii "Risk"))]]),
         (ascii "count", .number (ascii "1")), (ascii "Count", .number (ascii "7"))]
      = [{ api.Game.zero with Id := ascii "1", Name := ascii "Catan" }]
    ∧ json.countOf
        [(ascii "games", .array [.object [(ascii "id", .string (ascii "1")),
            (ascii "name", .string (ascii "Catan")), (ascii "NAME", .string (ascii "Risk"))]]),
         (ascii "count", .number (ascii "1")), (ascii "Count", .number (ascii "7"))]
      = 1
    ∧ (json.gameFields.contains (ascii "NAME") = false
        ∧ json.resultFields.contains (ascii "Count") = false) := by
  decide

/-- C2 as amended: for a response with a status below 400, (1) when the body
starts with a JSON object of the documented shape, in which every key outside
the schema is also no key of the schema in another letter case, `Search` returns
a result and no error; the games of the result are the elements of the array
`games` in the same order, each field read from its key, the count is the value
of `count`, the other keys are ignored and an absent key leaves the zero value;
(2) when the bytes of the body are the JSON encoding of a search result with
valid UTF-8 strings, `Search` returns its games and its count. -/
theorem search_decodes_documented_shape (b : api.BoardgameAtlas)
    (net : http.Request → Except GoString http.Response) (ctx : Option context.Context)
    (query : GoString) (limit skip : Nat) (req : http.Request) (resp : http.Response)
    (hreq : api.searchRequest b ctx query limit skip = .ok req)
    (hresp : http.Do net req = .ok resp) (hstatus : resp.StatusCode < 400) :
    (∀ members : List (GoString × json.Value),
      json.readValue resp.Body = .ok (.object members) →
      json.resultShape members = true →
      ∃ result, b.Search net ctx query limit skip
          = { result := some result, err := none, sent := [req] }
        ∧ result.Games.toList = json.gamesOf members
        ∧ result.Count = json.countOf members)
    ∧ (∀ r : api.SearchResult, r.isUTF8 = true → r.inRange = true →
      resp.Body.data = json.Marshal r →
      ∃ result, b.Search net ctx query limit skip
          = { result := some result, err := none, sent := [req] }
        ∧ result.Games.toList = r.Games.toList
        ∧ result.Count = r.Count) := by
  have hctx : req.ctx.Err = none := by
    unfold http.Do at hresp
    cases h : req.ctx.Err with
    | none => rfl
    | some e => rw [h] at hresp; cases hresp
  have hst2 : ¬ resp.StatusCode ≥ 400 := by omega
  refine ⟨?_, ?_⟩
  · intro members hbody hshape
    obtain ⟨d1, d2, d3⟩ := json.decodeResultMembers_shape members api.SearchResult.zero hshape
      (fun _ => rfl)
    have hdec : json.Decode resp.Body api.SearchResult.zero
        = ((json.decodeResultMembers members api.SearchResult.zero none).1, none) := by
      simp only [json.Decode, hbody, json.unmarshal, d1]
    refine ⟨(json.decodeResultMembers members api.SearchResult.zero none).1, ?_, ?_, ?_⟩
    · simp only [api.BoardgameAtlas.Search, hreq, hresp, hctx, hst2, if_false, hdec]
    · rw [d2]
      unfold json.gamesOf
      cases json.member members (ascii "games") with
      | none => rfl
      | some v => cases v <;> rfl
    · rw [d3]; rfl
  · intro r hutf hrange hbody
    have hdec := json.Decode_Marshal r hutf hrange resp.Body hbody
    have hpair : json.Decode resp.Body api.SearchResult.zero
        = ((json.Decode resp.Body api.SearchResult.zero).1, none) := by
      rw [hdec]
    refine ⟨(json.Decode resp.Body api.SearchResult.zero).1, ?_, ?_, ?_⟩
    · rw [api.BoardgameAtlas.Search]
      simp only [hreq, hresp, hctx, hst2, if_false]
      rw [hpair]
    · rw [hdec]
      cases hg : r.Games with
      | nil => rfl
      | slice backing len => simp [api.GameSlice.toList]
    · rw [hdec]
      cases hg : r.Games <;> rfl

/-- C2 at the body of the specification: one game named `Catan`, count 1. -/
theorem search_decodes_documented_shape_witness :
    ∃ result, (api.New (ascii "id")).Search
        (fun _ => .ok { StatusCode := 200, Status := ascii "200 OK",
                        Body := { data := ascii ("\x7b\"games\":[\x7b\"id\":\"1\",\"name\":\"Catan\","
                          ++ "\"description\":\"d\",\"official_url\":\"u\"\x7d],\"count\":1\x7d"),
                                  err := none } })
        (some .Background) (ascii "catan") 10 0
        = { result := some result, err := none,
            sent := [{ Method := ascii "GET",
                       URL := { api.SEARCH_URL_parsed with
                                  RawQuery := ascii "client_id=id&limit=10&name=catan&skip=0" },
                       ctx := .Background }] }
      ∧ result.Games.toList
          = [{ api.Game.zero with Id := ascii "1", Name := ascii "Catan",
                                  Description := ascii "d", Url := ascii "u" }]
      ∧ result.Count = 1 :=
  (search_decodes_documented_shape (api.New (ascii "id"))
    (fun _ => .ok { StatusCode := 200, Status := ascii "200 OK",
                    Body := { data := ascii ("\x7b\"games\":[\x7b\"id\":\"1\",\"name\":\"Catan\","
                      ++ "\"description\":\"d\",\"official_url\":\"u\"\x7d],\"count\":1\x7d"),
                              err := none } })
    (some .Background) (ascii "catan") 10 0
    { Method := ascii "GET",
      URL := { api.SEARCH_URL_parsed with
                 RawQuery := ascii "client_id=id&limit=10&name=catan&skip=0" },
      ctx := .Background }
    { StatusCode := 200, Status := ascii "200 OK",
      Body := { data := ascii ("\x7b\"games\":[\x7b\"id\":\"1\",\"name\":\"Catan\","
        ++ "\"description\":\"d\",\"official_url\":\"u\"\x7d],\"count\":1\x7d"), err := none } }
    rfl rfl (by decide)).1
    [(ascii "games", .array [.object [(ascii "id", .string (ascii "1")),
        (ascii "name", .string (ascii "Catan")), (ascii "description", .string (ascii "d")),
        (ascii "official_url", .string (ascii "u"))]]),
     (ascii "count", .number (ascii "1"))]
    rfl (by decide)
